import Mathlib

/-!
# objReader: the Wavefront .obj loader of objRenderer

A shallow embedding of `src/objRenderer/objReader.cpp` (function `objReader` and the
global variables it fills) and the properties of the loader proved about it.

Modelling decisions.

* A `float` is modelled by the rational number it holds. The arithmetic of `float` is a
  parameter, `FloatModel`: `round` gives the `float` for a real number (the value `>>`
  stores for a number as written, and the result of `1.0f - y`), and `overflow` tells
  that a written number lies beyond the range of `float`, in which case `>>` sets the
  fail state. The general theorems hold in every such arithmetic; `float32` is the
  arithmetic of the program (IEEE binary32, round to nearest, ties to even), and the
  examples are evaluated in it. `z * -1.0f` is exact in every arithmetic. The two
  zeros of `float` are the one rational 0, as `==` finds them equal; `>>` reads digits
  only, so that no infinity and no NaN arises.
* `int` is `Int` and `DWORD` is `Nat`, both unbounded: the index variables count
  statements of the file and stay far below `2^31`.
* The file is the list of its lines, as `getline` delivers them; `none` stands for a
  file that cannot be opened.
* An access outside a vector and the use of an indeterminate `int` (a local that no
  extraction wrote) are undefined behaviour in C++; the embedding makes both explicit
  as the result `none` (`Flow.undefined` inside the loop).
-/

namespace ObjReader

/-! ## Data model (objReader.h) -/

/-- DirectX::XMFLOAT3, three floats. -/
structure XMFLOAT3 where
  x : ℚ
  y : ℚ
  z : ℚ
deriving DecidableEq

/-- DirectX::XMFLOAT2, two floats. -/
structure XMFLOAT2 where
  x : ℚ
  y : ℚ
deriving DecidableEq

/-- The VERTEX structure of objReader.h: one set of vertex attributes. -/
structure VERTEX where
  GeometricVertex : XMFLOAT3
  VertexNormalVector : XMFLOAT3
  VertexTextureCoordinate : XMFLOAT2
deriving DecidableEq

/-- The global variables defined in objReader.cpp (lines 47-66). -/
structure Globals where
  OurVertices : List VERTEX
  OurVerticesi : Int
  VertexAttributeSetsTotal : Int
  OurIndices : List Nat
  OurIndicesi : Int
  PrimitivesTotal : Int
  v : List XMFLOAT3
  vi : Int
  vt : List XMFLOAT2
  vti : Int
  vn : List XMFLOAT3
  vni : Int
  OurIndicesFaceTriplet : List Int
  OurIndicesFaceTripleti : Int
deriving DecidableEq

/-- The globals as their definitions initialise them, before the first call. -/
def fresh : Globals where
  OurVertices := []
  OurVerticesi := -1
  VertexAttributeSetsTotal := 0
  OurIndices := []
  OurIndicesi := -1
  PrimitivesTotal := 0
  v := []
  vi := -1
  vt := []
  vti := -1
  vn := []
  vni := -1
  OurIndicesFaceTriplet := [0, 0, 0]
  OurIndicesFaceTripleti := 0

/-- Element read `xs[i]` with an `int` index: `none` outside the vector. -/
def getAt {α : Type} (xs : List α) (i : Int) : Option α :=
  if 0 ≤ i then xs[i.toNat]? else none

/-- Element read `xs[i]` where `i` may be indeterminate. -/
def getIdx {α : Type} (xs : List α) (i : Option Int) : Option α :=
  i.bind (getAt xs)

/-- Element write `xs[i] = a` with an `int` index: `none` outside the vector. -/
def setAt {α : Type} (xs : List α) (i : Int) (a : α) : Option (List α) :=
  if 0 ≤ i ∧ i.toNat < xs.length then some (xs.set i.toNat a) else none

/-! ## The arithmetic of `float` -/

/-- The arithmetic of the type `float` as the loader uses it. A `float` is modelled by
the rational number it holds; the two zeros are one value, as `==` has them, and the
loader produces no infinity and no NaN. `round q` is the `float` that stands for the
real number `q`: the extraction `>>` of a number written as `q` stores `round q`, and
`1.0f - y` is `round (1 - y)`. `overflow q` tells that `q` lies beyond the range of
`float`; the extraction of such a number sets the fail state of the stream. -/
class FloatModel where
  round : ℚ → ℚ
  overflow : ℚ → Bool

/-- The number of halvings that bring `n` below 2, at most `fuel`: with `fuel = n` the
integer part of the binary logarithm of a positive `n`. -/
def halvings : Nat → Nat → Nat
  | 0, _ => 0
  | fuel + 1, n => if n < 2 then 0 else halvings fuel (n / 2) + 1

/-- The integer part of the binary logarithm of `n / d`, for positive `n` and `d`. -/
def floorLog2 (n d : Nat) : Int :=
  let t : Int := (halvings n n : Int) - (halvings d d : Int)
  if (if 0 ≤ t then d * 2 ^ t.toNat ≤ n else d ≤ n * 2 ^ (-t).toNat) then t else t - 1

/-- The quotient `n / d` rounded to the nearest natural number, a tie to the even one. -/
def roundHalfEven (n d : Nat) : Nat :=
  if d < 2 * (n % d) ∨ (d = 2 * (n % d) ∧ (n / d) % 2 = 1) then n / d + 1 else n / d

/-- The binary32 number nearest to `q`, ties to even, with gradual underflow and without
a largest exponent: 24 significant bits, the unit in the last place not below
`2 ^ (-149)`. -/
def nearest32 (q : ℚ) : ℚ :=
  if q.num = 0 then 0
  else
    let s : Int := max (floorLog2 q.num.natAbs q.den) (-126) - 23
    let k : Nat :=
      if 0 ≤ s then roundHalfEven q.num.natAbs (q.den * 2 ^ s.toNat)
      else roundHalfEven (q.num.natAbs * 2 ^ (-s).toNat) q.den
    let a : ℚ :=
      if 0 ≤ s then ((k * 2 ^ s.toNat : Nat) : ℚ) else (k : ℚ) / ((2 ^ (-s).toNat : Nat) : ℚ)
    if q.num < 0 then -a else a

/-- The largest finite `float`, `(2 ^ 24 - 1) * 2 ^ 104`. -/
def FLT_MAX : ℚ :=
  ((2 ^ 24 - 1) * 2 ^ 104 : Nat)

/-- The real number `q` rounds to an infinity of binary32. -/
def overflow32 (q : ℚ) : Bool :=
  decide (FLT_MAX < nearest32 q ∨ nearest32 q < -FLT_MAX)

/-- The `float` for the real number `q`: the nearest binary32 number; beyond the range
the extraction `>>` stores the largest finite value of the sign of `q`. -/
def round32 (q : ℚ) : ℚ :=
  if overflow32 q then (if q.num < 0 then -FLT_MAX else FLT_MAX) else nearest32 q

/-- The arithmetic of the program: IEEE binary32. -/
instance float32 : FloatModel :=
  ⟨round32, overflow32⟩

/-- Exact arithmetic: every real number is a `float`. -/
def exactArithmetic : FloatModel :=
  ⟨fun q => q, fun _ => false⟩

/-! ## Formatted input from one line (std::istringstream) -/

/-- The unread characters of the line and the stream's fail state. -/
structure IStream where
  buf : List Char
  fail : Bool
deriving DecidableEq

/-- std::isspace in the C locale: space, and tab to carriage return. -/
def isspace (c : Char) : Bool :=
  c.toNat = 32 || (9 ≤ c.toNat && c.toNat ≤ 13)

/-- std::isdigit. -/
def isdigit (c : Char) : Bool :=
  48 ≤ c.toNat && c.toNat ≤ 57

/-- Drop leading whitespace. -/
def skipws : List Char → List Char
  | [] => []
  | c :: cs => if isspace c then skipws cs else c :: cs

/-- The sentry of a formatted extraction: a failed stream stays failed and nothing is
read; otherwise leading whitespace is skipped, and reaching the end of the line sets
the fail state. The flag tells whether the extraction goes on. -/
def sentry (st : IStream) : IStream × Bool :=
  if st.fail then (st, false)
  else match skipws st.buf with
    | [] => (⟨[], true⟩, false)
    | c :: cs => (⟨c :: cs, false⟩, true)

/-- Extraction of a word, `lineStream >> type`: the characters up to the next
whitespace. The target was an empty string and stays so when nothing is read. -/
def extractString (st : IStream) : String × IStream :=
  match sentry st with
  | (st1, false) => ("", st1)
  | (st1, true) =>
    (String.mk (st1.buf.takeWhile (fun c => !isspace c)),
      ⟨st1.buf.dropWhile (fun c => !isspace c), false⟩)

/-- Extraction of one character, `lineStream >> slash`. -/
def extractChar (st : IStream) : IStream :=
  match sentry st with
  | (st1, false) => st1
  | (st1, true) => ⟨st1.buf.tail, false⟩

/-- An optional sign: whether it is a minus, and the characters after it. -/
def readSign : List Char → Bool × List Char
  | [] => (false, [])
  | c :: cs => if c = '-' then (true, cs) else if c = '+' then (false, cs) else (false, c :: cs)

/-- The number spelled by a run of decimal digits. -/
def digitsValue (ds : List Char) : Nat :=
  ds.foldl (fun n c => 10 * n + (c.toNat - 48)) 0

/-- Extraction of an `int`, `lineStream >> fv`: an optional sign and decimal digits.
`old` is the target before the extraction (`none` when indeterminate): it is kept when
the sentry fails; a field without digits stores 0 and a value out of range stores the
nearest limit, both with the fail state set. -/
def extractInt (st : IStream) (old : Option Int) : Option Int × IStream :=
  match sentry st with
  | (st1, false) => (old, st1)
  | (st1, true) =>
    let sg := readSign st1.buf
    let ds := sg.2.takeWhile isdigit
    let rest := sg.2.dropWhile isdigit
    if ds = [] then (some 0, ⟨rest, true⟩)
    else
      let n : Int := if sg.1 then -(digitsValue ds : Int) else (digitsValue ds : Int)
      if 2147483647 < n then (some 2147483647, ⟨rest, true⟩)
      else if n < -2147483648 then (some (-2147483648), ⟨rest, true⟩)
      else (some n, ⟨rest, false⟩)

/-- The fraction digits after a decimal point, and the characters after them. -/
def readFraction : List Char → List Char × List Char
  | [] => ([], [])
  | c :: cs => if c = '.' then (cs.takeWhile isdigit, cs.dropWhile isdigit) else ([], c :: cs)

/-- The decimal exponent after the mantissa `m`: the value, the characters left and
whether the field is ill-formed (an `e` without digits). -/
def readExponent (m : ℚ) : List Char → ℚ × List Char × Bool
  | [] => (m, [], false)
  | c :: cs =>
    if c = 'e' ∨ c = 'E' then
      let sg := readSign cs
      let ds := sg.2.takeWhile isdigit
      let rest := sg.2.dropWhile isdigit
      if ds = [] then (0, rest, true)
      else if sg.1 then (m / 10 ^ digitsValue ds, rest, false)
      else (m * 10 ^ digitsValue ds, rest, false)
    else (m, c :: cs, false)

/-- Extraction of a `float`, `lineStream >> v[vi].x`: sign, digits, optional fraction,
optional exponent. `old` is the target before the extraction: it is kept when the
sentry fails, and an ill-formed field stores 0 with the fail state set. A well-formed
field stores the `float` for the number written; beyond the range of `float` that is
the largest finite value, and the fail state is set. -/
def extractFloat [FloatModel] (st : IStream) (old : ℚ) : ℚ × IStream :=
  match sentry st with
  | (st1, false) => (old, st1)
  | (st1, true) =>
    let sg := readSign st1.buf
    let ip := sg.2.takeWhile isdigit
    let fr := readFraction (sg.2.dropWhile isdigit)
    if ip = [] ∧ fr.1 = [] then (0, ⟨fr.2, true⟩)
    else
      let m : ℚ := (digitsValue ip : ℚ) + (digitsValue fr.1 : ℚ) / 10 ^ fr.1.length
      let ex := readExponent (if sg.1 then -m else m) fr.2
      if ex.2.2 then (0, ⟨ex.2.1, true⟩)
      else (FloatModel.round ex.1, ⟨ex.2.1, FloatModel.overflow ex.1⟩)

/-! ## The loader (objReader.cpp, lines 75-258) -/

/-- Control flow after one statement of the file: go on with the next line, return
from objReader with a code, or undefined behaviour. -/
inductive Flow where
  | next (g : Globals)
  | ret (rc : Int) (g : Globals)
  | undefined
  deriving DecidableEq

/-- The three operands of `v` and `vn` statements read into one array element,
`lineStream >> e.x >> e.y >> e.z` (lines 119 and 125). -/
def extract3 [FloatModel] (ls : IStream) (e : XMFLOAT3) : XMFLOAT3 :=
  let rx := extractFloat ls e.x
  let ry := extractFloat rx.2 e.y
  let rz := extractFloat ry.2 e.z
  ⟨rx.1, ry.1, rz.1⟩

/-- The two operands of a `vt` statement, `lineStream >> e.x >> e.y` (line 131). -/
def extract2 [FloatModel] (ls : IStream) (e : XMFLOAT2) : XMFLOAT2 :=
  let rx := extractFloat ls e.x
  let ry := extractFloat rx.2 e.y
  ⟨rx.1, ry.1⟩

/-- A geometric vertex statement (lines 117-119): `vi++`, a new zero element, and the
operands read into `v[vi]`. -/
def stmtV [FloatModel] (g : Globals) (ls : IStream) : Flow :=
  let vi := g.vi + 1
  let v := g.v ++ [⟨0, 0, 0⟩]
  match getAt v vi with
  | none => .undefined
  | some e =>
    match setAt v vi (extract3 ls e) with
    | none => .undefined
    | some v1 => .next { g with vi := vi, v := v1 }

/-- A vertex normal statement (lines 123-125). -/
def stmtVn [FloatModel] (g : Globals) (ls : IStream) : Flow :=
  let vni := g.vni + 1
  let vn := g.vn ++ [⟨0, 0, 0⟩]
  match getAt vn vni with
  | none => .undefined
  | some e =>
    match setAt vn vni (extract3 ls e) with
    | none => .undefined
    | some vn1 => .next { g with vni := vni, vn := vn1 }

/-- A texture coordinate statement (lines 129-131). -/
def stmtVt [FloatModel] (g : Globals) (ls : IStream) : Flow :=
  let vti := g.vti + 1
  let vt := g.vt ++ [⟨0, 0⟩]
  match getAt vt vti with
  | none => .undefined
  | some e =>
    match setAt vt vti (extract2 ls e) with
    | none => .undefined
    | some vt1 => .next { g with vti := vti, vt := vt1 }

/-- One face element triplet, `lineStream >> fv >> slash >> fvt >> slash >> fvn`
(line 161): the three indices as read (the locals are indeterminate before), and the
stream after them. -/
def readTriplet (ls : IStream) : (Option Int × Option Int × Option Int) × IStream :=
  let r1 := extractInt ls none
  let s1 := extractChar r1.2
  let r2 := extractInt s1 none
  let s2 := extractChar r2.2
  let r3 := extractInt s2 none
  ((r1.1, r2.1, r3.1), r3.2)

/-- The condition of the uniqueness test (lines 184-193) for the table entry `j`, the
`float` values compared with `==`, with the short-circuit evaluation of `&&`: `v[fv]` is
read by the first comparison, `vt[fvt]` only when the position matched, `vn[fvn]` only
when the texture coordinate matched too. `none` when an access is outside its vector. -/
def sameAttributes [FloatModel] (g : Globals) (j : Nat) (fv fvt fvn : Option Int) : Option Bool :=
  match g.OurVertices[j]? with
  | none => none
  | some o =>
    match getIdx g.v fv with
    | none => none
    | some p =>
      if o.GeometricVertex.x = p.x ∧ o.GeometricVertex.y = p.y
          ∧ o.GeometricVertex.z = p.z * -1 then
        match getIdx g.vt fvt with
        | none => none
        | some t =>
          if o.VertexTextureCoordinate.x = t.x
              ∧ o.VertexTextureCoordinate.y = FloatModel.round (1 - t.y) then
            match getIdx g.vn fvn with
            | none => none
            | some n =>
              some (decide (o.VertexNormalVector.x = n.x ∧ o.VertexNormalVector.y = n.y
                ∧ o.VertexNormalVector.z = n.z * -1))
          else some false
      else some false

/-- The uniqueness scan `for (int j = 0; j <= OurVerticesi; j++)` (lines 182-202),
from index `j` with `n` iterations left: `some (some j)` at the first entry that
equals the candidate (the `break`), `some none` when the loop ends with `unique`
still true, `none` on an access outside a vector. -/
def scan [FloatModel] (g : Globals) (fv fvt fvn : Option Int) : Nat → Nat → Option (Option Nat)
  | _, 0 => some none
  | j, n + 1 =>
    match sameAttributes g j fv fvt fvn with
    | none => none
    | some true => some (some j)
    | some false => scan g fv fvt fvn (j + 1) n

/-- The candidate stored in a new table element (lines 211-220): Z of the position
and of the normal negated, V of the texture coordinate replaced by the `float` that
`1.0f - V` gives. -/
def convert [FloatModel] (p : XMFLOAT3) (t : XMFLOAT2) (n : XMFLOAT3) : VERTEX :=
  ⟨⟨p.x, p.y, p.z * -1⟩, ⟨n.x, n.y, n.z * -1⟩, ⟨t.x, FloatModel.round (1 - t.y)⟩⟩

/-- The body of the loop over the three triplets (lines 154-224) for one triplet. -/
def faceTriplet [FloatModel] (g : Globals) (ls : IStream) : Option (Globals × IStream) :=
  let rd := readTriplet ls
  let fv := rd.1.1.map (· - 1)
  let fvt := rd.1.2.1.map (· - 1)
  let fvn := rd.1.2.2.map (· - 1)
  let g1 := { g with
    OurIndicesFaceTripleti := g.OurIndicesFaceTripleti + 1
    OurIndicesi := g.OurIndicesi + 1
    OurIndices := g.OurIndices ++ [0] }
  match scan g1 fv fvt fvn 0 (g1.OurVerticesi + 1).toNat with
  | none => none
  | some (some j) =>
    match setAt g1.OurIndicesFaceTriplet g1.OurIndicesFaceTripleti (j : Int) with
    | none => none
    | some ft => some ({ g1 with OurIndicesFaceTriplet := ft }, rd.2)
  | some none =>
    let vsi := g1.OurVerticesi + 1
    let vs := g1.OurVertices ++ [⟨⟨0, 0, 0⟩, ⟨0, 0, 0⟩, ⟨0, 0⟩⟩]
    match getIdx g1.v fv, getIdx g1.vt fvt, getIdx g1.vn fvn with
    | some p, some t, some n =>
      match setAt vs vsi (convert p t n) with
      | none => none
      | some vs1 =>
        match setAt g1.OurIndicesFaceTriplet g1.OurIndicesFaceTripleti vsi with
        | none => none
        | some ft =>
          some ({ g1 with OurVerticesi := vsi, OurVertices := vs1, OurIndicesFaceTriplet := ft },
            rd.2)
    | _, _, _ => none

/-- The loop `for (int i = 0; i <= 2; i++)` (line 152) with `n` iterations left. -/
def faceLoop [FloatModel] : Nat → Globals → IStream → Option (Globals × IStream)
  | 0, g, ls => some (g, ls)
  | n + 1, g, ls =>
    match faceTriplet g ls with
    | none => none
    | some r => faceLoop n r.1 r.2

/-- The conversion of the drawing order (lines 241-243): the last three elements of
OurIndices receive the first, third and second resolved index. -/
def windingStore (g : Globals) : Option Globals :=
  match getAt g.OurIndicesFaceTriplet 0, getAt g.OurIndicesFaceTriplet 2,
      getAt g.OurIndicesFaceTriplet 1 with
  | some t0, some t2, some t1 =>
    match setAt g.OurIndices (g.OurIndicesi - 2) t0.toNat with
    | none => none
    | some i1 =>
      match setAt i1 (g.OurIndicesi - 1) t2.toNat with
      | none => none
      | some i2 =>
        match setAt i2 g.OurIndicesi t1.toNat with
        | none => none
        | some i3 => some { g with OurIndices := i3 }
  | _, _, _ => none

/-- A face element statement (lines 142-243). -/
def stmtF [FloatModel] (g : Globals) (ls : IStream) : Flow :=
  if g.vi = -1 ∨ g.vti = -1 ∨ g.vni = -1 then .ret 2 g
  else
    match faceLoop 3 { g with OurIndicesFaceTripleti := -1 } ls with
    | none => .undefined
    | some r =>
      match windingStore r.1 with
      | none => .undefined
      | some g1 => .next g1

/-- The body of the while loop (lines 109-244) for the line `stringtext`. -/
def statement [FloatModel] (g : Globals) (stringtext : String) : Flow :=
  let r := extractString ⟨stringtext.toList, false⟩
  if r.1 = "v" then stmtV g r.2
  else if r.1 = "vn" then stmtVn g r.2
  else if r.1 = "vt" then stmtVt g r.2
  else if r.1 = "f" then stmtF g r.2
  else .next g

/-- The loop `while (getline(obj, stringtext))` (lines 107-245) over the lines of the
file; `Flow.next` is the exit at the end of the file. -/
def parseLines [FloatModel] (g : Globals) : List String → Flow
  | [] => .next g
  | l :: ls =>
    match statement g l with
    | .next g1 => parseLines g1 ls
    | .ret rc g1 => .ret rc g1
    | .undefined => .undefined

/-- The function objReader (lines 75-258) called with the globals `g`, on the file
`file` (`none`: Text.obj cannot be opened). `some (rc, g1)`: it returns `rc` and
leaves the globals `g1`; `none`: undefined behaviour. -/
def objReader [FloatModel] (g : Globals) (file : Option (List String)) : Option (Int × Globals) :=
  match file with
  | none => some (1, g)
  | some lines =>
    match parseLines g lines with
    | .next g1 =>
      some (0, { g1 with
        VertexAttributeSetsTotal := g1.OurVerticesi + 1
        PrimitivesTotal := (g1.OurIndicesi + 1).tdiv 3 })
    | .ret rc g1 => some (rc, g1)
    | .undefined => none

/-! ## Vocabulary of the properties -/

/-- The first whitespace-delimited token of a line: the statement type. -/
def firstToken (line : String) : String :=
  (extractString ⟨line.toList, false⟩).1

/-- The line stream after the statement type has been read. -/
def operands (line : String) : IStream :=
  (extractString ⟨line.toList, false⟩).2

/-- The operands of the `v` statements among `lines`, in file order. -/
def vStatements [FloatModel] (lines : List String) : List XMFLOAT3 :=
  (lines.filter (fun l => firstToken l = "v")).map (fun l => extract3 (operands l) ⟨0, 0, 0⟩)

/-- The operands of the `vt` statements among `lines`, in file order. -/
def vtStatements [FloatModel] (lines : List String) : List XMFLOAT2 :=
  (lines.filter (fun l => firstToken l = "vt")).map (fun l => extract2 (operands l) ⟨0, 0⟩)

/-- The operands of the `vn` statements among `lines`, in file order. -/
def vnStatements [FloatModel] (lines : List String) : List XMFLOAT3 :=
  (lines.filter (fun l => firstToken l = "vn")).map (fun l => extract3 (operands l) ⟨0, 0, 0⟩)

/-- The first `n` triplets that line 161 reads from a line stream, in written order. -/
def triplets : Nat → IStream → List (Option Int × Option Int × Option Int)
  | 0, _ => []
  | n + 1, ls => (readTriplet ls).1 :: triplets n (readTriplet ls).2

/-- A triplet a/b/c whose three indices were read and lie within the first `nv`, `nvt`
and `nvn` attribute statements (1-based). -/
def inRange (nv nvt nvn : Nat) (t : Option Int × Option Int × Option Int) : Bool :=
  match t with
  | (some a, some b, some c) =>
    decide (1 ≤ a ∧ a ≤ nv ∧ 1 ≤ b ∧ b ≤ nvt ∧ 1 ≤ c ∧ c ≤ nvn)
  | _ => false

/-- Validity of the lines that follow `nv`, `nvt` and `nvn` statements of the three
attribute kinds: each face statement carries three triplets whose indices lie within
the attribute statements read before it. -/
def validFrom (nv nvt nvn : Nat) : List String → Bool
  | [] => true
  | l :: ls =>
    if firstToken l = "v" then validFrom (nv + 1) nvt nvn ls
    else if firstToken l = "vn" then validFrom nv nvt (nvn + 1) ls
    else if firstToken l = "vt" then validFrom nv (nvt + 1) nvn ls
    else if firstToken l = "f" then
      (triplets 3 (operands l)).all (inRange nv nvt nvn) && validFrom nv nvt nvn ls
    else validFrom nv nvt nvn ls

/-- A valid input file. -/
def validFile (lines : List String) : Bool :=
  validFrom 0 0 0 lines

/-- Number of lines of a statement type. -/
def countType (ty : String) (lines : List String) : Nat :=
  (lines.filter (fun l => firstToken l = ty)).length

/-- The file has a face statement before which some attribute kind has no statement. -/
def FaceBeforeAttributes (lines : List String) : Prop :=
  ∃ pre l post, lines = pre ++ l :: post ∧ firstToken l = "f" ∧
    (countType "v" pre = 0 ∨ countType "vt" pre = 0 ∨ countType "vn" pre = 0)

/-- The candidate set of vertex attributes of a triplet (lines 175, 211-220): the
referenced position, texture coordinate and normal, converted; `none` when an index
is indeterminate or outside its table. -/
def corner [FloatModel] (v : List XMFLOAT3) (vt : List XMFLOAT2) (vn : List XMFLOAT3)
    (t : Option Int × Option Int × Option Int) : Option VERTEX :=
  match getIdx v (t.1.map (· - 1)), getIdx vt (t.2.1.map (· - 1)),
      getIdx vn (t.2.2.map (· - 1)) with
  | some p, some tc, some n => some (convert p tc n)
  | _, _, _ => none

/-- The vertex table after the scan-and-insert step for the candidate `c`. -/
def insertVertex (T : List VERTEX) (c : VERTEX) : List VERTEX :=
  if c ∈ T then T else T ++ [c]

/-- The globals after the loop body for one triplet whose candidate is `c`. -/
def place (g : Globals) (c : VERTEX) : Globals :=
  { g with
    OurIndicesFaceTripleti := g.OurIndicesFaceTripleti + 1
    OurIndicesi := g.OurIndicesi + 1
    OurIndices := g.OurIndices ++ [0]
    OurVerticesi := if c ∈ g.OurVertices then g.OurVerticesi else g.OurVerticesi + 1
    OurVertices := insertVertex g.OurVertices c
    OurIndicesFaceTriplet :=
      g.OurIndicesFaceTriplet.set (g.OurIndicesFaceTripleti + 1).toNat
        (g.OurVertices.indexOf c : Int) }

/-- The index variables track the sizes of their vectors, and the scratch array has its
three elements. -/
structure Tracks (g : Globals) : Prop where
  v : g.vi + 1 = g.v.length
  vt : g.vti + 1 = g.vt.length
  vn : g.vni + 1 = g.vn.length
  vertices : g.OurVerticesi + 1 = g.OurVertices.length
  indices : g.OurIndicesi + 1 = g.OurIndices.length
  scratch : g.OurIndicesFaceTriplet.length = 3

/-- The mesh part of the globals is well formed: no vertex set is stored twice, the
indices come in threes and point into the vertex table. -/
structure MeshOk (g : Globals) : Prop where
  nodup : g.OurVertices.Nodup
  threes : g.OurIndices.length % 3 = 0
  bound : ∀ x ∈ g.OurIndices, x < g.OurVertices.length

/-- The three candidates of a face statement whose triplets are read from `ls`. -/
def corners [FloatModel] (v : List XMFLOAT3) (vt : List XMFLOAT2) (vn : List XMFLOAT3) (ls : IStream) :
    Option (VERTEX × VERTEX × VERTEX) :=
  let r0 := readTriplet ls
  let r1 := readTriplet r0.2
  let r2 := readTriplet r1.2
  match corner v vt vn r0.1, corner v vt vn r1.1, corner v vt vn r2.1 with
  | some c0, some c1, some c2 => some (c0, c1, c2)
  | _, _, _ => none

/-- The globals after a face statement whose three candidates are `c0`, `c1`, `c2`. -/
def faceResult (g : Globals) (c0 c1 c2 : VERTEX) : Globals :=
  let T1 := insertVertex g.OurVertices c0
  let T2 := insertVertex T1 c1
  let T3 := insertVertex T2 c2
  let i0 := g.OurVertices.indexOf c0
  let i1 := T1.indexOf c1
  let i2 := T2.indexOf c2
  { g with
    OurVertices := T3
    OurVerticesi := (T3.length : Int) - 1
    OurIndices := g.OurIndices ++ [i0, i2, i1]
    OurIndicesi := g.OurIndicesi + 3
    OurIndicesFaceTriplet := [(i0 : Int), (i1 : Int), (i2 : Int)]
    OurIndicesFaceTripleti := 2 }

/-- The globals `g1` continue `g`: every table of `g1` starts with the table of `g`,
and the two totals are the same. -/
structure Grows (g g1 : Globals) : Prop where
  vertices : g.OurVertices <+: g1.OurVertices
  indices : g.OurIndices <+: g1.OurIndices
  v : g.v <+: g1.v
  vt : g.vt <+: g1.vt
  vn : g.vn <+: g1.vn
  verticesTotal : g1.VertexAttributeSetsTotal = g.VertexAttributeSetsTotal
  primitivesTotal : g1.PrimitivesTotal = g.PrimitivesTotal

/-- The mesh part of the globals is the same in `g` and `g1`. -/
structure SameMesh (g g1 : Globals) : Prop where
  vertices : g1.OurVertices = g.OurVertices
  indices : g1.OurIndices = g.OurIndices
  verticesTotal : g1.VertexAttributeSetsTotal = g.VertexAttributeSetsTotal
  primitivesTotal : g1.PrimitivesTotal = g.PrimitivesTotal

/-- Among `lines`, read with the tables of `g` already filled, there is a face statement
before which some attribute table is still empty. -/
def FaceMissing (g : Globals) (lines : List String) : Prop :=
  ∃ pre l post, lines = pre ++ l :: post ∧ firstToken l = "f" ∧
    (g.v.length + countType "v" pre = 0 ∨ g.vt.length + countType "vt" pre = 0
      ∨ g.vn.length + countType "vn" pre = 0)

/-- The size in bytes of a VERTEX: eight floats of four bytes each. -/
def sizeofVERTEX : Int := 32

/-- The size in bytes of a DWORD. -/
def sizeofDWORD : Int := 4

/-- The byte width InitGraphics gives the vertex buffer (objRenderer.cpp, line 868),
`sizeof(VERTEX) * VertexAttributeSetsTotal`. -/
def vertexBufferByteWidth (g : Globals) : Int :=
  sizeofVERTEX * g.VertexAttributeSetsTotal

/-- The byte width InitGraphics gives the index buffer (objRenderer.cpp, line 902),
`sizeof(DWORD) * (PrimitivesTotal * 3)`. -/
def indexBufferByteWidth (g : Globals) : Int :=
  sizeofDWORD * (g.PrimitivesTotal * 3)

/-- A file with three positions, one texture coordinate, one normal and two triangles
over the same three corners. -/
def twoTriangles : List String :=
  ["# two triangles", "v 0 0 5", "v 1 0 0", "v 0 1 0", "vt 0 0.3", "vn 0 0 1", "",
    "f 1/1/1 2/1/1 3/1/1", "f 1/1/1 3/1/1 2/1/1"]

/-- The globals after the file `twoTriangles` has been loaded from the fresh globals.
The operand 0.3 is stored as the `float` 5033165 / 2^24, and `1.0f - v` gives
11744051 / 2^24, the `float` nearest 0.7. -/
def twoTrianglesLoaded : Globals where
  OurVertices := [⟨⟨0, 0, -5⟩, ⟨0, 0, -1⟩, ⟨0, 11744051 / 16777216⟩⟩,
    ⟨⟨1, 0, 0⟩, ⟨0, 0, -1⟩, ⟨0, 11744051 / 16777216⟩⟩,
    ⟨⟨0, 1, 0⟩, ⟨0, 0, -1⟩, ⟨0, 11744051 / 16777216⟩⟩]
  OurVerticesi := 2
  VertexAttributeSetsTotal := 3
  OurIndices := [0, 2, 1, 0, 1, 2]
  OurIndicesi := 5
  PrimitivesTotal := 2
  v := [⟨0, 0, 5⟩, ⟨1, 0, 0⟩, ⟨0, 1, 0⟩]
  vi := 2
  vt := [⟨0, 5033165 / 16777216⟩]
  vti := 0
  vn := [⟨0, 0, 1⟩]
  vni := 0
  OurIndicesFaceTriplet := [0, 2, 1]
  OurIndicesFaceTripleti := 2

/-- A file with a face statement but no `vt` and no `vn` statement. -/
def faceWithoutAttributes : List String :=
  ["v 1 1 1", "f 1/1/1 1/1/1 1/1/1"]

/-- The globals after the load of `faceWithoutAttributes` has returned 2. -/
def faceWithoutAttributesLeft : Globals :=
  { fresh with v := [⟨1, 1, 1⟩], vi := 0 }

/-- A file whose face statement names the position 2000000000 although there is one
position: `v[fv]` is then read about 24 gigabytes beyond the only element of `v`. -/
def farPositionFace : List String :=
  ["v 0 0 0", "vt 0 0", "vn 0 0 0", "f 2000000000/1/1 1/1/1 1/1/1"]

/-- A file whose face statement names the normal 2000000000 although there is one
normal: `vn[fvn]` is then read about 24 gigabytes beyond the only element of `vn`. -/
def farNormalFace : List String :=
  ["v 0 0 0", "vt 0 0", "vn 0 0 0", "f 1/1/2000000000 1/1/1 1/1/1"]

/-- The lines of `twoTriangles` before its first face statement. -/
def twoTrianglesHead : List String :=
  ["# two triangles", "v 0 0 5", "v 1 0 0", "v 0 1 0", "vt 0 0.3", "vn 0 0 1", ""]

/-- The globals after the file `twoTriangles` has been loaded a second time, the
second call starting from `twoTrianglesLoaded`. -/
def twoTrianglesLoadedTwice : Globals where
  OurVertices := [⟨⟨0, 0, -5⟩, ⟨0, 0, -1⟩, ⟨0, 11744051 / 16777216⟩⟩,
    ⟨⟨1, 0, 0⟩, ⟨0, 0, -1⟩, ⟨0, 11744051 / 16777216⟩⟩,
    ⟨⟨0, 1, 0⟩, ⟨0, 0, -1⟩, ⟨0, 11744051 / 16777216⟩⟩]
  OurVerticesi := 2
  VertexAttributeSetsTotal := 3
  OurIndices := [0, 2, 1, 0, 1, 2, 0, 2, 1, 0, 1, 2]
  OurIndicesi := 11
  PrimitivesTotal := 4
  v := [⟨0, 0, 5⟩, ⟨1, 0, 0⟩, ⟨0, 1, 0⟩, ⟨0, 0, 5⟩, ⟨1, 0, 0⟩, ⟨0, 1, 0⟩]
  vi := 5
  vt := [⟨0, 5033165 / 16777216⟩, ⟨0, 5033165 / 16777216⟩]
  vti := 1
  vn := [⟨0, 0, 1⟩, ⟨0, 0, 1⟩]
  vni := 1
  OurIndicesFaceTriplet := [0, 2, 1]
  OurIndicesFaceTripleti := 2

/-- The file has a face statement that the loop reaches (it arrives there with the
globals `g`) while at least one of the kinds `v`, `vt`, `vn` has had no statement. -/
def FaceReachedBeforeAttributes [FloatModel] (lines : List String) : Prop :=
  ∃ pre l post g, lines = pre ++ l :: post ∧ firstToken l = "f" ∧
    parseLines fresh pre = .next g ∧
    (countType "v" pre = 0 ∨ countType "vt" pre = 0 ∨ countType "vn" pre = 0)

/-- A line the loader acts on: its first token is `v`, `vn`, `vt` or `f`. Every other
line (a comment, a blank line, a group, a material) takes the `else continue`. -/
def recognized (l : String) : Bool :=
  decide (firstToken l = "v") || decide (firstToken l = "vn") || decide (firstToken l = "vt")
    || decide (firstToken l = "f")

/-- The line `l` with the characters `ws` put in front of it. -/
def indent (ws : List Char) (l : String) : String :=
  ⟨ws ++ l.toList⟩

/-- Globals at the start of the loop over the triplets of a face statement, with one
position, one texture coordinate and one normal read and the vertex table empty. -/
def oneOfEach : Globals :=
  { fresh with
    v := [⟨1, 2, 3⟩], vi := 0, vt := [⟨0, 5033165 / 16777216⟩], vti := 0,
    vn := [⟨0, 0, 1⟩], vni := 0
    OurIndicesFaceTripleti := -1 }

/-- The converted corners of the face statements among `lines`, face statements in file
order and within a face the triplets in their written order, each triplet a/b/c read
against the tables `V`, `VT`, `VN` (the a-th position, b-th texture coordinate, c-th
normal). -/
def cornersWith [FloatModel] (V : List XMFLOAT3) (VT : List XMFLOAT2) (VN : List XMFLOAT3)
    (lines : List String) : List VERTEX :=
  (lines.filter (fun l => firstToken l = "f")).flatMap
    (fun l => (triplets 3 (operands l)).filterMap (corner V VT VN))

/-- The converted face corners of a file, in file order: every triplet a/b/c of every
face statement with the a-th `v`, b-th `vt` and c-th `vn` statement of the file. -/
def faceCorners [FloatModel] (lines : List String) : List VERTEX :=
  cornersWith (vStatements lines) (vtStatements lines) (vnStatements lines) lines

/-- A list of vertices without the entries that equal an earlier one. -/
def keepFirst : List VERTEX → List VERTEX
  | [] => []
  | c :: cs => c :: (keepFirst cs).filter (fun x => decide (x ≠ c))

/-- The index buffer for a list of corners, three to a triangle: the place of the
first, third and second corner in the table `T`. -/
def indicesOf (T : List VERTEX) : List VERTEX → List Nat
  | c0 :: c1 :: c2 :: cs => T.indexOf c0 :: T.indexOf c2 :: T.indexOf c1 :: indicesOf T cs
  | _ => []

/-- A file with two triangles that share no corner: the second one uses another normal. -/
def twoSeparateTriangles : List String :=
  ["v 0 0 5", "v 1 0 0", "v 0 1 0", "vt 0 0.3", "vn 0 0 1", "vn 0 1 0",
    "f 1/1/1 2/1/1 3/1/1", "f 1/1/2 3/1/2 2/1/2"]

/-- The attribute statements of a file in which the position 0 0 5 is stated twice. -/
def repeatedPosition : List String :=
  ["v 0 0 5", "v 0 0 5", "v 1 0 0", "vt 0 0.3", "vn 0 0 1"]

/-- The lines of a block hold no face statement. -/
def noFace (b : List String) : Prop :=
  ∀ l ∈ b, firstToken l ≠ "f"

/-- Two blocks of lines hold the same `v` statements in the same order, the same `vt`
statements in the same order and the same `vn` statements in the same order. -/
def sameByKind (b b1 : List String) : Prop :=
  b.filter (fun l => firstToken l = "v") = b1.filter (fun l => firstToken l = "v")
    ∧ b.filter (fun l => firstToken l = "vt") = b1.filter (fun l => firstToken l = "vt")
    ∧ b.filter (fun l => firstToken l = "vn") = b1.filter (fun l => firstToken l = "vn")

/-- The second file is the first with the attribute statements rearranged among
themselves: the face statements are the same, and between two face statements (before
the first, after the last) the statements of each attribute kind are the same in the
same order, so that every attribute statement stays on its side of every face
statement. -/
inductive Rearranged : List String → List String → Prop
  | last (b b1 : List String) : noFace b → noFace b1 → sameByKind b b1 → Rearranged b b1
  | face (b b1 : List String) (f : String) (rest rest1 : List String) :
      noFace b → noFace b1 → sameByKind b b1 → firstToken f = "f" → Rearranged rest rest1 →
      Rearranged (b ++ f :: rest) (b1 ++ f :: rest1)

/-- The globals after a block of lines without a face statement whose attribute
statements have the operands `V`, `VT`, `VN`. -/
def afterBlock (g : Globals) (V : List XMFLOAT3) (VT : List XMFLOAT2) (VN : List XMFLOAT3) :
    Globals :=
  { g with
    v := g.v ++ V, vi := g.vi + V.length
    vt := g.vt ++ VT, vti := g.vti + VT.length
    vn := g.vn ++ VN, vni := g.vni + VN.length }

instance noFace.decidable (b : List String) : Decidable (noFace b) := by
  unfold noFace
  infer_instance

instance sameByKind.decidable (b b1 : List String) : Decidable (sameByKind b b1) := by
  unfold sameByKind
  infer_instance

/-- Modelled from the spec: the unit-cube file of the end-to-end scenario (the file
Text.obj that objReader opens is not part of the sources). Eight positions, four
texture coordinates, six normals (one to a side) and twelve triangular face statements,
two to a side, the corners of each side using that side's normal. -/
def unitCube : List String :=
  ["# unit cube",
    "v -0.5 -0.5 0.5", "v 0.5 -0.5 0.5", "v -0.5 0.5 0.5", "v 0.5 0.5 0.5",
    "v -0.5 0.5 -0.5", "v 0.5 0.5 -0.5", "v -0.5 -0.5 -0.5", "v 0.5 -0.5 -0.5",
    "vt 0 0", "vt 1 0", "vt 0 1", "vt 1 1",
    "vn 0 0 1", "vn 0 1 0", "vn 0 0 -1", "vn 0 -1 0", "vn 1 0 0", "vn -1 0 0",
    "f 1/1/1 2/2/1 3/3/1", "f 3/3/1 2/2/1 4/4/1",
    "f 3/1/2 4/2/2 5/3/2", "f 5/3/2 4/2/2 6/4/2",
    "f 5/4/3 6/3/3 7/2/3", "f 7/2/3 6/3/3 8/1/3",
    "f 7/1/4 8/2/4 1/3/4", "f 1/3/4 8/2/4 2/4/4",
    "f 2/1/5 8/2/5 4/3/5", "f 4/3/5 8/2/5 6/4/5",
    "f 7/1/6 1/2/6 5/3/6", "f 5/3/6 1/2/6 3/4/6"]

/-- The globals after the lines `twoTrianglesHead` have been read from the fresh
globals. -/
def twoTrianglesHeadRead : Globals :=
  { fresh with
    v := [⟨0, 0, 5⟩, ⟨1, 0, 0⟩, ⟨0, 1, 0⟩]
    vi := 2
    vt := [⟨0, 5033165 / 16777216⟩]
    vti := 0
    vn := [⟨0, 0, 1⟩]
    vni := 0 }

/-! ### The start of the renderer (objRenderer.cpp) -/

/-- The calls of objRenderer.cpp that the properties speak about; a buffer is created
with the `ByteWidth` of its description and filled by a `memcpy` of as many bytes. -/
inductive Call where
  | CreateWindowEx
  | ShowWindow
  | D3D11CreateDeviceAndSwapChain
  | CreateTexture2D
  | InitPipeline
  | CreateVertexBuffer (ByteWidth : Int)
  | memcpyVertices (ByteWidth : Int)
  | CreateIndexBuffer (ByteWidth : Int)
  | memcpyIndices (ByteWidth : Int)
  | CreateWICTextureFromFile
  | PeekMessage
  | RenderFrame
  | CleanD3D
  deriving DecidableEq

/-- How a function of objRenderer.cpp ends: by a `return`, or by `exit`. -/
inductive Ended where
  | returned (rc : Int)
  | exited (code : Int)
  deriving DecidableEq

/-- The function InitGraphics (objRenderer.cpp, lines 835-954): the return code, the
globals and the calls made. A non-zero return code of objReader is returned at once
(lines 841-845); otherwise the vertex buffer and the index buffer are created and
filled, the texture is loaded, and 0 is returned. -/
def InitGraphics [FloatModel] (g : Globals) (file : Option (List String)) :
    Option (Int × Globals × List Call) :=
  match objReader g file with
  | none => none
  | some (objReaderRC, g1) =>
    if objReaderRC ≠ 0 then some (objReaderRC, g1, [])
    else some (0, g1,
      [.CreateVertexBuffer (vertexBufferByteWidth g1), .memcpyVertices (vertexBufferByteWidth g1),
        .CreateIndexBuffer (indexBufferByteWidth g1), .memcpyIndices (indexBufferByteWidth g1),
        .CreateWICTextureFromFile])

/-- The function InitD3D (objRenderer.cpp, lines 417-630). `depthBuffer` tells whether
CreateTexture2D gave a depth buffer: without one the program exits with code 1 (line
537). Otherwise InitPipeline and InitGraphics are called, and a non-zero return code of
InitGraphics is returned (lines 620-624). -/
def InitD3D [FloatModel] (depthBuffer : Bool) (g : Globals) (file : Option (List String)) :
    Option (Ended × Globals × List Call) :=
  if depthBuffer = false then
    some (.exited 1, g, [.D3D11CreateDeviceAndSwapChain, .CreateTexture2D])
  else
    match InitGraphics g file with
    | none => none
    | some (InitGraphicsRC, g1, calls) =>
      if InitGraphicsRC ≠ 0 then
        some (.returned InitGraphicsRC, g1,
          [.D3D11CreateDeviceAndSwapChain, .CreateTexture2D, .InitPipeline] ++ calls)
      else
        some (.returned 0, g1,
          [.D3D11CreateDeviceAndSwapChain, .CreateTexture2D, .InitPipeline] ++ calls)

/-- A window or thread message: its identifier and its `wParam`. -/
structure MSG where
  message : Nat
  wParam : Int
  deriving DecidableEq

/-- The identifier of the message that ends the message loop (winuser.h). -/
def WM_QUIT : Nat := 0x0012

/-- The message loop of WinMain (lines 260-312) over what PeekMessage finds at each
pass: a message, or `none`, in which case a frame is rendered. The loop ends at the
message WM_QUIT with that message's `wParam`; `none` when the passes given run out
before such a message. -/
def messageLoop : List (Option MSG) → Option (Int × List Call)
  | [] => none
  | none :: passes =>
    (messageLoop passes).map (fun r => (r.1, .PeekMessage :: .RenderFrame :: r.2))
  | some msg :: passes =>
    if msg.message = WM_QUIT then some (msg.wParam, [.PeekMessage])
    else (messageLoop passes).map (fun r => (r.1, .PeekMessage :: r.2))

/-- The function WinMain (objRenderer.cpp, lines 168-319): the window is created and
shown, InitD3D is called and its non-zero return code is returned (lines 237-241);
otherwise the message loop runs, CleanD3D is called and the `wParam` of the WM_QUIT
message is returned. -/
def WinMain [FloatModel] (depthBuffer : Bool) (passes : List (Option MSG)) (g : Globals)
    (file : Option (List String)) : Option (Ended × Globals × List Call) :=
  match InitD3D depthBuffer g file with
  | none => none
  | some (.exited code, g1, calls) =>
    some (.exited code, g1, [.CreateWindowEx, .ShowWindow] ++ calls)
  | some (.returned InitD3DRC, g1, calls) =>
    if InitD3DRC ≠ 0 then
      some (.returned InitD3DRC, g1, [.CreateWindowEx, .ShowWindow] ++ calls)
    else
      match messageLoop passes with
      | none => none
      | some (wParam, looped) =>
        some (.returned wParam, g1,
          [.CreateWindowEx, .ShowWindow] ++ calls ++ looped ++ [.CleanD3D])

/-- The element formats of the input layout: DXGI_FORMAT_R32G32B32_FLOAT and
DXGI_FORMAT_R32G32_FLOAT. -/
inductive DXGI_FORMAT where
  | R32G32B32_FLOAT
  | R32G32_FLOAT
  deriving DecidableEq

/-- Size in bytes of an element of a format: three and two components of 32 bits. -/
def DXGI_FORMAT.bytes : DXGI_FORMAT → Nat
  | .R32G32B32_FLOAT => 12
  | .R32G32_FLOAT => 8

/-- The members of D3D11_INPUT_ELEMENT_DESC that place an element in the vertex;
`AlignedByteOffset` is `none` for D3D11_APPEND_ALIGNED_ELEMENT. -/
structure D3D11_INPUT_ELEMENT_DESC where
  SemanticName : String
  Format : DXGI_FORMAT
  AlignedByteOffset : Option Nat
  deriving DecidableEq

/-- The input element descriptions of InitPipeline (objRenderer.cpp, lines 718-745),
in the order of the array. -/
def ied : List D3D11_INPUT_ELEMENT_DESC :=
  [⟨"POSITION", .R32G32B32_FLOAT, none⟩, ⟨"TEXCOORD", .R32G32_FLOAT, none⟩,
    ⟨"NORMAL", .R32G32B32_FLOAT, none⟩]

/-- Semantic name, byte offset and size of each element of an input layout: an element
with D3D11_APPEND_ALIGNED_ELEMENT starts at `after`, directly after the element before
it (all sizes here are multiples of four bytes, so no padding comes between). -/
def elementOffsets (after : Nat) :
    List D3D11_INPUT_ELEMENT_DESC → List (String × Nat × Nat)
  | [] => []
  | e :: es =>
    (e.SemanticName, e.AlignedByteOffset.getD after, e.Format.bytes)
      :: elementOffsets (e.AlignedByteOffset.getD after + e.Format.bytes) es

/-- The members of VERTEX in the order of the declaration (objReader.h, lines 60-64),
each with the semantic name of the attribute it holds and its size in bytes: an
XMFLOAT3 is three floats of four bytes, an XMFLOAT2 two. -/
def vertexMembers : List (String × String × Nat) :=
  [("GeometricVertex", "POSITION", 12), ("VertexNormalVector", "NORMAL", 12),
    ("VertexTextureCoordinate", "TEXCOORD", 8)]

/-- Semantic name, byte offset and size of each member of a structure whose members
follow one another from the offset `after`. -/
def memberOffsets (after : Nat) : List (String × String × Nat) → List (String × Nat × Nat)
  | [] => []
  | m :: ms => (m.2.1, after, m.2.2) :: memberOffsets (after + m.2.2) ms

/-- The input layout describes the VERTEX structure: every element has the offset and
the size of the member that holds its attribute. -/
def layoutDescribesVertex : Bool :=
  (elementOffsets 0 ied).all (fun e => decide (e ∈ memberOffsets 0 vertexMembers))

/-- The eight floats of a VERTEX in the order they lie in the vertex buffer. -/
def vertexFloats (x : VERTEX) : List ℚ :=
  [x.GeometricVertex.x, x.GeometricVertex.y, x.GeometricVertex.z,
    x.VertexNormalVector.x, x.VertexNormalVector.y, x.VertexNormalVector.z,
    x.VertexTextureCoordinate.x, x.VertexTextureCoordinate.y]

/-- What the input assembler reads for each semantic name from a vertex in the vertex
buffer: the floats at the element's offset, as many as its size holds. -/
def assembled (x : VERTEX) : List (String × List ℚ) :=
  (elementOffsets 0 ied).map
    (fun e => (e.1, ((vertexFloats x).drop (e.2.1 / 4)).take (e.2.2 / 4)))

/-- The line `l` with the characters `extra` written after it. -/
def withTrailing (l : String) (extra : List Char) : String :=
  ⟨l.toList ++ extra⟩

/-- The stream `s` with the characters `extra` after what is left in its buffer. -/
def extend (extra : List Char) (s : IStream) : IStream :=
  ⟨s.buf ++ extra, s.fail⟩

/-- The line stream after `n` numbers have been read from it, as by
`lineStream >> e.x >> e.y >> e.z` (lines 119, 125, 131). -/
def afterFloats [FloatModel] : Nat → IStream → IStream
  | 0, ls => ls
  | n + 1, ls => afterFloats n (extractFloat ls 0).2

/-- The line stream after `n` triplets have been read from it (line 161). -/
def afterTriplets : Nat → IStream → IStream
  | 0, ls => ls
  | n + 1, ls => afterTriplets n (readTriplet ls).2

/-- The line stream after the statement type of the line `l` and the operands this type
expects have been read: three numbers of a `v` or `vn` statement, two of a `vt`
statement, three triplets of a face statement, none of any other line. -/
def afterOperands [FloatModel] (l : String) : IStream :=
  if firstToken l = "v" ∨ firstToken l = "vn" then afterFloats 3 (operands l)
  else if firstToken l = "vt" then afterFloats 2 (operands l)
  else if firstToken l = "f" then afterTriplets 3 (operands l)
  else operands l

/-- The line `l` has its statement type and all the operands the type expects: they
are read without the line stream failing. -/
def complete [FloatModel] (l : String) : Bool :=
  !(afterOperands l).fail

/-- Trailing tokens: characters that start with a whitespace character, which ends the
last token before them. -/
def separated : List Char → Bool
  | [] => false
  | w :: _ => isspace w

/-- A quad: a face statement with four triplets, after the attribute statements it
refers to, and a `v`, a `vt` and a `vn` statement that have a number too many. -/
def quadFile : List (String × List Char) :=
  [("v 0 0 5", " 1".toList), ("v 1 0 0", []), ("v 0 1 0", []), ("v 1 1 0", []),
    ("vt 0 0.3", " 0.5 0.25".toList), ("vn 0 0 1", "\t7".toList), ("", []),
    ("f 1/1/1 2/1/1 3/1/1", " 4/1/1".toList)]

/-! ### Numbers and statements as written -/

/-- The character of a decimal digit. -/
def digitChar (d : Fin 10) : Char :=
  Char.ofNat (48 + d.val)

/-- The number that a sequence of decimal digits denotes. -/
def digitsNumber (ds : List (Fin 10)) : Nat :=
  ds.foldl (fun n d => 10 * n + d.val) 0

/-- The exponent of a written number: the letter `E` instead of `e`, the sign (none, `+`
for `some false`, `-` for `some true`) and the digits. -/
structure Exponent where
  upper : Bool
  sign : Option Bool
  digits : List (Fin 10)
  deriving DecidableEq

/-- A decimal number as a statement writes it: the sign (none, `+` for `some false`, `-`
for `some true`), the digits before the point, the digits after the point (`none`: no
point is written), and an optional exponent. -/
structure Numeral where
  sign : Option Bool
  whole : List (Fin 10)
  fraction : Option (List (Fin 10))
  exponent : Option Exponent
  deriving DecidableEq

/-- The characters of a sign. -/
def signText : Option Bool → List Char
  | none => []
  | some false => ['+']
  | some true => ['-']

/-- The characters of the fraction of a written number: the point and the digits. -/
def fractionText : Option (List (Fin 10)) → List Char
  | none => []
  | some ds => '.' :: ds.map digitChar

/-- The characters of the exponent of a written number. -/
def exponentText : Option Exponent → List Char
  | none => []
  | some e => (if e.upper then 'E' else 'e') :: (signText e.sign ++ e.digits.map digitChar)

/-- The power of ten that an exponent denotes. -/
def exponentFactor : Option Exponent → ℚ
  | none => 1
  | some e =>
    if e.sign = some true then 1 / 10 ^ digitsNumber e.digits else 10 ^ digitsNumber e.digits

/-- The digits after the point of a written number. -/
def Numeral.fractionDigits (x : Numeral) : List (Fin 10) :=
  x.fraction.getD []

/-- The characters of a written number. -/
def Numeral.text (x : Numeral) : List Char :=
  signText x.sign ++ x.whole.map digitChar ++ fractionText x.fraction
    ++ exponentText x.exponent

/-- The real number that a written number denotes. -/
def Numeral.value (x : Numeral) : ℚ :=
  (if x.sign = some true then -1 else 1)
    * ((digitsNumber x.whole : ℚ)
        + (digitsNumber x.fractionDigits : ℚ) / 10 ^ x.fractionDigits.length)
    * exponentFactor x.exponent

/-- A written number has a digit before or after the point, and an exponent has a
digit. -/
def Numeral.wellFormed (x : Numeral) : Bool :=
  (!x.whole.isEmpty || !x.fractionDigits.isEmpty)
    && (match x.exponent with
        | none => true
        | some e => !e.digits.isEmpty)

/-- Whitespace between two tokens: at least one character, all of them whitespace. -/
def blank (s : List Char) : Bool :=
  !s.isEmpty && s.all isspace

/-- What may follow the last operand of a statement: nothing, or characters that start
with a whitespace character. -/
def stops (rest : List Char) : Bool :=
  match rest with
  | [] => true
  | c :: _ => isspace c

/-- An operand of a statement as written: the whitespace before it and the number. It is
in range when the number does not lie beyond the range of `float`. -/
def inRangeOperand [FloatModel] (o : List Char × Numeral) : Bool :=
  blank o.1 && o.2.wellFormed && !FloatModel.overflow o.2.value

/-- The line of a statement: leading whitespace, the statement type, the operands, each
after its whitespace, and what follows the last operand. -/
def written (lead : List Char) (ty : String) (ops : List (List Char × Numeral))
    (rest : List Char) : String :=
  ⟨lead ++ ty.toList ++ ops.flatMap (fun o => o.1 ++ o.2.text) ++ rest⟩

/-- The written number `1e40`, beyond the range of `float`. -/
def tenToForty : Numeral :=
  ⟨none, [1], none, some ⟨false, none, [4, 0]⟩⟩

/-- A written number of one digit. -/
def oneDigit (d : Fin 10) : Numeral :=
  ⟨none, [d], none, none⟩

/-- The written number `0.3`. -/
def threeTenths : Numeral :=
  ⟨none, [0], some [3], none⟩

/-- The written number `-1.50E+2`, which is -150. -/
def minusOneFiftyE2 : Numeral :=
  ⟨some true, [1], some [5, 0], some ⟨true, some false, [2]⟩⟩

/-- A valid file whose position has the operand `1e40`. -/
def hugePosition : List String :=
  ["v 1e40 2 3", "vt 0 0", "vn 0 0 1", "f 1/1/1 1/1/1 1/1/1"]

/-- The parts of a written statement are as the format has them: the leading characters
are whitespace, every operand comes after whitespace and is a well-formed number within
the range of `float`, and what follows the last operand is nothing or starts with
whitespace. -/
def writtenOk [FloatModel] (lead : List Char) (ops : List (List Char × Numeral))
    (rest : List Char) : Bool :=
  lead.all isspace && ops.all inRangeOperand && stops rest

/-! ## Element access -/

theorem getAt_eq_some {α : Type} {xs : List α} {i : Int} {a : α} :
    getAt xs i = some a ↔ 0 ≤ i ∧ xs[i.toNat]? = some a := by
  unfold getAt
  split <;> simp [*]

theorem getAt_length_append {α : Type} (xs : List α) (i : Int) (a : α)
    (h : i = xs.length) : getAt (xs ++ [a]) i = some a := by
  subst h
  simp [getAt]

theorem setAt_length_append {α : Type} (xs : List α) (i : Int) (a b : α)
    (h : i = xs.length) : setAt (xs ++ [a]) i b = some (xs ++ [b]) := by
  subst h
  simp [setAt]

/-! ## The statements as equations -/

theorem stmtV_eq [FloatModel] (g : Globals) (ls : IStream) (h : g.vi + 1 = g.v.length) :
    stmtV g ls = .next { g with vi := g.vi + 1, v := g.v ++ [extract3 ls ⟨0, 0, 0⟩] } := by
  simp [stmtV, getAt_length_append _ _ _ h, setAt_length_append _ _ _ _ h]

theorem stmtVn_eq [FloatModel] (g : Globals) (ls : IStream) (h : g.vni + 1 = g.vn.length) :
    stmtVn g ls = .next { g with vni := g.vni + 1, vn := g.vn ++ [extract3 ls ⟨0, 0, 0⟩] } := by
  simp [stmtVn, getAt_length_append _ _ _ h, setAt_length_append _ _ _ _ h]

theorem stmtVt_eq [FloatModel] (g : Globals) (ls : IStream) (h : g.vti + 1 = g.vt.length) :
    stmtVt g ls = .next { g with vti := g.vti + 1, vt := g.vt ++ [extract2 ls ⟨0, 0⟩] } := by
  simp [stmtVt, getAt_length_append _ _ _ h, setAt_length_append _ _ _ _ h]

theorem sameAttributes_of_corner [FloatModel] {g : Globals} {j : Nat} {o c : VERTEX}
    {t : Option Int × Option Int × Option Int}
    (ho : g.OurVertices[j]? = some o) (hc : corner g.v g.vt g.vn t = some c) :
    sameAttributes g j (t.1.map (· - 1)) (t.2.1.map (· - 1)) (t.2.2.map (· - 1))
      = some (decide (o = c)) := by
  unfold corner at hc
  split at hc
  · rename_i p tc n hp ht hn
    simp only [Option.some.injEq] at hc
    subst hc
    obtain ⟨⟨ox, oy, oz⟩, ⟨nx, ny, nz⟩, ⟨tx, ty⟩⟩ := o
    simp only [sameAttributes, ho, hp, ht, hn, convert, VERTEX.mk.injEq, XMFLOAT3.mk.injEq,
      XMFLOAT2.mk.injEq]
    by_cases h1 : ox = p.x ∧ oy = p.y ∧ oz = p.z * -1
    · by_cases h2 : tx = tc.x ∧ ty = FloatModel.round (1 - tc.y)
      · simp [h1, h2]
      · simp only [h1, and_self, if_true, h2, if_false]
        simp [h2]
    · simp only [h1, if_false]
      simp [h1]
  · simp at hc

theorem sameAttributes_of_no_corner [FloatModel] {g : Globals} {j : Nat}
    {t : Option Int × Option Int × Option Int}
    (hc : corner g.v g.vt g.vn t = none) :
    sameAttributes g j (t.1.map (· - 1)) (t.2.1.map (· - 1)) (t.2.2.map (· - 1))
      ≠ some true := by
  unfold sameAttributes
  unfold corner at hc
  cases h1 : g.OurVertices[j]? <;> cases h2 : getIdx g.v (t.1.map (· - 1)) <;>
    cases h3 : getIdx g.vt (t.2.1.map (· - 1)) <;>
    cases h4 : getIdx g.vn (t.2.2.map (· - 1)) <;>
    simp_all
  all_goals split_ifs <;> simp

theorem scan_of_corner [FloatModel] {g : Globals} {c : VERTEX} {t : Option Int × Option Int × Option Int}
    (hc : corner g.v g.vt g.vn t = some c) :
    ∀ n j, j + n = g.OurVertices.length →
      scan g (t.1.map (· - 1)) (t.2.1.map (· - 1)) (t.2.2.map (· - 1)) j n
        = some (if c ∈ g.OurVertices.drop j
            then some (j + (g.OurVertices.drop j).indexOf c) else none) := by
  intro n
  induction n with
  | zero =>
    intro j hj
    have : g.OurVertices.drop j = [] := List.drop_eq_nil_of_le (by omega)
    simp [scan, this]
  | succ n ih =>
    intro j hj
    have hlt : j < g.OurVertices.length := by omega
    have hd : g.OurVertices.drop j = g.OurVertices[j] :: g.OurVertices.drop (j + 1) :=
      List.drop_eq_getElem_cons hlt
    have ho : g.OurVertices[j]? = some g.OurVertices[j] := List.getElem?_eq_getElem hlt
    rw [scan, sameAttributes_of_corner ho hc, hd]
    by_cases heq : g.OurVertices[j] = c
    · simp [heq]
    · have hne : ¬ c = g.OurVertices[j] := fun h => heq h.symm
      simp only [heq, decide_False, ih (j + 1) (by omega), List.mem_cons, hne, false_or]
      split_ifs with hm
      · rw [List.indexOf_cons_ne _ heq]
        simp only [Option.some.injEq, Nat.succ_eq_add_one]
        omega
      · rfl

theorem scan_of_no_corner [FloatModel] {g : Globals} {t : Option Int × Option Int × Option Int}
    (hc : corner g.v g.vt g.vn t = none) (k : Nat) :
    ∀ n j, scan g (t.1.map (· - 1)) (t.2.1.map (· - 1)) (t.2.2.map (· - 1)) j n
      ≠ some (some k) := by
  intro n
  induction n with
  | zero => intro j; simp [scan]
  | succ n ih =>
    intro j
    rw [scan]
    have h := sameAttributes_of_no_corner (j := j) hc
    split
    · simp
    · rename_i h1; exact absurd h1 h
    · exact ih (j + 1)

theorem setAt_of_lt {α : Type} (xs : List α) (i : Int) (a : α)
    (h0 : 0 ≤ i) (h1 : i.toNat < xs.length) : setAt xs i a = some (xs.set i.toNat a) := by
  simp [setAt, h0, h1]

theorem corner_eq_some [FloatModel] {v : List XMFLOAT3} {vt : List XMFLOAT2} {vn : List XMFLOAT3}
    {t : Option Int × Option Int × Option Int} {c : VERTEX}
    (h : corner v vt vn t = some c) :
    ∃ p tc n, getIdx v (t.1.map (· - 1)) = some p ∧ getIdx vt (t.2.1.map (· - 1)) = some tc
      ∧ getIdx vn (t.2.2.map (· - 1)) = some n ∧ c = convert p tc n := by
  unfold corner at h
  split at h
  · rename_i p tc n hp ht hn
    simp only [Option.some.injEq] at h
    exact ⟨p, tc, n, hp, ht, hn, h.symm⟩
  · simp at h

theorem faceTriplet_eq [FloatModel] (g : Globals) (ls : IStream)
    (hv : g.OurVerticesi + 1 = g.OurVertices.length)
    (h0 : 0 ≤ g.OurIndicesFaceTripleti + 1)
    (h1 : (g.OurIndicesFaceTripleti + 1).toNat < g.OurIndicesFaceTriplet.length) :
    faceTriplet g ls
      = (corner g.v g.vt g.vn (readTriplet ls).1).map
          (fun c => (place g c, (readTriplet ls).2)) := by
  have hn : (g.OurVerticesi + 1).toNat = g.OurVertices.length := by omega
  cases hc : corner g.v g.vt g.vn (readTriplet ls).1 with
  | none =>
    simp only [faceTriplet, Option.map_none']
    have hs := scan_of_no_corner (g := { g with
      OurIndicesFaceTripleti := g.OurIndicesFaceTripleti + 1
      OurIndicesi := g.OurIndicesi + 1
      OurIndices := g.OurIndices ++ [0] }) hc
    split
    · rfl
    · rename_i j hj
      exact absurd hj (hs j _ _)
    · unfold corner at hc
      split
      · rename_i p tc n hp ht hn
        simp [hp, ht, hn] at hc
      · rfl
  | some c =>
    have hs := scan_of_corner (g := { g with
      OurIndicesFaceTripleti := g.OurIndicesFaceTripleti + 1
      OurIndicesi := g.OurIndicesi + 1
      OurIndices := g.OurIndices ++ [0] }) hc (g.OurVerticesi + 1).toNat 0
      (by simp only [Nat.zero_add]; exact hn)
    simp only [List.drop_zero, Nat.zero_add] at hs
    obtain ⟨p, tc, n, hp, ht, hnn, hcv⟩ := corner_eq_some hc
    simp only [faceTriplet, Option.map_some', hs]
    by_cases hm : c ∈ g.OurVertices
    · simp only [hm, if_true, setAt_of_lt _ _ _ h0 h1]
      simp [place, insertVertex, hm]
    · have hidx : g.OurVertices.indexOf c = g.OurVertices.length :=
        List.indexOf_eq_length.2 hm
      simp only [hm, if_false, hp, ht, hnn, ← hcv,
        setAt_length_append _ _ _ _ hv, setAt_of_lt _ _ _ h0 h1]
      simp [place, insertVertex, hm, hidx, hv]

theorem setAt_append_three {α : Type} (xs : List α) (a b c x : α) (i : Int) (k : Nat)
    (h : i = ((xs.length + k : Nat) : Int)) (hk : k < 3) :
    setAt (xs ++ [a, b, c]) i x = some (xs ++ [a, b, c].set k x) := by
  subst h
  rw [setAt_of_lt _ _ _ (by omega) (by simp only [Int.toNat_ofNat, List.length_append,
    List.length_cons, List.length_nil]; omega)]
  simp only [Int.toNat_ofNat, Option.some.injEq]
  rw [List.set_append_right _ _ (by omega)]
  simp

theorem insertVertex_length (T : List VERTEX) (c : VERTEX) :
    ((insertVertex T c).length : Int) = if c ∈ T then (T.length : Int) else T.length + 1 := by
  unfold insertVertex
  split_ifs <;> simp

theorem place_vertices (g : Globals) (c : VERTEX)
    (hv : g.OurVerticesi + 1 = g.OurVertices.length) :
    (place g c).OurVerticesi + 1 = (place g c).OurVertices.length := by
  simp only [place, insertVertex_length]
  split_ifs <;> omega

@[simp] theorem place_v (g : Globals) (c : VERTEX) : (place g c).v = g.v := rfl

@[simp] theorem place_vt (g : Globals) (c : VERTEX) : (place g c).vt = g.vt := rfl

@[simp] theorem place_vn (g : Globals) (c : VERTEX) : (place g c).vn = g.vn := rfl

@[simp] theorem place_scratch_index (g : Globals) (c : VERTEX) :
    (place g c).OurIndicesFaceTripleti = g.OurIndicesFaceTripleti + 1 := rfl

@[simp] theorem place_scratch_length (g : Globals) (c : VERTEX) :
    (place g c).OurIndicesFaceTriplet.length = g.OurIndicesFaceTriplet.length := by
  simp [place]

theorem faceLoop_three [FloatModel] (g : Globals) (ls : IStream)
    (hv : g.OurVerticesi + 1 = g.OurVertices.length)
    (hi : g.OurIndicesFaceTripleti = -1) (hs : g.OurIndicesFaceTriplet.length = 3) :
    faceLoop 3 g ls = (corners g.v g.vt g.vn ls).map (fun c =>
      (place (place (place g c.1) c.2.1) c.2.2,
        (readTriplet (readTriplet (readTriplet ls).2).2).2)) := by
  simp only [faceLoop, corners]
  rw [faceTriplet_eq _ _ hv (by simp [hi]) (by simp [hi, hs])]
  cases h0 : corner g.v g.vt g.vn (readTriplet ls).1 with
  | none => simp
  | some c0 =>
    simp only [Option.map_some']
    rw [faceTriplet_eq _ _ (place_vertices _ _ hv) (by simp [hi]) (by simp [hi, hs])]
    simp only [place_v, place_vt, place_vn]
    cases h1 : corner g.v g.vt g.vn (readTriplet (readTriplet ls).2).1 with
    | none => simp
    | some c1 =>
      simp only [Option.map_some']
      rw [faceTriplet_eq _ _ (place_vertices _ _ (place_vertices _ _ hv)) (by simp [hi])
        (by simp [hi, hs])]
      simp only [place_v, place_vt, place_vn]
      cases h2 : corner g.v g.vt g.vn (readTriplet (readTriplet (readTriplet ls).2).2).1 with
      | none => simp
      | some c2 => simp

theorem windingStore_place (g : Globals) (c0 c1 c2 : VERTEX) (hT : Tracks g) :
    windingStore (place (place (place { g with OurIndicesFaceTripleti := -1 } c0) c1) c2)
      = some (faceResult g c0 c1 c2) := by
  obtain ⟨_, _, _, hv, hi, hs⟩ := hT
  obtain ⟨a, b, c, hft⟩ : ∃ a b c, g.OurIndicesFaceTriplet = [a, b, c] := by
    match h : g.OurIndicesFaceTriplet, hs with
    | [a, b, c], _ => exact ⟨a, b, c, rfl⟩
  simp only [windingStore, place, hft, getAt, List.append_assoc, List.singleton_append]
  simp only [Int.reduceNeg, neg_add_cancel, Int.toNat_zero, List.set_cons_zero, zero_add,
    Int.toNat_one, List.set_cons_succ, Int.reduceAdd, Int.toNat_ofNat, le_refl, ↓reduceIte,
    List.getElem?_cons_zero, Nat.ofNat_nonneg, Int.reduceToNat, List.getElem?_cons_succ,
    zero_le_one]
  simp only [List.cons_append, List.nil_append]
  rw [setAt_append_three _ _ _ _ _ _ 0 (by omega) (by omega)]
  simp only [List.set_cons_zero]
  rw [setAt_append_three _ _ _ _ _ _ 1 (by omega) (by omega)]
  simp only [List.set_cons_succ, List.set_cons_zero]
  rw [setAt_append_three _ _ _ _ _ _ 2 (by omega) (by omega)]
  simp only [List.set_cons_succ, List.set_cons_zero, faceResult, Int.toNat_ofNat,
    Option.some.injEq, Globals.mk.injEq, true_and, and_true]
  refine ⟨?_, by omega⟩
  simp only [insertVertex_length]
  split_ifs <;> omega

theorem stmtF_eq [FloatModel] (g : Globals) (ls : IStream) (hT : Tracks g) :
    stmtF g ls =
      if g.vi = -1 ∨ g.vti = -1 ∨ g.vni = -1 then .ret 2 g
      else match corners g.v g.vt g.vn ls with
        | none => .undefined
        | some c => .next (faceResult g c.1 c.2.1 c.2.2) := by
  unfold stmtF
  split_ifs with hm
  · rfl
  · rw [faceLoop_three { g with OurIndicesFaceTripleti := -1 } ls hT.vertices rfl hT.scratch]
    cases hc : corners g.v g.vt g.vn ls with
    | none => simp
    | some c => simp [windingStore_place _ _ _ _ hT]

theorem statement_eq [FloatModel] (g : Globals) (l : String) (hT : Tracks g) :
    statement g l =
      if firstToken l = "v" then
        .next { g with vi := g.vi + 1, v := g.v ++ [extract3 (operands l) ⟨0, 0, 0⟩] }
      else if firstToken l = "vn" then
        .next { g with vni := g.vni + 1, vn := g.vn ++ [extract3 (operands l) ⟨0, 0, 0⟩] }
      else if firstToken l = "vt" then
        .next { g with vti := g.vti + 1, vt := g.vt ++ [extract2 (operands l) ⟨0, 0⟩] }
      else if firstToken l = "f" then
        if g.vi = -1 ∨ g.vti = -1 ∨ g.vni = -1 then .ret 2 g
        else match corners g.v g.vt g.vn (operands l) with
          | none => .undefined
          | some c => .next (faceResult g c.1 c.2.1 c.2.2)
      else .next g := by
  simp only [statement, firstToken, operands, stmtV_eq _ _ hT.v, stmtVn_eq _ _ hT.vn,
    stmtVt_eq _ _ hT.vt, stmtF_eq _ _ hT]

/-! ## The scan-and-insert step on the vertex table -/

theorem insertVertex_nodup {T : List VERTEX} (c : VERTEX) (h : T.Nodup) :
    (insertVertex T c).Nodup := by
  unfold insertVertex
  split_ifs with hm
  · exact h
  · exact List.Nodup.append h (List.nodup_singleton c) (by simpa using hm)

theorem insertVertex_extends (T : List VERTEX) (c : VERTEX) : T <+: insertVertex T c := by
  unfold insertVertex
  split_ifs
  · exact List.prefix_refl T
  · exact List.prefix_append T [c]

theorem mem_insertVertex (T : List VERTEX) (c : VERTEX) : c ∈ insertVertex T c := by
  unfold insertVertex
  split_ifs with hm
  · exact hm
  · simp

theorem indexOf_lt_insertVertex (T : List VERTEX) (c : VERTEX) :
    T.indexOf c < (insertVertex T c).length := by
  unfold insertVertex
  split_ifs with hm
  · exact List.indexOf_lt_length.2 hm
  · rw [List.indexOf_eq_length.2 hm]
    simp

theorem getElem?_insertVertex (T : List VERTEX) (c : VERTEX) :
    (insertVertex T c)[T.indexOf c]? = some c := by
  unfold insertVertex
  split_ifs with hm
  · rw [List.getElem?_eq_getElem (List.indexOf_lt_length.2 hm)]
    simp
  · rw [List.indexOf_eq_length.2 hm]
    simp

theorem length_le_insertVertex (T : List VERTEX) (c : VERTEX) :
    T.length ≤ (insertVertex T c).length :=
  (insertVertex_extends T c).length_le

/-! ## Invariants of the loop -/

theorem fresh_tracks : Tracks fresh := by
  constructor <;> simp [fresh]

theorem fresh_meshOk : MeshOk fresh := by
  constructor <;> simp [fresh]

theorem faceResult_tracks {g : Globals} (c0 c1 c2 : VERTEX) (hT : Tracks g) :
    Tracks (faceResult g c0 c1 c2) := by
  obtain ⟨h1, h2, h3, h4, h5, h6⟩ := hT
  constructor <;> simp [faceResult, *]
  omega

theorem faceResult_meshOk {g : Globals} (c0 c1 c2 : VERTEX) (hM : MeshOk g) :
    MeshOk (faceResult g c0 c1 c2) := by
  obtain ⟨hn, ht, hb⟩ := hM
  have l1 := length_le_insertVertex g.OurVertices c0
  have l2 := length_le_insertVertex (insertVertex g.OurVertices c0) c1
  have l3 := length_le_insertVertex (insertVertex (insertVertex g.OurVertices c0) c1) c2
  have i0 := indexOf_lt_insertVertex g.OurVertices c0
  have i1 := indexOf_lt_insertVertex (insertVertex g.OurVertices c0) c1
  have i2 := indexOf_lt_insertVertex (insertVertex (insertVertex g.OurVertices c0) c1) c2
  constructor
  · exact insertVertex_nodup _ (insertVertex_nodup _ (insertVertex_nodup _ hn))
  · simp only [faceResult, List.length_append, List.length_cons, List.length_nil]
    omega
  · intro x hx
    simp only [faceResult, List.mem_append, List.mem_cons, List.mem_singleton,
      List.not_mem_nil, or_false] at hx ⊢
    rcases hx with hx | rfl | rfl | rfl
    · have := hb x hx
      omega
    · omega
    · omega
    · omega

theorem Grows.refl (g : Globals) : Grows g g :=
  ⟨List.prefix_refl _, List.prefix_refl _, List.prefix_refl _, List.prefix_refl _,
    List.prefix_refl _, rfl, rfl⟩

theorem Grows.trans {g g1 g2 : Globals} (h1 : Grows g g1) (h2 : Grows g1 g2) : Grows g g2 :=
  ⟨h1.vertices.trans h2.vertices, h1.indices.trans h2.indices, h1.v.trans h2.v,
    h1.vt.trans h2.vt, h1.vn.trans h2.vn, h2.verticesTotal.trans h1.verticesTotal,
    h2.primitivesTotal.trans h1.primitivesTotal⟩

theorem faceResult_grows (g : Globals) (c0 c1 c2 : VERTEX) :
    Grows g (faceResult g c0 c1 c2) := by
  refine ⟨?_, ?_, List.prefix_refl _, List.prefix_refl _, List.prefix_refl _, rfl, rfl⟩
  · exact ((insertVertex_extends _ c0).trans (insertVertex_extends _ c1)).trans
      (insertVertex_extends _ c2)
  · exact List.prefix_append _ _

/-- One statement that lets the loop go on keeps the invariants and only appends. -/
theorem statement_next [FloatModel] {g g1 : Globals} {l : String} (hT : Tracks g) (hM : MeshOk g)
    (h : statement g l = .next g1) : Tracks g1 ∧ MeshOk g1 ∧ Grows g g1 := by
  rw [statement_eq g l hT] at h
  obtain ⟨h1, h2, h3, h4, h5, h6⟩ := hT
  obtain ⟨m1, m2, m3⟩ := hM
  split_ifs at h with tv tvn tvt tf hmiss
  · simp only [Flow.next.injEq] at h
    subst h
    refine ⟨⟨?_, h2, h3, h4, h5, h6⟩, ⟨m1, m2, m3⟩, ?_⟩
    · simp [h1]
    · exact ⟨List.prefix_refl _, List.prefix_refl _, List.prefix_append _ _,
        List.prefix_refl _, List.prefix_refl _, rfl, rfl⟩
  · simp only [Flow.next.injEq] at h
    subst h
    refine ⟨⟨h1, h2, ?_, h4, h5, h6⟩, ⟨m1, m2, m3⟩, ?_⟩
    · simp [h3]
    · exact ⟨List.prefix_refl _, List.prefix_refl _, List.prefix_refl _,
        List.prefix_refl _, List.prefix_append _ _, rfl, rfl⟩
  · simp only [Flow.next.injEq] at h
    subst h
    refine ⟨⟨h1, ?_, h3, h4, h5, h6⟩, ⟨m1, m2, m3⟩, ?_⟩
    · simp [h2]
    · exact ⟨List.prefix_refl _, List.prefix_refl _, List.prefix_refl _,
        List.prefix_append _ _, List.prefix_refl _, rfl, rfl⟩
  · split at h
    · simp at h
    · simp only [Flow.next.injEq] at h
      subst h
      exact ⟨faceResult_tracks _ _ _ ⟨h1, h2, h3, h4, h5, h6⟩,
        faceResult_meshOk _ _ _ ⟨m1, m2, m3⟩, faceResult_grows _ _ _ _⟩
  · simp only [Flow.next.injEq] at h
    subst h
    exact ⟨⟨h1, h2, h3, h4, h5, h6⟩, ⟨m1, m2, m3⟩, Grows.refl _⟩

/-- The loop, when it reaches the end of the lines, keeps the invariants and has only
appended to the tables. -/
theorem parseLines_next [FloatModel] {ls : List String} : ∀ {g g1 : Globals}, Tracks g → MeshOk g →
    parseLines g ls = .next g1 → Tracks g1 ∧ MeshOk g1 ∧ Grows g g1 := by
  induction ls with
  | nil =>
    intro g g1 hT hM h
    simp only [parseLines, Flow.next.injEq] at h
    subst h
    exact ⟨hT, hM, Grows.refl _⟩
  | cons l ls ih =>
    intro g g1 hT hM h
    rw [parseLines] at h
    split at h
    · rename_i g2 hs
      obtain ⟨t2, m2, w2⟩ := statement_next hT hM hs
      obtain ⟨t1, m1, w1⟩ := ih t2 m2 h
      exact ⟨t1, m1, w2.trans w1⟩
    · simp at h
    · simp at h

theorem parseLines_append [FloatModel] (g : Globals) (pre post : List String) :
    parseLines g (pre ++ post) =
      match parseLines g pre with
      | .next g1 => parseLines g1 post
      | .ret rc g1 => .ret rc g1
      | .undefined => .undefined := by
  induction pre generalizing g with
  | nil => simp [parseLines]
  | cons l ls ih =>
    simp only [List.cons_append, parseLines]
    cases statement g l with
    | next g1 => simp [ih]
    | ret rc g1 => simp
    | undefined => simp

/-! ## Valid input: the loop runs to the end of the file -/

theorem getAt_of_range {α : Type} (xs : List α) (a : Int) (n : Nat)
    (h1 : 1 ≤ a) (h2 : a ≤ n) (h3 : n ≤ xs.length) :
    ∃ x, getAt xs (a - 1) = some x ∧ xs[(a - 1).toNat]? = some x := by
  have hlt : (a - 1).toNat < xs.length := by omega
  refine ⟨xs[(a - 1).toNat], ?_, List.getElem?_eq_getElem hlt⟩
  simp only [getAt]
  rw [if_pos (by omega)]
  exact List.getElem?_eq_getElem hlt

theorem inRange_eq_true {nv nvt nvn : Nat} {t : Option Int × Option Int × Option Int}
    (h : inRange nv nvt nvn t = true) :
    ∃ a b c : Int, t = (some a, some b, some c) ∧ 1 ≤ a ∧ a ≤ nv ∧ 1 ≤ b ∧ b ≤ nvt
      ∧ 1 ≤ c ∧ c ≤ nvn := by
  obtain ⟨a, b, c⟩ := t
  cases a <;> cases b <;> cases c <;> simp [inRange] at h
  rename_i a b c
  exact ⟨a, b, c, rfl, h⟩

theorem corner_of_inRange [FloatModel] {nv nvt nvn : Nat} {t : Option Int × Option Int × Option Int}
    (v : List XMFLOAT3) (vt : List XMFLOAT2) (vn : List XMFLOAT3)
    (h : inRange nv nvt nvn t = true)
    (hv : nv ≤ v.length) (hvt : nvt ≤ vt.length) (hvn : nvn ≤ vn.length) :
    ∃ a b c : Int, ∃ p tc n, t = (some a, some b, some c)
      ∧ getAt v (a - 1) = some p ∧ getAt vt (b - 1) = some tc ∧ getAt vn (c - 1) = some n
      ∧ corner v vt vn t = some (convert p tc n) := by
  obtain ⟨a, b, c, rfl, a1, a2, b1, b2, c1, c2⟩ := inRange_eq_true h
  obtain ⟨p, hp, _⟩ := getAt_of_range v a nv a1 a2 hv
  obtain ⟨tc, ht, _⟩ := getAt_of_range vt b nvt b1 b2 hvt
  obtain ⟨n, hn, _⟩ := getAt_of_range vn c nvn c1 c2 hvn
  refine ⟨a, b, c, p, tc, n, rfl, hp, ht, hn, ?_⟩
  simp [corner, getIdx, hp, ht, hn]

theorem corners_of_inRange [FloatModel] {nv nvt nvn : Nat} (ls : IStream)
    (v : List XMFLOAT3) (vt : List XMFLOAT2) (vn : List XMFLOAT3)
    (h : (triplets 3 ls).all (inRange nv nvt nvn) = true)
    (hv : nv ≤ v.length) (hvt : nvt ≤ vt.length) (hvn : nvn ≤ vn.length) :
    ∃ c0 c1 c2, corners v vt vn ls = some (c0, c1, c2) ∧ 1 ≤ nv ∧ 1 ≤ nvt ∧ 1 ≤ nvn := by
  simp only [triplets, List.all_cons, List.all_nil, Bool.and_true, Bool.and_eq_true] at h
  obtain ⟨h0, h1, h2⟩ := h
  obtain ⟨_, _, _, p0, t0, n0, _, _, _, _, e0⟩ := corner_of_inRange v vt vn h0 hv hvt hvn
  obtain ⟨_, _, _, p1, t1, n1, _, _, _, _, e1⟩ := corner_of_inRange v vt vn h1 hv hvt hvn
  obtain ⟨_, _, _, p2, t2, n2, _, _, _, _, e2⟩ := corner_of_inRange v vt vn h2 hv hvt hvn
  obtain ⟨a, b, c, _, a1, a2, b1, b2, c1, c2⟩ := inRange_eq_true h0
  refine ⟨convert p0 t0 n0, convert p1 t1 n1, convert p2 t2 n2, ?_, by omega, by omega,
    by omega⟩
  simp only [corners, e0, e1, e2]

/-- On valid lines the loop reaches the end of the file: no return from inside the
loop and no access outside a vector. -/
theorem parseLines_of_valid [FloatModel] {ls : List String} : ∀ {g : Globals} {nv nvt nvn : Nat},
    Tracks g → MeshOk g → validFrom nv nvt nvn ls = true →
    nv ≤ g.v.length → nvt ≤ g.vt.length → nvn ≤ g.vn.length →
    ∃ g1, parseLines g ls = .next g1 := by
  induction ls with
  | nil => intro g _ _ _ _ _ _ _ _ _; exact ⟨g, rfl⟩
  | cons l ls ih =>
    intro g nv nvt nvn hT hM hval hv hvt hvn
    have key : ∀ g1, statement g l = .next g1 →
        ∀ nv1 nvt1 nvn1, validFrom nv1 nvt1 nvn1 ls = true → nv1 ≤ g1.v.length →
        nvt1 ≤ g1.vt.length → nvn1 ≤ g1.vn.length →
        ∃ g2, parseLines g (l :: ls) = .next g2 := by
      intro g1 hs nv1 nvt1 nvn1 hval1 a b c
      obtain ⟨t1, m1, _⟩ := statement_next hT hM hs
      obtain ⟨g2, h2⟩ := ih t1 m1 hval1 a b c
      exact ⟨g2, by rw [parseLines, hs]; exact h2⟩
    have hs := statement_eq g l hT
    rw [validFrom] at hval
    split_ifs at hval hs with tv tvn tvt tf hmiss
    · exact key _ hs _ _ _ hval (by simp; omega) hvt hvn
    · exact key _ hs _ _ _ hval hv hvt (by simp; omega)
    · exact key _ hs _ _ _ hval hv (by simp; omega) hvn
    · simp only [Bool.and_eq_true] at hval
      obtain ⟨_, _, _, _, n1, n2, n3⟩ := corners_of_inRange (operands l) g.v g.vt g.vn hval.1
        hv hvt hvn
      have := hT.v
      have := hT.vt
      have := hT.vn
      omega
    · simp only [Bool.and_eq_true] at hval
      obtain ⟨c0, c1, c2, hc, _⟩ := corners_of_inRange (operands l) g.v g.vt g.vn hval.1
        hv hvt hvn
      rw [hc] at hs
      exact key _ hs _ _ _ hval.2 hv hvt hvn
    · exact key _ hs _ _ _ hval hv hvt hvn

/-! ## Returns from inside the loop -/

/-- The only return inside the loop is the return of code 2 of a face statement that
finds an attribute table empty; the globals are then those before the statement. -/
theorem statement_ret [FloatModel] {g g1 : Globals} {l : String} {rc : Int}
    (h : statement g l = .ret rc g1) :
    rc = 2 ∧ g1 = g ∧ firstToken l = "f" ∧ (g.vi = -1 ∨ g.vti = -1 ∨ g.vni = -1) := by
  unfold statement at h
  simp only at h
  split_ifs at h with tv tvn tvt tf
  · unfold stmtV at h
    simp only at h
    split at h
    · simp at h
    · split at h <;> simp at h
  · unfold stmtVn at h
    simp only at h
    split at h
    · simp at h
    · split at h <;> simp at h
  · unfold stmtVt at h
    simp only at h
    split at h
    · simp at h
    · split at h <;> simp at h
  · unfold stmtF at h
    split_ifs at h with hm
    · simp only [Flow.ret.injEq] at h
      exact ⟨h.1.symm, h.2.symm, tf, hm⟩
    · split at h
      · simp at h
      · split at h <;> simp at h

theorem parseLines_ret [FloatModel] {ls : List String} : ∀ {g g1 : Globals} {rc : Int},
    parseLines g ls = .ret rc g1 → rc = 2 := by
  induction ls with
  | nil => intro g g1 rc h; simp [parseLines] at h
  | cons l ls ih =>
    intro g g1 rc h
    rw [parseLines] at h
    split at h
    · exact ih h
    · rename_i rc2 g2 hs
      simp only [Flow.ret.injEq] at h
      rw [← h.1]
      exact (statement_ret hs).1
    · simp at h

/-! ## The loader on valid input -/

/-- A valid file loaded from the fresh globals: objReader returns 0, and the globals it
leaves satisfy the invariants of the loop. -/
theorem objReader_of_valid [FloatModel] {lines : List String} (hvalid : validFile lines = true) :
    ∃ g1, parseLines fresh lines = .next g1 ∧ Tracks g1 ∧ MeshOk g1 ∧
      objReader fresh (some lines) = some (0, { g1 with
        VertexAttributeSetsTotal := g1.OurVerticesi + 1
        PrimitivesTotal := (g1.OurIndicesi + 1).tdiv 3 }) := by
  obtain ⟨g1, h1⟩ := parseLines_of_valid fresh_tracks fresh_meshOk hvalid
    (Nat.zero_le _) (Nat.zero_le _) (Nat.zero_le _)
  obtain ⟨t1, m1, _⟩ := parseLines_next fresh_tracks fresh_meshOk h1
  exact ⟨g1, h1, t1, m1, by simp [objReader, h1]⟩

/-- Success of objReader means that the loop reached the end of the file. -/
theorem objReader_eq_zero [FloatModel] {g0 g : Globals} {lines : List String}
    (h : objReader g0 (some lines) = some (0, g)) :
    ∃ g1, parseLines g0 lines = .next g1 ∧ g = { g1 with
        VertexAttributeSetsTotal := g1.OurVerticesi + 1
        PrimitivesTotal := (g1.OurIndicesi + 1).tdiv 3 } := by
  unfold objReader at h
  simp only at h
  split at h
  · rename_i g1 h1
    simp only [Option.some.injEq, Prod.mk.injEq, true_and] at h
    exact ⟨g1, h1, h.symm⟩
  · rename_i rc g1 h1
    simp only [Option.some.injEq, Prod.mk.injEq] at h
    have := parseLines_ret h1
    omega
  · simp at h

/-- C1: for every valid input loaded from a fresh state, objReader succeeds, the index
buffer OurIndices has a length that is a multiple of 3, and every value stored in it is
smaller than the length of the vertex table OurVertices. -/
theorem objReader_indices_well_formed [FloatModel] (lines : List String)
    (hvalid : validFile lines = true) :
    ∃ g, objReader fresh (some lines) = some (0, g) ∧ g.OurIndices.length % 3 = 0 ∧
      ∀ x ∈ g.OurIndices, x < g.OurVertices.length := by
  obtain ⟨g1, _, _, m1, h⟩ := objReader_of_valid hvalid
  exact ⟨_, h, m1.threes, m1.bound⟩

theorem objReader_indices_well_formed_witness :
    validFile twoTriangles = true ∧
    ∃ g, objReader fresh (some twoTriangles) = some (0, g) ∧ g.OurIndices.length % 3 = 0 ∧
      ∀ x ∈ g.OurIndices, x < g.OurVertices.length :=
  ⟨by decide, objReader_indices_well_formed twoTriangles (by decide)⟩

theorem twoTriangles_loaded :
    objReader fresh (some twoTriangles) = some (0, twoTrianglesLoaded) := by
  decide!

/-- C4: after objReader has processed a valid input from a fresh state, no two distinct
entries of the vertex table OurVertices are equal in all of their fields (position
x, y, z, normal x, y, z, texture coordinate u, v). -/
theorem objReader_vertices_unique [FloatModel] (lines : List String) (hvalid : validFile lines = true) :
    ∃ g, objReader fresh (some lines) = some (0, g) ∧
      ∀ (i j : Nat) (a b : VERTEX), g.OurVertices[i]? = some a → g.OurVertices[j]? = some b →
        i ≠ j →
        ¬ (a.GeometricVertex.x = b.GeometricVertex.x ∧ a.GeometricVertex.y = b.GeometricVertex.y
          ∧ a.GeometricVertex.z = b.GeometricVertex.z
          ∧ a.VertexNormalVector.x = b.VertexNormalVector.x
          ∧ a.VertexNormalVector.y = b.VertexNormalVector.y
          ∧ a.VertexNormalVector.z = b.VertexNormalVector.z
          ∧ a.VertexTextureCoordinate.x = b.VertexTextureCoordinate.x
          ∧ a.VertexTextureCoordinate.y = b.VertexTextureCoordinate.y) := by
  obtain ⟨g1, _, _, m1, h⟩ := objReader_of_valid hvalid
  refine ⟨_, h, ?_⟩
  intro i j a b hi hj hne heq
  obtain ⟨⟨ax, ay, az⟩, ⟨anx, any, anz⟩, ⟨au, av⟩⟩ := a
  obtain ⟨⟨bx, b_y, bz⟩, ⟨bnx, bny, bnz⟩, ⟨bu, bv⟩⟩ := b
  simp only at heq
  obtain ⟨rfl, rfl, rfl, rfl, rfl, rfl, rfl, rfl⟩ := heq
  simp only at hi hj
  obtain ⟨hi1, hi2⟩ := List.getElem?_eq_some.1 hi
  obtain ⟨hj1, hj2⟩ := List.getElem?_eq_some.1 hj
  exact hne ((List.Nodup.getElem_inj_iff m1.nodup).1 (hi2.trans hj2.symm))

theorem objReader_vertices_unique_witness :
    ∃ g, objReader fresh (some twoTriangles) = some (0, g) ∧
      ∀ (i j : Nat) (a b : VERTEX), g.OurVertices[i]? = some a → g.OurVertices[j]? = some b →
        i ≠ j →
        ¬ (a.GeometricVertex.x = b.GeometricVertex.x ∧ a.GeometricVertex.y = b.GeometricVertex.y
          ∧ a.GeometricVertex.z = b.GeometricVertex.z
          ∧ a.VertexNormalVector.x = b.VertexNormalVector.x
          ∧ a.VertexNormalVector.y = b.VertexNormalVector.y
          ∧ a.VertexNormalVector.z = b.VertexNormalVector.z
          ∧ a.VertexTextureCoordinate.x = b.VertexTextureCoordinate.x
          ∧ a.VertexTextureCoordinate.y = b.VertexTextureCoordinate.y) :=
  objReader_vertices_unique twoTriangles (by decide)

/-- C7: when the input file cannot be opened, objReader returns the code 1 without
reading a statement and leaves every global as it was, in particular the vertex table,
the index buffer and both totals. -/
theorem objReader_file_not_opened [FloatModel] (g : Globals) :
    ∃ g1, objReader g none = some (1, g1) ∧ g1 = g ∧ g1.OurVertices = g.OurVertices
      ∧ g1.OurIndices = g.OurIndices
      ∧ g1.VertexAttributeSetsTotal = g.VertexAttributeSetsTotal
      ∧ g1.PrimitivesTotal = g.PrimitivesTotal :=
  ⟨g, rfl, rfl, rfl, rfl, rfl, rfl⟩

/-- C10: on every successful load from a fresh state, VertexAttributeSetsTotal is the
length of OurVertices and PrimitivesTotal is the length of OurIndices divided by 3, so
PrimitivesTotal * 3 is the number of indices and the byte widths the renderer computes
are the sizes of the two arrays. -/
theorem objReader_totals [FloatModel] (lines : List String) (g : Globals)
    (h : objReader fresh (some lines) = some (0, g)) :
    g.VertexAttributeSetsTotal = g.OurVertices.length
      ∧ g.PrimitivesTotal = ((g.OurIndices.length / 3 : Nat) : Int)
      ∧ g.PrimitivesTotal * 3 = g.OurIndices.length
      ∧ vertexBufferByteWidth g = sizeofVERTEX * g.OurVertices.length
      ∧ indexBufferByteWidth g = sizeofDWORD * g.OurIndices.length := by
  obtain ⟨g1, h1, rfl⟩ := objReader_eq_zero h
  obtain ⟨t1, m1, _⟩ := parseLines_next fresh_tracks fresh_meshOk h1
  have hv := t1.vertices
  have hi := t1.indices
  have h3 := m1.threes
  have e1 : (g1.OurIndicesi + 1).tdiv 3 = ((g1.OurIndices.length / 3 : Nat) : Int) := by
    rw [hi, Int.tdiv_eq_ediv (by omega) (by omega)]
    simp
  have e2 : ((g1.OurIndices.length / 3 : Nat) : Int) * 3 = g1.OurIndices.length := by
    omega
  simp only [vertexBufferByteWidth, indexBufferByteWidth, e1, e2, hv, and_self]

theorem objReader_totals_witness :
    twoTrianglesLoaded.VertexAttributeSetsTotal = twoTrianglesLoaded.OurVertices.length
      ∧ twoTrianglesLoaded.PrimitivesTotal
          = ((twoTrianglesLoaded.OurIndices.length / 3 : Nat) : Int)
      ∧ twoTrianglesLoaded.PrimitivesTotal * 3 = twoTrianglesLoaded.OurIndices.length
      ∧ vertexBufferByteWidth twoTrianglesLoaded
          = sizeofVERTEX * twoTrianglesLoaded.OurVertices.length
      ∧ indexBufferByteWidth twoTrianglesLoaded
          = sizeofDWORD * twoTrianglesLoaded.OurIndices.length :=
  objReader_totals twoTriangles twoTrianglesLoaded twoTriangles_loaded

/-! ## The raw tables and the return of code 2 -/

theorem countType_cons (ty : String) (l : String) (ls : List String) :
    countType ty (l :: ls) = (if firstToken l = ty then 1 else 0) + countType ty ls := by
  unfold countType
  by_cases h : firstToken l = ty
  · simp [List.filter_cons, h]
    omega
  · simp [List.filter_cons, h]

theorem tracks_empty_iff {g : Globals} (hT : Tracks g) :
    (g.vi = -1 ∨ g.vti = -1 ∨ g.vni = -1) ↔
      (g.v.length = 0 ∨ g.vt.length = 0 ∨ g.vn.length = 0) := by
  have := hT.v
  have := hT.vt
  have := hT.vn
  omega

/-- What one statement that lets the loop go on does to the raw tables: it appends the
operands of an attribute statement to the table of its kind; a face statement needs the
three tables non-empty, and every other statement leaves the mesh alone. -/
theorem statement_next_raw [FloatModel] {g g1 : Globals} {l : String} (hT : Tracks g)
    (h : statement g l = .next g1) :
    Tracks g1 ∧ g1.v = g.v ++ vStatements [l] ∧ g1.vt = g.vt ++ vtStatements [l]
      ∧ g1.vn = g.vn ++ vnStatements [l]
      ∧ (firstToken l = "f" → 1 ≤ g.v.length ∧ 1 ≤ g.vt.length ∧ 1 ≤ g.vn.length)
      ∧ (firstToken l ≠ "f" → SameMesh g g1) := by
  have hempty := tracks_empty_iff hT
  rw [statement_eq g l hT] at h
  obtain ⟨h1, h2, h3, h4, h5, h6⟩ := hT
  have nvf : ("v" : String) ≠ "f" := by decide
  have nvvn : ("v" : String) ≠ "vn" := by decide
  have nvvt : ("v" : String) ≠ "vt" := by decide
  have nvnf : ("vn" : String) ≠ "f" := by decide
  have nvnvt : ("vn" : String) ≠ "vt" := by decide
  have nvtf : ("vt" : String) ≠ "f" := by decide
  split_ifs at h with tv tvn tvt tf hmiss
  · simp only [Flow.next.injEq] at h
    subst h
    refine ⟨⟨by simp [h1], h2, h3, h4, h5, h6⟩, ?_, ?_, ?_, ?_, fun _ => ⟨rfl, rfl, rfl, rfl⟩⟩
    · simp [vStatements, tv]
    · simp [vtStatements, tv, nvvt]
    · simp [vnStatements, tv, nvvn]
    · intro hf; exact absurd (tv.symm.trans hf) nvf
  · simp only [Flow.next.injEq] at h
    subst h
    refine ⟨⟨h1, h2, by simp [h3], h4, h5, h6⟩, ?_, ?_, ?_, ?_, fun _ => ⟨rfl, rfl, rfl, rfl⟩⟩
    · simp [vStatements, tv]
    · simp [vtStatements, tvn, nvnvt]
    · simp [vnStatements, tvn]
    · intro hf; exact absurd (tvn.symm.trans hf) nvnf
  · simp only [Flow.next.injEq] at h
    subst h
    refine ⟨⟨h1, by simp [h2], h3, h4, h5, h6⟩, ?_, ?_, ?_, ?_, fun _ => ⟨rfl, rfl, rfl, rfl⟩⟩
    · simp [vStatements, tv]
    · simp [vtStatements, tvt]
    · simp [vnStatements, tvn]
    · intro hf; exact absurd (tvt.symm.trans hf) nvtf
  · split at h
    · simp at h
    · simp only [Flow.next.injEq] at h
      subst h
      refine ⟨faceResult_tracks _ _ _ ⟨h1, h2, h3, h4, h5, h6⟩, ?_, ?_, ?_, ?_,
        fun hn => absurd tf hn⟩
      · simp [vStatements, tv, faceResult]
      · simp [vtStatements, tvt, faceResult]
      · simp [vnStatements, tvn, faceResult]
      · intro _
        have := hempty.not.1 hmiss
        omega
  · simp only [Flow.next.injEq] at h
    subst h
    refine ⟨⟨h1, h2, h3, h4, h5, h6⟩, ?_, ?_, ?_, fun hf => absurd hf tf,
      fun _ => ⟨rfl, rfl, rfl, rfl⟩⟩
    · simp [vStatements, tv]
    · simp [vtStatements, tvt]
    · simp [vnStatements, tvn]

theorem vStatements_cons [FloatModel] (l : String) (ls : List String) :
    vStatements (l :: ls) = vStatements [l] ++ vStatements ls := by
  unfold vStatements
  by_cases h : firstToken l = "v" <;> simp [List.filter_cons, h]

theorem vtStatements_cons [FloatModel] (l : String) (ls : List String) :
    vtStatements (l :: ls) = vtStatements [l] ++ vtStatements ls := by
  unfold vtStatements
  by_cases h : firstToken l = "vt" <;> simp [List.filter_cons, h]

theorem vnStatements_cons [FloatModel] (l : String) (ls : List String) :
    vnStatements (l :: ls) = vnStatements [l] ++ vnStatements ls := by
  unfold vnStatements
  by_cases h : firstToken l = "vn" <;> simp [List.filter_cons, h]

theorem vStatements_length [FloatModel] (ls : List String) :
    (vStatements ls).length = countType "v" ls := by
  simp [vStatements, countType]

theorem vtStatements_length [FloatModel] (ls : List String) :
    (vtStatements ls).length = countType "vt" ls := by
  simp [vtStatements, countType]

theorem vnStatements_length [FloatModel] (ls : List String) :
    (vnStatements ls).length = countType "vn" ls := by
  simp [vnStatements, countType]

/-- The raw tables after the loop has read `ls`: the tables before, followed by the
operands of the attribute statements of `ls` in file order. -/
theorem parseLines_next_raw [FloatModel] {ls : List String} : ∀ {g g1 : Globals}, Tracks g →
    parseLines g ls = .next g1 →
    g1.v = g.v ++ vStatements ls ∧ g1.vt = g.vt ++ vtStatements ls
      ∧ g1.vn = g.vn ++ vnStatements ls := by
  induction ls with
  | nil =>
    intro g g1 _ h
    simp only [parseLines, Flow.next.injEq] at h
    subst h
    simp [vStatements, vtStatements, vnStatements]
  | cons l ls ih =>
    intro g g1 hT h
    rw [parseLines] at h
    split at h
    · rename_i g2 hs
      obtain ⟨t2, e1, e2, e3, _, _⟩ := statement_next_raw hT hs
      obtain ⟨f1, f2, f3⟩ := ih t2 h
      rw [f1, f2, f3, e1, e2, e3, vStatements_cons l ls, vtStatements_cons l ls,
        vnStatements_cons l ls]
      simp
    · simp at h
    · simp at h

theorem countType_single (ty : String) (l : String) :
    countType ty [l] = if firstToken l = ty then 1 else 0 := by
  rw [countType_cons]
  simp [countType]

theorem faceMissing_cons_of_next [FloatModel] {g g1 : Globals} {l : String} {ls : List String}
    (e1 : g1.v = g.v ++ vStatements [l]) (e2 : g1.vt = g.vt ++ vtStatements [l])
    (e3 : g1.vn = g.vn ++ vnStatements [l]) (h : FaceMissing g1 ls) :
    FaceMissing g (l :: ls) := by
  obtain ⟨pre, l1, post, rfl, hf, hc⟩ := h
  refine ⟨l :: pre, l1, post, rfl, hf, ?_⟩
  rw [e1, e2, e3] at hc
  simp only [List.length_append, vStatements_length, vtStatements_length,
    vnStatements_length, countType_single] at hc
  simp only [countType_cons]
  omega

/-- When the loop returns, it returns 2, the mesh is what it was before the lines, and
the lines hold a face statement that meets an empty attribute table. -/
theorem parseLines_ret_inv [FloatModel] {ls : List String} : ∀ {g g1 : Globals} {rc : Int}, Tracks g →
    parseLines g ls = .ret rc g1 → rc = 2 ∧ SameMesh g g1 ∧ FaceMissing g ls := by
  induction ls with
  | nil => intro g g1 rc _ h; simp [parseLines] at h
  | cons l ls ih =>
    intro g g1 rc hT h
    rw [parseLines] at h
    split at h
    · rename_i g2 hs
      obtain ⟨t2, e1, e2, e3, hface, hsame⟩ := statement_next_raw hT hs
      obtain ⟨hrc, hm, hfm⟩ := ih t2 h
      refine ⟨hrc, ?_, faceMissing_cons_of_next e1 e2 e3 hfm⟩
      by_cases hf : firstToken l = "f"
      · exfalso
        obtain ⟨n1, n2, n3⟩ := hface hf
        obtain ⟨pre, l1, post, _, _, hc⟩ := hfm
        rw [e1, e2, e3] at hc
        simp only [List.length_append] at hc
        omega
      · have s := hsame hf
        exact ⟨hm.vertices.trans s.vertices, hm.indices.trans s.indices,
          hm.verticesTotal.trans s.verticesTotal, hm.primitivesTotal.trans s.primitivesTotal⟩
    · rename_i rc2 g2 hs
      simp only [Flow.ret.injEq] at h
      obtain ⟨hrc, hg, hf, hmiss⟩ := statement_ret hs
      obtain ⟨rfl, rfl⟩ := h
      subst hg
      refine ⟨hrc, ⟨rfl, rfl, rfl, rfl⟩, [], l, ls, rfl, hf, ?_⟩
      have := (tracks_empty_iff hT).1 hmiss
      simpa [countType] using this
    · simp at h

/-- A face statement that meets an empty attribute table makes the loop return 2. -/
theorem parseLines_of_faceMissing [FloatModel] {ls : List String} : ∀ {g : Globals}, Tracks g →
    FaceMissing g ls → ∃ g1, parseLines g ls = .ret 2 g1 := by
  induction ls with
  | nil =>
    intro g _ h
    obtain ⟨pre, l1, post, he, _⟩ := h
    simp at he
  | cons l ls ih =>
    intro g hT h
    obtain ⟨pre, l1, post, he, hf, hc⟩ := h
    have hmiss : g.vi = -1 ∨ g.vti = -1 ∨ g.vni = -1 := by
      apply (tracks_empty_iff hT).2
      omega
    cases hst : statement g l with
    | ret rc g2 =>
      obtain ⟨hrc, _⟩ := statement_ret hst
      subst hrc
      exact ⟨g2, by rw [parseLines, hst]⟩
    | undefined =>
      exfalso
      rw [statement_eq g l hT] at hst
      split_ifs at hst
    | next g2 =>
      obtain ⟨t2, e1, e2, e3, hface, _⟩ := statement_next_raw hT hst
      cases pre with
      | nil =>
        exfalso
        simp only [List.nil_append, List.cons.injEq] at he
        obtain ⟨rfl, rfl⟩ := he
        have := hface hf
        have := (tracks_empty_iff hT).1 hmiss
        omega
      | cons l0 pre =>
        simp only [List.cons_append, List.cons.injEq] at he
        obtain ⟨rfl, rfl⟩ := he
        have hc2 : g2.v.length + countType "v" pre = 0 ∨ g2.vt.length + countType "vt" pre = 0
            ∨ g2.vn.length + countType "vn" pre = 0 := by
          rw [e1, e2, e3]
          simp only [List.length_append, vStatements_length, vtStatements_length,
            vnStatements_length, countType_single]
          simp only [countType_cons] at hc
          omega
        obtain ⟨g1, h1⟩ := ih t2 ⟨pre, l1, post, rfl, hf, hc2⟩
        exact ⟨g1, by rw [parseLines, hst]; exact h1⟩

/-! ## Reaching the end of the file means the input was valid -/

theorem getIdx_pred_eq_some {α : Type} {xs : List α} {i : Option Int} {x : α}
    (h : getIdx xs (i.map (· - 1)) = some x) :
    ∃ a : Int, i = some a ∧ 1 ≤ a ∧ a ≤ xs.length := by
  cases i with
  | none => simp [getIdx] at h
  | some a =>
    simp only [getIdx, Option.map_some', Option.some_bind] at h
    obtain ⟨h0, h1⟩ := getAt_eq_some.1 h
    obtain ⟨hlt, _⟩ := List.getElem?_eq_some.1 h1
    exact ⟨a, rfl, by omega, by omega⟩

theorem inRange_of_corner [FloatModel] {v : List XMFLOAT3} {vt : List XMFLOAT2} {vn : List XMFLOAT3}
    {t : Option Int × Option Int × Option Int} {c : VERTEX}
    (h : corner v vt vn t = some c) : inRange v.length vt.length vn.length t = true := by
  obtain ⟨p, tc, n, hp, ht, hn, _⟩ := corner_eq_some h
  obtain ⟨a, ha, a1, a2⟩ := getIdx_pred_eq_some hp
  obtain ⟨b, hb, b1, b2⟩ := getIdx_pred_eq_some ht
  obtain ⟨c, hc, c1, c2⟩ := getIdx_pred_eq_some hn
  obtain ⟨t1, t2, t3⟩ := t
  simp only at ha hb hc
  subst ha hb hc
  simp [inRange, a1, a2, b1, b2, c1, c2]

theorem inRange_of_corners [FloatModel] {v : List XMFLOAT3} {vt : List XMFLOAT2} {vn : List XMFLOAT3}
    {ls : IStream} {c : VERTEX × VERTEX × VERTEX} (h : corners v vt vn ls = some c) :
    (triplets 3 ls).all (inRange v.length vt.length vn.length) = true := by
  unfold corners at h
  simp only at h
  split at h
  · rename_i c0 c1 c2 h0 h1 h2
    simp [triplets, inRange_of_corner h0, inRange_of_corner h1, inRange_of_corner h2]
  · simp at h

theorem valid_of_parseLines_next [FloatModel] {ls : List String} : ∀ {g g1 : Globals}, Tracks g →
    parseLines g ls = .next g1 → validFrom g.v.length g.vt.length g.vn.length ls = true := by
  induction ls with
  | nil => intro g g1 _ _; rfl
  | cons l ls ih =>
    intro g g1 hT h
    rw [parseLines] at h
    split at h
    · rename_i g2 hs
      obtain ⟨t2, e1, e2, e3, _, _⟩ := statement_next_raw hT hs
      have hv := ih t2 h
      rw [e1, e2, e3] at hv
      simp only [List.length_append, vStatements_length, vtStatements_length,
        vnStatements_length, countType_single] at hv
      rw [validFrom]
      by_cases tv : firstToken l = "v"
      · have n1 : ¬ firstToken l = "vn" := by rw [tv]; decide
        have n2 : ¬ firstToken l = "vt" := by rw [tv]; decide
        simp only [if_pos tv, if_neg n1, if_neg n2, Nat.add_zero] at hv ⊢
        exact hv
      · by_cases tvn : firstToken l = "vn"
        · have n2 : ¬ firstToken l = "vt" := by rw [tvn]; decide
          simp only [if_neg tv, if_pos tvn, if_neg n2, Nat.add_zero] at hv ⊢
          exact hv
        · by_cases tvt : firstToken l = "vt"
          · simp only [if_neg tv, if_neg tvn, if_pos tvt, Nat.add_zero] at hv ⊢
            exact hv
          · simp only [if_neg tv, if_neg tvn, if_neg tvt, Nat.add_zero] at hv ⊢
            by_cases tf : firstToken l = "f"
            · rw [statement_eq g l hT] at hs
              simp only [if_neg tv, if_neg tvn, if_neg tvt, if_pos tf] at hs
              rw [if_pos tf]
              split_ifs at hs with hmiss
              split at hs
              · simp at hs
              · rename_i c hc
                simp only [Bool.and_eq_true]
                exact ⟨inRange_of_corners hc, hv⟩
            · rw [if_neg tf]
              exact hv
    · simp at h
    · simp at h

/-! ## Return codes -/

/-- A return of code 2 from objReader is a return from inside the loop. -/
theorem objReader_eq_two [FloatModel] {g0 g : Globals} {lines : List String} :
    objReader g0 (some lines) = some (2, g) ↔ parseLines g0 lines = .ret 2 g := by
  unfold objReader
  simp only
  constructor
  · intro h
    split at h
    · simp at h
    · rename_i rc g1 h1
      simp only [Option.some.injEq, Prod.mk.injEq] at h
      rw [h1, h.1, h.2]
    · simp at h
  · intro h
    rw [h]

/-- The codes objReader returns for a file that can be opened are 0 and 2. -/
theorem objReader_code [FloatModel] {g0 g : Globals} {lines : List String} {rc : Int}
    (h : objReader g0 (some lines) = some (rc, g)) : rc = 0 ∨ rc = 2 := by
  unfold objReader at h
  simp only at h
  split at h
  · simp only [Option.some.injEq, Prod.mk.injEq] at h
    exact Or.inl h.1.symm
  · rename_i rc1 g1 h1
    simp only [Option.some.injEq, Prod.mk.injEq] at h
    rw [← h.1]
    exact Or.inr (parseLines_ret h1)
  · simp at h

theorem faceMissing_fresh (lines : List String) :
    FaceMissing fresh lines ↔ FaceBeforeAttributes lines := by
  simp [FaceMissing, FaceBeforeAttributes, fresh]

/-- From the fresh globals objReader returns 2 exactly for the files with a face
statement before which an attribute kind has no statement. -/
theorem objReader_two_iff [FloatModel] (lines : List String) :
    (∃ g, objReader fresh (some lines) = some (2, g)) ↔ FaceBeforeAttributes lines := by
  rw [← faceMissing_fresh]
  constructor
  · rintro ⟨g, h⟩
    exact (parseLines_ret_inv fresh_tracks (objReader_eq_two.1 h)).2.2
  · intro h
    obtain ⟨g1, h1⟩ := parseLines_of_faceMissing fresh_tracks h
    exact ⟨g1, objReader_eq_two.2 h1⟩

/-- From the fresh globals the model of objReader returns 0 exactly for the valid files.
The access outside a vector that an invalid face statement makes ends the model with no
result; what the compiled code does after such an access is not described. -/
theorem objReader_zero_iff [FloatModel] (lines : List String) :
    (∃ g, objReader fresh (some lines) = some (0, g)) ↔ validFile lines = true := by
  constructor
  · rintro ⟨g, h⟩
    obtain ⟨g1, h1, _⟩ := objReader_eq_zero h
    exact valid_of_parseLines_next fresh_tracks h1
  · intro h
    obtain ⟨g1, _, _, _, h1⟩ := objReader_of_valid h
    exact ⟨_, h1⟩

/-- A return from inside the loop happens at one line, which the loop has reached. -/
theorem parseLines_ret_split [FloatModel] {ls : List String} : ∀ {g g1 : Globals} {rc : Int},
    parseLines g ls = .ret rc g1 →
    ∃ pre l post g0, ls = pre ++ l :: post ∧ parseLines g pre = .next g0
      ∧ statement g0 l = .ret rc g1 := by
  induction ls with
  | nil => intro g g1 rc h; simp [parseLines] at h
  | cons l ls ih =>
    intro g g1 rc h
    rw [parseLines] at h
    split at h
    · rename_i g2 hs
      obtain ⟨pre, l1, post, g0, he, hp, hr⟩ := ih h
      refine ⟨l :: pre, l1, post, g0, by rw [he]; rfl, ?_, hr⟩
      rw [parseLines, hs]
      exact hp
    · rename_i rc2 g2 hs
      simp only [Flow.ret.injEq] at h
      obtain ⟨rfl, rfl⟩ := h
      exact ⟨[], l, ls, g, rfl, rfl, hs⟩
    · simp at h

/-- A face statement before which an attribute kind has no statement is reached by the
loop, or an earlier one is. -/
theorem faceReached_iff [FloatModel] (lines : List String) :
    FaceReachedBeforeAttributes lines ↔ FaceBeforeAttributes lines := by
  constructor
  · rintro ⟨pre, l, post, g, he, hf, _, hc⟩
    exact ⟨pre, l, post, he, hf, hc⟩
  · intro h
    obtain ⟨g, hg⟩ := (objReader_two_iff lines).2 h
    obtain ⟨pre, l, post, g0, he, hp, hr⟩ := parseLines_ret_split (objReader_eq_two.1 hg)
    obtain ⟨_, _, hf, hmiss⟩ := statement_ret hr
    obtain ⟨t0, _, _⟩ := parseLines_next fresh_tracks fresh_meshOk hp
    obtain ⟨ev, evt, evn⟩ := parseLines_next_raw fresh_tracks hp
    refine ⟨pre, l, post, g0, he, hf, hp, ?_⟩
    have := (tracks_empty_iff t0).1 hmiss
    rw [ev, evt, evn] at this
    simpa [fresh, vStatements_length, vtStatements_length, vnStatements_length] using this

/-- C5, as the code has it: for every input file that can be opened, objReader (from a
fresh state) returns 2 if and only if the file has a face statement that is reached
while one of the kinds `v`, `vt`, `vn` has had no statement yet; in every other case a
load that returns returns 0, and it does return 0 when the file is valid (every face
statement carries three triplets within the attribute statements read before it). No
return is promised for the other files: the triplets of a face statement are not
validated. -/
theorem objReader_return_code [FloatModel] (lines : List String) :
    ((∃ g, objReader fresh (some lines) = some (2, g)) ↔ FaceReachedBeforeAttributes lines)
      ∧ (¬ FaceReachedBeforeAttributes lines →
          ∀ rc g, objReader fresh (some lines) = some (rc, g) → rc = 0)
      ∧ (validFile lines = true → ∃ g, objReader fresh (some lines) = some (0, g)) := by
  have h2iff := (objReader_two_iff lines).trans (faceReached_iff lines).symm
  refine ⟨h2iff, ?_, (objReader_zero_iff lines).2⟩
  intro h2 rc g h
  rcases objReader_code h with rfl | rfl
  · rfl
  · exact absurd (h2iff.1 ⟨g, h⟩) h2

theorem farPositionFace_undefined : objReader fresh (some farPositionFace) = none := by
  decide!

theorem farPositionFace_not_reached : ¬ FaceReachedBeforeAttributes farPositionFace := by
  intro h
  obtain ⟨g, hg⟩ := (objReader_two_iff farPositionFace).2 ((faceReached_iff _).1 h)
  rw [farPositionFace_undefined] at hg
  exact Option.noConfusion hg

/-- C5, counterexample: in the file `farPositionFace` the face statement is reached
after a statement of each kind, so the load does not return 2; and it does not return
0 either: the statement reads `v[1999999999]` in a vector of one element, an access far
outside the storage of the process. -/
theorem objReader_return_code_counterexample :
    ¬ FaceReachedBeforeAttributes farPositionFace
      ∧ (triplets 3 (operands "f 2000000000/1/1 1/1/1 1/1/1")).head?
          = some (some 2000000000, some 1, some 1)
      ∧ vStatements farPositionFace = [⟨0, 0, 0⟩]
      ∧ ¬ ∃ g, objReader fresh (some farPositionFace) = some (0, g) := by
  refine ⟨farPositionFace_not_reached, by decide, by decide!, ?_⟩
  rintro ⟨g, hg⟩
  rw [farPositionFace_undefined] at hg
  exact Option.noConfusion hg

theorem objReader_return_code_witness :
    (∃ g, objReader fresh (some twoTriangles) = some (0, g))
      ∧ ∃ g, objReader fresh (some faceWithoutAttributes) = some (2, g) :=
  ⟨(objReader_return_code twoTriangles).2.2 (by decide),
    (objReader_return_code faceWithoutAttributes).1.2
      ⟨["v 1 1 1"], "f 1/1/1 1/1/1 1/1/1", [], { fresh with v := [⟨1, 1, 1⟩], vi := 0 },
        rfl, by decide, by decide!, Or.inr (Or.inl (by decide))⟩⟩

/-- C6: whenever objReader, called with globals whose index variables track their
vectors (the fresh state, or the state a call leaves), returns the code 2, the vertex
table, the index buffer, VertexAttributeSetsTotal and PrimitivesTotal are what they
were when the call started. -/
theorem objReader_two_keeps_mesh [FloatModel] (g g1 : Globals) (lines : List String) (hT : Tracks g)
    (h : objReader g (some lines) = some (2, g1)) :
    g1.OurVertices = g.OurVertices ∧ g1.OurIndices = g.OurIndices
      ∧ g1.VertexAttributeSetsTotal = g.VertexAttributeSetsTotal
      ∧ g1.PrimitivesTotal = g.PrimitivesTotal := by
  obtain ⟨_, hm, _⟩ := parseLines_ret_inv hT (objReader_eq_two.1 h)
  exact ⟨hm.vertices, hm.indices, hm.verticesTotal, hm.primitivesTotal⟩

theorem faceWithoutAttributes_left :
    objReader fresh (some faceWithoutAttributes) = some (2, faceWithoutAttributesLeft) := by
  decide!

theorem objReader_two_keeps_mesh_witness :
    faceWithoutAttributesLeft.OurVertices = [] ∧ faceWithoutAttributesLeft.OurIndices = []
      ∧ faceWithoutAttributesLeft.VertexAttributeSetsTotal = 0
      ∧ faceWithoutAttributesLeft.PrimitivesTotal = 0 :=
  objReader_two_keeps_mesh fresh faceWithoutAttributesLeft faceWithoutAttributes fresh_tracks
    faceWithoutAttributes_left

/-- C8, as the code has it: for every input file that can be opened, a load that
returns returns 0 or 2 and no other code; a valid file ends in the return of 0, and a
file with a face statement before which an attribute kind has no statement ends in the
return of 2. These are not the only ways a load can end: a face statement whose triplet
names an index outside a table is not detected, and its access outside the vector is a
failure that is neither. -/
theorem objReader_outcomes [FloatModel] (lines : List String) :
    (∀ rc g, objReader fresh (some lines) = some (rc, g) → rc = 0 ∨ rc = 2)
      ∧ (validFile lines = true → ∃ g, objReader fresh (some lines) = some (0, g))
      ∧ (FaceBeforeAttributes lines → ∃ g, objReader fresh (some lines) = some (2, g)) :=
  ⟨fun _ _ h => objReader_code h, (objReader_zero_iff lines).2, (objReader_two_iff lines).2⟩

theorem farNormalFace_undefined : objReader fresh (some farNormalFace) = none := by
  decide!

/-- C8, counterexample: the file `farNormalFace` can be opened, it has a statement of
each kind before its face statement, and its load ends neither with the return of 0 nor
with the return of 2: the face statement reads `vn[1999999999]` in a vector of one
element, an access far outside the storage of the process. -/
theorem objReader_outcomes_counterexample :
    (triplets 3 (operands "f 1/1/2000000000 1/1/1 1/1/1")).head?
        = some (some 1, some 1, some 2000000000)
      ∧ vnStatements farNormalFace = [⟨0, 0, 0⟩]
      ∧ ¬ ∃ g, objReader fresh (some farNormalFace) = some (0, g)
          ∨ objReader fresh (some farNormalFace) = some (2, g) := by
  refine ⟨by decide, by decide!, ?_⟩
  rintro ⟨g, hg | hg⟩ <;>
  · rw [farNormalFace_undefined] at hg
    exact Option.noConfusion hg

theorem objReader_outcomes_witness :
    ∃ g, objReader fresh (some twoTriangles) = some (0, g) :=
  (objReader_outcomes twoTriangles).2.1 (by decide)

/-! ## A face statement inside a valid file -/

theorem validFrom_append (pre rest : List String) : ∀ (nv nvt nvn : Nat),
    validFrom nv nvt nvn (pre ++ rest) =
      (validFrom nv nvt nvn pre &&
        validFrom (nv + countType "v" pre) (nvt + countType "vt" pre)
          (nvn + countType "vn" pre) rest) := by
  induction pre with
  | nil => intro nv nvt nvn; simp [validFrom, countType]
  | cons l ls ih =>
    intro nv nvt nvn
    have e : ∀ a b c, validFrom a b c (ls.append rest) = validFrom a b c (ls ++ rest) :=
      fun _ _ _ => rfl
    simp only [List.cons_append, validFrom, countType_cons]
    by_cases tv : firstToken l = "v"
    · have n1 : ¬ firstToken l = "vn" := by rw [tv]; decide
      have n2 : ¬ firstToken l = "vt" := by rw [tv]; decide
      simp only [if_pos tv, if_neg n1, if_neg n2, e, ih, Nat.zero_add, Nat.add_assoc]
    · by_cases tvn : firstToken l = "vn"
      · have n2 : ¬ firstToken l = "vt" := by rw [tvn]; decide
        simp only [if_neg tv, if_pos tvn, if_neg n2, e, ih, Nat.zero_add, Nat.add_assoc]
      · by_cases tvt : firstToken l = "vt"
        · simp only [if_neg tv, if_neg tvn, if_pos tvt, e, ih, Nat.zero_add, Nat.add_assoc]
        · by_cases tf : firstToken l = "f"
          · simp only [if_neg tv, if_neg tvn, if_neg tvt, if_pos tf, e, ih, Nat.zero_add,
              Bool.and_assoc]
          · simp only [if_neg tv, if_neg tvn, if_neg tvt, if_neg tf, e, ih, Nat.zero_add]

theorem prefix_getElem? {α : Type} {xs ys : List α} (h : xs <+: ys) {i : Nat} {a : α}
    (hi : xs[i]? = some a) : ys[i]? = some a := by
  obtain ⟨t, rfl⟩ := h
  obtain ⟨hlt, _⟩ := List.getElem?_eq_some.1 hi
  rw [List.getElem?_append_left hlt]
  exact hi

/-- The loop body run on the three triplets of a face statement: where the three
resolved indices are left, and the vertex table they point into. -/
theorem place_three (g : Globals) (c0 c1 c2 : VERTEX)
    (hs : g.OurIndicesFaceTriplet.length = 3) :
    (place (place (place { g with OurIndicesFaceTripleti := -1 } c0) c1) c2).OurIndicesFaceTriplet
        = [(g.OurVertices.indexOf c0 : Int),
            ((insertVertex g.OurVertices c0).indexOf c1 : Int),
            ((insertVertex (insertVertex g.OurVertices c0) c1).indexOf c2 : Int)]
      ∧ (place (place (place { g with OurIndicesFaceTripleti := -1 } c0) c1) c2).OurVertices
        = insertVertex (insertVertex (insertVertex g.OurVertices c0) c1) c2 := by
  obtain ⟨a, b, c, hft⟩ : ∃ a b c, g.OurIndicesFaceTriplet = [a, b, c] := by
    match h : g.OurIndicesFaceTriplet, hs with
    | [a, b, c], _ => exact ⟨a, b, c, rfl⟩
  simp [place, hft]

/-- A face statement `l` of a valid file, between the lines `pre` and `post`: the loop
reaches it with the raw tables holding the attribute statements of `pre`, its three
candidates exist, the statement leaves `faceResult`, and the load goes on to return 0. -/
theorem face_in_valid_file [FloatModel] {pre post : List String} {l : String}
    (hvalid : validFile (pre ++ l :: post) = true) (hf : firstToken l = "f") :
    ∃ g gf c0 c1 c2,
      parseLines fresh pre = .next g ∧ Tracks g ∧ MeshOk g
        ∧ g.v = vStatements pre ∧ g.vt = vtStatements pre ∧ g.vn = vnStatements pre
        ∧ (triplets 3 (operands l)).all (inRange g.v.length g.vt.length g.vn.length) = true
        ∧ corners g.v g.vt g.vn (operands l) = some (c0, c1, c2)
        ∧ statement g l = .next (faceResult g c0 c1 c2)
        ∧ parseLines (faceResult g c0 c1 c2) post = .next gf
        ∧ Grows (faceResult g c0 c1 c2) gf
        ∧ objReader fresh (some (pre ++ l :: post)) = some (0, { gf with
            VertexAttributeSetsTotal := gf.OurVerticesi + 1
            PrimitivesTotal := (gf.OurIndicesi + 1).tdiv 3 }) := by
  unfold validFile at hvalid
  rw [validFrom_append, Bool.and_eq_true] at hvalid
  obtain ⟨hpre, hrest⟩ := hvalid
  obtain ⟨g, hg⟩ := parseLines_of_valid fresh_tracks fresh_meshOk hpre
    (Nat.zero_le _) (Nat.zero_le _) (Nat.zero_le _)
  obtain ⟨tg, mg, _⟩ := parseLines_next fresh_tracks fresh_meshOk hg
  obtain ⟨ev, evt, evn⟩ := parseLines_next_raw fresh_tracks hg
  simp only [fresh, List.nil_append] at ev evt evn
  have nfv : ¬ firstToken l = "v" := by rw [hf]; decide
  have nfvn : ¬ firstToken l = "vn" := by rw [hf]; decide
  have nfvt : ¬ firstToken l = "vt" := by rw [hf]; decide
  rw [validFrom, if_neg nfv, if_neg nfvn, if_neg nfvt, if_pos hf, Bool.and_eq_true,
    Nat.zero_add, Nat.zero_add, Nat.zero_add, ← vStatements_length, ← vtStatements_length,
    ← vnStatements_length, ← ev, ← evt, ← evn] at hrest
  obtain ⟨hin, hpost⟩ := hrest
  obtain ⟨c0, c1, c2, hc, n1, n2, n3⟩ := corners_of_inRange (operands l) g.v g.vt g.vn hin
    (le_refl _) (le_refl _) (le_refl _)
  have hmiss : ¬ (g.vi = -1 ∨ g.vti = -1 ∨ g.vni = -1) := by
    rw [tracks_empty_iff tg]
    omega
  have hst : statement g l = .next (faceResult g c0 c1 c2) := by
    rw [statement_eq g l tg, if_neg nfv, if_neg nfvn, if_neg nfvt, if_pos hf, if_neg hmiss, hc]
  obtain ⟨t1, m1, _⟩ := statement_next tg mg hst
  obtain ⟨gf, hgf⟩ := parseLines_of_valid (g := faceResult g c0 c1 c2) t1 m1 hpost
    (le_refl _) (le_refl _) (le_refl _)
  obtain ⟨_, _, w⟩ := parseLines_next t1 m1 hgf
  refine ⟨g, gf, c0, c1, c2, hg, tg, mg, ev, evt, evn, hin, hc, hst, hgf, w, ?_⟩
  have : parseLines fresh (pre ++ l :: post) = .next gf := by
    rw [parseLines_append, hg]
    simp only [parseLines, hst]
    exact hgf
  simp [objReader, this]

theorem corners_eq_some [FloatModel] {v : List XMFLOAT3} {vt : List XMFLOAT2} {vn : List XMFLOAT3}
    {ls : IStream} {c0 c1 c2 : VERTEX} (h : corners v vt vn ls = some (c0, c1, c2)) :
    ∃ t0 t1 t2, triplets 3 ls = [t0, t1, t2] ∧ corner v vt vn t0 = some c0
      ∧ corner v vt vn t1 = some c1 ∧ corner v vt vn t2 = some c2 := by
  unfold corners at h
  simp only at h
  split at h
  · rename_i d0 d1 d2 h0 h1 h2
    simp only [Option.some.injEq, Prod.mk.injEq] at h
    obtain ⟨rfl, rfl, rfl⟩ := h
    exact ⟨_, _, _, rfl, h0, h1, h2⟩
  · simp at h

theorem vStatements_append [FloatModel] (pre rest : List String) :
    vStatements (pre ++ rest) = vStatements pre ++ vStatements rest := by
  simp [vStatements]

theorem vtStatements_append [FloatModel] (pre rest : List String) :
    vtStatements (pre ++ rest) = vtStatements pre ++ vtStatements rest := by
  simp [vtStatements]

theorem vnStatements_append [FloatModel] (pre rest : List String) :
    vnStatements (pre ++ rest) = vnStatements pre ++ vnStatements rest := by
  simp [vnStatements]

/-- The candidate of an in-range triplet a/b/c, read against the attribute statements of
the lines `pre`: the a-th `v`, b-th `vt` and c-th `vn` statement of the whole file,
converted. -/
theorem corner_in_file [FloatModel] {pre : List String} (rest : List String)
    {t : Option Int × Option Int × Option Int} {cand : VERTEX}
    (hc : corner (vStatements pre) (vtStatements pre) (vnStatements pre) t = some cand) :
    ∃ (a b c : Int) (p : XMFLOAT3) (tc : XMFLOAT2) (n : XMFLOAT3),
      t = (some a, some b, some c) ∧ 1 ≤ a ∧ 1 ≤ b ∧ 1 ≤ c
        ∧ (vStatements (pre ++ rest))[(a - 1).toNat]? = some p
        ∧ (vtStatements (pre ++ rest))[(b - 1).toNat]? = some tc
        ∧ (vnStatements (pre ++ rest))[(c - 1).toNat]? = some n
        ∧ cand = ⟨⟨p.x, p.y, -p.z⟩, ⟨n.x, n.y, -n.z⟩, ⟨tc.x, FloatModel.round (1 - tc.y)⟩⟩ := by
  obtain ⟨p, tc, n, hp, ht, hn, hcand⟩ := corner_eq_some hc
  obtain ⟨a, ha, a1, _⟩ := getIdx_pred_eq_some hp
  obtain ⟨b, hb, b1, _⟩ := getIdx_pred_eq_some ht
  obtain ⟨c, hcc, c1, _⟩ := getIdx_pred_eq_some hn
  obtain ⟨t1, t2, t3⟩ := t
  simp only at ha hb hcc
  subst ha hb hcc
  simp only [getIdx, Option.map_some', Option.some_bind] at hp ht hn
  refine ⟨a, b, c, p, tc, n, rfl, a1, b1, c1, ?_, ?_, ?_, ?_⟩
  · rw [vStatements_append]
    exact prefix_getElem? (List.prefix_append _ _) (getAt_eq_some.1 hp).2
  · rw [vtStatements_append]
    exact prefix_getElem? (List.prefix_append _ _) (getAt_eq_some.1 ht).2
  · rw [vnStatements_append]
    exact prefix_getElem? (List.prefix_append _ _) (getAt_eq_some.1 hn).2
  · simp [hcand, convert]

/-- The vertex of a face triplet as the statements were read: for a face statement `l`
of a valid input, the k-th triplet a/b/c resolves to the index left in
OurIndicesFaceTriplet[k], and the vertex table of the finished load holds there the
converted entries of the raw tables that the a-th `v`, b-th `vt` and c-th `vn` statement
filled. -/
theorem face_triplet_read [FloatModel] (pre post : List String) (l : String)
    (hvalid : validFile (pre ++ l :: post) = true) (hf : firstToken l = "f") :
    ∃ g g1 gf, parseLines fresh pre = .next g ∧ statement g l = .next g1
      ∧ objReader fresh (some (pre ++ l :: post)) = some (0, gf)
      ∧ ∀ k, k < 3 →
        ∃ (a b c : Int) (p : XMFLOAT3) (tc : XMFLOAT2) (n : XMFLOAT3) (j : Nat),
          (triplets 3 (operands l))[k]? = some (some a, some b, some c)
            ∧ 1 ≤ a ∧ 1 ≤ b ∧ 1 ≤ c
            ∧ (vStatements (pre ++ l :: post))[(a - 1).toNat]? = some p
            ∧ (vtStatements (pre ++ l :: post))[(b - 1).toNat]? = some tc
            ∧ (vnStatements (pre ++ l :: post))[(c - 1).toNat]? = some n
            ∧ g1.OurIndicesFaceTriplet[k]? = some (j : Int)
            ∧ gf.OurVertices[j]? = some ⟨⟨p.x, p.y, -p.z⟩, ⟨n.x, n.y, -n.z⟩, ⟨tc.x, FloatModel.round (1 - tc.y)⟩⟩ := by
  obtain ⟨g, gf, d0, d1, d2, hg, tg, mg, ev, evt, evn, hin, hc, hst, hgf, w, hob⟩ :=
    face_in_valid_file hvalid hf
  refine ⟨g, _, _, hg, hst, hob, ?_⟩
  obtain ⟨t0, t1, t2, ht, h0, h1, h2⟩ := corners_eq_some hc
  rw [ev, evt, evn] at h0 h1 h2
  have T1 := insertVertex_extends g.OurVertices d0
  have T2 := insertVertex_extends (insertVertex g.OurVertices d0) d1
  have T3 := insertVertex_extends (insertVertex (insertVertex g.OurVertices d0) d1) d2
  have hw : (faceResult g d0 d1 d2).OurVertices <+: gf.OurVertices := w.vertices
  simp only [faceResult] at hw
  intro k hk
  rw [ht]
  have k3 : k = 0 ∨ k = 1 ∨ k = 2 := by omega
  rcases k3 with rfl | rfl | rfl
  · obtain ⟨a, b, c, p, tc, n, rfl, a1, b1, c1, hp, htc, hn, hd⟩ :=
      corner_in_file (l :: post) h0
    refine ⟨a, b, c, p, tc, n, g.OurVertices.indexOf d0, rfl, a1, b1, c1, hp, htc, hn, ?_, ?_⟩
    · simp only [faceResult, List.getElem?_cons_zero]
    · rw [← hd]
      exact prefix_getElem? ((T2.trans T3).trans hw) (getElem?_insertVertex _ _)
  · obtain ⟨a, b, c, p, tc, n, rfl, a1, b1, c1, hp, htc, hn, hd⟩ :=
      corner_in_file (l :: post) h1
    refine ⟨a, b, c, p, tc, n, (insertVertex g.OurVertices d0).indexOf d1, rfl, a1, b1, c1,
      hp, htc, hn, ?_, ?_⟩
    · simp only [faceResult, List.getElem?_cons_succ, List.getElem?_cons_zero]
    · rw [← hd]
      exact prefix_getElem? (T3.trans hw) (getElem?_insertVertex _ _)
  · obtain ⟨a, b, c, p, tc, n, rfl, a1, b1, c1, hp, htc, hn, hd⟩ :=
      corner_in_file (l :: post) h2
    refine ⟨a, b, c, p, tc, n, (insertVertex (insertVertex g.OurVertices d0) d1).indexOf d2,
      rfl, a1, b1, c1, hp, htc, hn, ?_, ?_⟩
    · simp only [faceResult, List.getElem?_cons_succ, List.getElem?_cons_zero]
    · rw [← hd]
      exact prefix_getElem? hw (getElem?_insertVertex _ _)

/-- C3: for every face statement of a valid input (the line `l` between the lines `pre`
and `post`), if its first, second and third triplets resolve to the vertex-table
indices i0, i1, i2 (the loop over the triplets leaves them in OurIndicesFaceTriplet,
each pointing at its triplet's candidate), then the three entries the statement adds to
the index buffer are exactly (i0, i2, i1) in that order, and the swap leaves the vertex
table as the loop built it, the entries stored before the statement in their places. -/
theorem face_statement_winding [FloatModel] (pre post : List String) (l : String)
    (hvalid : validFile (pre ++ l :: post) = true) (hf : firstToken l = "f") :
    ∃ (g gm g1 : Globals) (rest : IStream) (c0 c1 c2 : VERTEX) (i0 i1 i2 : Nat),
      parseLines fresh pre = .next g
        ∧ corners g.v g.vt g.vn (operands l) = some (c0, c1, c2)
        ∧ faceLoop 3 { g with OurIndicesFaceTripleti := -1 } (operands l) = some (gm, rest)
        ∧ gm.OurIndicesFaceTriplet = [(i0 : Int), (i1 : Int), (i2 : Int)]
        ∧ gm.OurVertices[i0]? = some c0 ∧ gm.OurVertices[i1]? = some c1
        ∧ gm.OurVertices[i2]? = some c2
        ∧ windingStore gm = some g1 ∧ statement g l = .next g1
        ∧ g1.OurIndices = g.OurIndices ++ [i0, i2, i1]
        ∧ g1.OurVertices = gm.OurVertices ∧ g.OurVertices <+: g1.OurVertices := by
  obtain ⟨g, gf, c0, c1, c2, hg, tg, mg, ev, evt, evn, hin, hc, hst, hgf, w, hob⟩ :=
    face_in_valid_file hvalid hf
  have hloop := faceLoop_three { g with OurIndicesFaceTripleti := -1 } (operands l)
    tg.vertices rfl tg.scratch
  simp only [hc, Option.map_some'] at hloop
  obtain ⟨hft, hvs⟩ := place_three g c0 c1 c2 tg.scratch
  have T2 := insertVertex_extends (insertVertex g.OurVertices c0) c1
  have T3 := insertVertex_extends (insertVertex (insertVertex g.OurVertices c0) c1) c2
  refine ⟨g, _, faceResult g c0 c1 c2, _, c0, c1, c2, _, _, _, hg, hc, hloop, hft, ?_, ?_, ?_,
    windingStore_place g c0 c1 c2 tg, hst, rfl, ?_, (faceResult_grows g c0 c1 c2).vertices⟩
  · rw [hvs]
    exact prefix_getElem? (T2.trans T3) (getElem?_insertVertex _ _)
  · rw [hvs]
    exact prefix_getElem? T3 (getElem?_insertVertex _ _)
  · rw [hvs]
    exact getElem?_insertVertex _ _
  · rw [hvs]
    rfl

theorem face_statement_winding_witness :
    ∃ (g gm g1 : Globals) (rest : IStream) (c0 c1 c2 : VERTEX) (i0 i1 i2 : Nat),
      parseLines fresh twoTrianglesHead = .next g
        ∧ corners g.v g.vt g.vn (operands "f 1/1/1 2/1/1 3/1/1") = some (c0, c1, c2)
        ∧ faceLoop 3 { g with OurIndicesFaceTripleti := -1 } (operands "f 1/1/1 2/1/1 3/1/1")
            = some (gm, rest)
        ∧ gm.OurIndicesFaceTriplet = [(i0 : Int), (i1 : Int), (i2 : Int)]
        ∧ gm.OurVertices[i0]? = some c0 ∧ gm.OurVertices[i1]? = some c1
        ∧ gm.OurVertices[i2]? = some c2
        ∧ windingStore gm = some g1 ∧ statement g "f 1/1/1 2/1/1 3/1/1" = .next g1
        ∧ g1.OurIndices = g.OurIndices ++ [i0, i2, i1]
        ∧ g1.OurVertices = gm.OurVertices ∧ g.OurVertices <+: g1.OurVertices :=
  face_statement_winding twoTrianglesHead ["f 1/1/1 3/1/1 2/1/1"] "f 1/1/1 2/1/1 3/1/1"
    (by decide) (by decide)

/-! ## A second call on the same file -/

theorem getIdx_of_prefix {α : Type} {xs ys : List α} {i : Option Int} {x : α}
    (h : getIdx xs i = some x) (hp : xs <+: ys) : getIdx ys i = some x := by
  cases i with
  | none => simp [getIdx] at h
  | some a =>
    simp only [getIdx, Option.some_bind] at h ⊢
    obtain ⟨h0, h1⟩ := getAt_eq_some.1 h
    exact getAt_eq_some.2 ⟨h0, prefix_getElem? hp h1⟩

theorem corner_of_prefix [FloatModel] {v V : List XMFLOAT3} {vt VT : List XMFLOAT2} {vn VN : List XMFLOAT3}
    {t : Option Int × Option Int × Option Int} {c : VERTEX}
    (h : corner v vt vn t = some c) (pv : v <+: V) (pvt : vt <+: VT) (pvn : vn <+: VN) :
    corner V VT VN t = some c := by
  obtain ⟨p, tc, n, hp, ht, hn, hc⟩ := corner_eq_some h
  simp [corner, getIdx_of_prefix hp pv, getIdx_of_prefix ht pvt, getIdx_of_prefix hn pvn, hc]

theorem corners_of_prefix [FloatModel] {v V : List XMFLOAT3} {vt VT : List XMFLOAT2}
    {vn VN : List XMFLOAT3} {ls : IStream} {c : VERTEX × VERTEX × VERTEX}
    (h : corners v vt vn ls = some c) (pv : v <+: V) (pvt : vt <+: VT) (pvn : vn <+: VN) :
    corners V VT VN ls = some c := by
  obtain ⟨c0, c1, c2⟩ := c
  obtain ⟨t0, t1, t2, ht, h0, h1, h2⟩ := corners_eq_some h
  simp only [triplets, List.cons.injEq, and_true] at ht
  obtain ⟨rfl, rfl, rfl⟩ := ht
  simp [corners, corner_of_prefix h0 pv pvt pvn, corner_of_prefix h1 pv pvt pvn,
    corner_of_prefix h2 pv pvt pvn]

theorem insertVertex_of_mem {T : List VERTEX} {c : VERTEX} (h : c ∈ T) :
    insertVertex T c = T := by
  simp [insertVertex, h]

theorem indexOf_insertVertex (X : List VERTEX) (c : VERTEX) :
    (insertVertex X c).indexOf c = X.indexOf c := by
  unfold insertVertex
  split_ifs with hm
  · rfl
  · rw [List.indexOf_append_of_not_mem hm, List.indexOf_eq_length.2 hm]
    simp

/-- In a table that continues the table left by the scan-and-insert step for `c`, the
first entry equal to `c` sits at the index the step resolved. -/
theorem indexOf_of_insertVertex_prefix {X T : List VERTEX} {c : VERTEX}
    (h : insertVertex X c <+: T) : c ∈ T ∧ T.indexOf c = X.indexOf c := by
  obtain ⟨t, rfl⟩ := h
  have hm := mem_insertVertex X c
  exact ⟨List.mem_append_left _ hm, by
    rw [List.indexOf_append_of_mem hm, indexOf_insertVertex]⟩

/-- One statement of the second call, which starts from the globals the first call
left (raw tables `V`, `VT`, `VN`, vertex table `T`, index buffer `I0`) and has reached
the globals `h2` where the first call had reached `g`: it appends to the raw tables and
to the index buffer what the first call appended, and finds every candidate in `T`. -/
theorem second_call_statement [FloatModel] {g g2 h2 : Globals} {l : String}
    {V : List XMFLOAT3} {VT : List XMFLOAT2} {VN : List XMFLOAT3} {T : List VERTEX}
    {I0 : List Nat} (tg : Tracks g) (th : Tracks h2) (hs : statement g l = .next g2)
    (pv : g2.v <+: V) (pvt : g2.vt <+: VT) (pvn : g2.vn <+: VN) (pT : g2.OurVertices <+: T)
    (ev : h2.v = V ++ g.v) (evt : h2.vt = VT ++ g.vt) (evn : h2.vn = VN ++ g.vn)
    (eT : h2.OurVertices = T) (eI : h2.OurIndices = I0 ++ g.OurIndices) :
    ∃ h3, statement h2 l = .next h3 ∧ h3.v = V ++ g2.v ∧ h3.vt = VT ++ g2.vt
      ∧ h3.vn = VN ++ g2.vn ∧ h3.OurVertices = T ∧ h3.OurIndices = I0 ++ g2.OurIndices := by
  rw [statement_eq g l tg] at hs
  have hh := statement_eq h2 l th
  by_cases tv : firstToken l = "v"
  · simp only [if_pos tv, Flow.next.injEq] at hs hh
    subst hs
    exact ⟨_, hh, by simp [ev], evt, evn, eT, eI⟩
  · by_cases tvn : firstToken l = "vn"
    · simp only [if_neg tv, if_pos tvn, Flow.next.injEq] at hs hh
      subst hs
      exact ⟨_, hh, ev, evt, by simp [evn], eT, eI⟩
    · by_cases tvt : firstToken l = "vt"
      · simp only [if_neg tv, if_neg tvn, if_pos tvt, Flow.next.injEq] at hs hh
        subst hs
        exact ⟨_, hh, ev, by simp [evt], evn, eT, eI⟩
      · by_cases tf : firstToken l = "f"
        · simp only [if_neg tv, if_neg tvn, if_neg tvt, if_pos tf] at hs hh
          split_ifs at hs with hmiss
          split at hs
          · simp at hs
          · rename_i c hc
            obtain ⟨c0, c1, c2⟩ := c
            simp only [Flow.next.injEq] at hs
            subst hs
            simp only [faceResult] at pv pvt pvn pT
            have hmiss2 : ¬ (h2.vi = -1 ∨ h2.vti = -1 ∨ h2.vni = -1) := by
              rw [tracks_empty_iff th, ev, evt, evn]
              rw [tracks_empty_iff tg] at hmiss
              simp only [List.length_append]
              omega
            have hc2 : corners h2.v h2.vt h2.vn (operands l) = some (c0, c1, c2) := by
              rw [ev, evt, evn]
              exact corners_of_prefix hc (pv.trans (List.prefix_append _ _))
                (pvt.trans (List.prefix_append _ _)) (pvn.trans (List.prefix_append _ _))
            rw [if_neg hmiss2, hc2] at hh
            have X2 := insertVertex_extends (insertVertex g.OurVertices c0) c1
            have X3 := insertVertex_extends (insertVertex (insertVertex g.OurVertices c0) c1) c2
            obtain ⟨m0, i0⟩ := indexOf_of_insertVertex_prefix ((X2.trans X3).trans pT)
            obtain ⟨m1, i1⟩ := indexOf_of_insertVertex_prefix (X3.trans pT)
            obtain ⟨m2, i2⟩ := indexOf_of_insertVertex_prefix pT
            refine ⟨_, hh, ev, evt, evn, ?_, ?_⟩
            · simp only [faceResult, eT, insertVertex_of_mem m0, insertVertex_of_mem m1,
                insertVertex_of_mem m2]
            · simp only [faceResult, eT, eI, insertVertex_of_mem m0, insertVertex_of_mem m1,
                i0, i1, i2, List.append_assoc]
        · simp only [if_neg tv, if_neg tvn, if_neg tvt, if_neg tf, Flow.next.injEq] at hs hh
          subst hs
          exact ⟨_, hh, ev, evt, evn, eT, eI⟩

/-- The loop of the second call over the lines the first call read from `g` to its
end `gf`. -/
theorem second_call_lines [FloatModel] {ls : List String} : ∀ {g gf h2 : Globals} (I0 : List Nat),
    Tracks g → MeshOk g → Tracks h2 → MeshOk h2 → parseLines g ls = .next gf →
    h2.v = gf.v ++ g.v → h2.vt = gf.vt ++ g.vt → h2.vn = gf.vn ++ g.vn →
    h2.OurVertices = gf.OurVertices → h2.OurIndices = I0 ++ g.OurIndices →
    ∃ hf, parseLines h2 ls = .next hf ∧ Tracks hf ∧ hf.v = gf.v ++ gf.v
      ∧ hf.vt = gf.vt ++ gf.vt ∧ hf.vn = gf.vn ++ gf.vn
      ∧ hf.OurVertices = gf.OurVertices ∧ hf.OurIndices = I0 ++ gf.OurIndices := by
  induction ls with
  | nil =>
    intro g gf h2 I0 _ _ th _ h ev evt evn eT eI
    simp only [parseLines, Flow.next.injEq] at h
    subst h
    exact ⟨h2, rfl, th, ev, evt, evn, eT, eI⟩
  | cons l ls ih =>
    intro g gf h2 I0 tg mg th mh h ev evt evn eT eI
    rw [parseLines] at h
    split at h
    · rename_i g2 hs
      obtain ⟨t2, m2, _⟩ := statement_next tg mg hs
      obtain ⟨_, _, w⟩ := parseLines_next t2 m2 h
      obtain ⟨h3, hs3, fv, fvt, fvn, fT, fI⟩ := second_call_statement tg th hs w.v w.vt w.vn
        w.vertices ev evt evn eT eI
      obtain ⟨t3, m3, _⟩ := statement_next th mh hs3
      obtain ⟨hf, hp, r⟩ := ih I0 t2 m2 t3 m3 h fv fvt fvn fT fI
      exact ⟨hf, by rw [parseLines, hs3]; exact hp, r⟩
    · simp at h
    · simp at h

theorem twoTriangles_loaded_twice :
    objReader twoTrianglesLoaded (some twoTriangles) = some (0, twoTrianglesLoadedTwice) := by
  decide!

/-- C9, counterexample: objReader called twice in a row on the file `twoTriangles`
leaves, after the second call, an index buffer and a PrimitivesTotal that differ from
those after the first call. -/
theorem objReader_second_call_counterexample :
    objReader fresh (some twoTriangles) = some (0, twoTrianglesLoaded)
      ∧ objReader twoTrianglesLoaded (some twoTriangles) = some (0, twoTrianglesLoadedTwice)
      ∧ twoTrianglesLoadedTwice.OurIndices ≠ twoTrianglesLoaded.OurIndices
      ∧ twoTrianglesLoadedTwice.PrimitivesTotal ≠ twoTrianglesLoaded.PrimitivesTotal :=
  ⟨twoTriangles_loaded, twoTriangles_loaded_twice, by decide, by decide⟩

/-- C9, as the code has it: the tables are global and a call appends to what the call
before left. Calling objReader twice in a row on the same valid file leaves, after the
second call, the same vertex table and VertexAttributeSetsTotal as after the first
call, while the index buffer is the index buffer of the first call twice in a row,
PrimitivesTotal is doubled, and the raw tables hold every attribute statement twice. -/
theorem objReader_second_call [FloatModel] (lines : List String) (hvalid : validFile lines = true) :
    ∃ g1 g2, objReader fresh (some lines) = some (0, g1)
      ∧ objReader g1 (some lines) = some (0, g2)
      ∧ g2.OurVertices = g1.OurVertices
      ∧ g2.VertexAttributeSetsTotal = g1.VertexAttributeSetsTotal
      ∧ g2.OurIndices = g1.OurIndices ++ g1.OurIndices
      ∧ g2.PrimitivesTotal = 2 * g1.PrimitivesTotal
      ∧ g2.v = g1.v ++ g1.v ∧ g2.vt = g1.vt ++ g1.vt ∧ g2.vn = g1.vn ++ g1.vn := by
  obtain ⟨gf, hp, tf, mf, h1⟩ := objReader_of_valid hvalid
  have t1 : Tracks { gf with
      VertexAttributeSetsTotal := gf.OurVerticesi + 1
      PrimitivesTotal := (gf.OurIndicesi + 1).tdiv 3 } :=
    ⟨tf.v, tf.vt, tf.vn, tf.vertices, tf.indices, tf.scratch⟩
  have m1 : MeshOk { gf with
      VertexAttributeSetsTotal := gf.OurVerticesi + 1
      PrimitivesTotal := (gf.OurIndicesi + 1).tdiv 3 } :=
    ⟨mf.nodup, mf.threes, mf.bound⟩
  obtain ⟨hf, hp2, t2, ev, evt, evn, eT, eI⟩ := second_call_lines gf.OurIndices
    fresh_tracks fresh_meshOk t1 m1 hp (by simp [fresh]) (by simp [fresh]) (by simp [fresh])
    rfl (by simp [fresh])
  refine ⟨_, { hf with
      VertexAttributeSetsTotal := hf.OurVerticesi + 1
      PrimitivesTotal := (hf.OurIndicesi + 1).tdiv 3 }, h1, by simp [objReader, hp2],
    eT, ?_, eI, ?_, ev, evt, evn⟩
  · have a := t2.vertices
    have b := tf.vertices
    simp only
    rw [a, b, eT]
  · have a := t2.indices
    have b := tf.indices
    have c := mf.threes
    simp only
    rw [a, b, eI, List.length_append, Int.tdiv_eq_ediv (by omega) (by omega),
      Int.tdiv_eq_ediv (by omega) (by omega)]
    omega

theorem objReader_second_call_witness :
    ∃ g1 g2, objReader fresh (some twoTriangles) = some (0, g1)
      ∧ objReader g1 (some twoTriangles) = some (0, g2)
      ∧ g2.OurVertices = g1.OurVertices
      ∧ g2.VertexAttributeSetsTotal = g1.VertexAttributeSetsTotal
      ∧ g2.OurIndices = g1.OurIndices ++ g1.OurIndices
      ∧ g2.PrimitivesTotal = 2 * g1.PrimitivesTotal
      ∧ g2.v = g1.v ++ g1.v ∧ g2.vt = g1.vt ++ g1.vt ∧ g2.vn = g1.vn ++ g1.vn :=
  objReader_second_call twoTriangles (by decide)

/-! ## Lines that are ignored, and leading whitespace -/

theorem statement_of_not_recognized [FloatModel] (g : Globals) {l : String} (h : recognized l = false) :
    statement g l = .next g := by
  simp only [recognized, Bool.or_eq_false_iff, decide_eq_false_iff_not] at h
  obtain ⟨⟨⟨h1, h2⟩, h3⟩, h4⟩ := h
  simp only [firstToken] at h1 h2 h3 h4
  simp only [statement, if_neg h1, if_neg h2, if_neg h3, if_neg h4]

theorem parseLines_filter_recognized [FloatModel] (ls : List String) : ∀ g : Globals,
    parseLines g (ls.filter recognized) = parseLines g ls := by
  induction ls with
  | nil => intro g; rfl
  | cons l ls ih =>
    intro g
    cases h : recognized l with
    | false =>
      rw [List.filter_cons_of_neg (by simp [h]), parseLines, statement_of_not_recognized g h]
      exact ih g
    | true =>
      rw [List.filter_cons_of_pos h, parseLines, parseLines]
      cases statement g l with
      | next g1 => exact ih g1
      | ret rc g1 => rfl
      | undefined => rfl

theorem objReader_filter_recognized [FloatModel] (g : Globals) (ls : List String) :
    objReader g (some (ls.filter recognized)) = objReader g (some ls) := by
  simp only [objReader, parseLines_filter_recognized]

/-- C13: lines whose first token is none of `v`, `vn`, `vt`, `f` are ignored. Two files
that differ only by such lines (any number of them inserted or deleted at any
positions: the recognized lines are the same, in the same order) give the same result
of objReader from any globals: the same return code, vertex table, index buffer and
totals, or the same undefined behaviour. -/
theorem objReader_ignores_other_lines [FloatModel] (g : Globals) (ls1 ls2 : List String)
    (h : ls1.filter recognized = ls2.filter recognized) :
    objReader g (some ls1) = objReader g (some ls2) := by
  rw [← objReader_filter_recognized g ls1, ← objReader_filter_recognized g ls2, h]

theorem objReader_ignores_other_lines_witness :
    objReader fresh (some twoTriangles)
      = objReader fresh (some ["v 0 0 5", "g side", "v 1 0 0", "v 0 1 0", "vt 0 0.3",
          "usemtl red", "vn 0 0 1", "f 1/1/1 2/1/1 3/1/1", "   ", "f 1/1/1 3/1/1 2/1/1"]) :=
  objReader_ignores_other_lines fresh _ _ (by decide)

theorem skipws_append_of_space {ws : List Char} (cs : List Char)
    (h : ∀ c ∈ ws, isspace c = true) : skipws (ws ++ cs) = skipws cs := by
  induction ws with
  | nil => rfl
  | cons c ws ih =>
    have hc : isspace c = true := h c (List.mem_cons_self _ _)
    simp only [List.cons_append, skipws, hc, if_true]
    exact ih (fun d hd => h d (List.mem_cons_of_mem _ hd))

theorem extractString_indent {ws : List Char} (l : String)
    (h : ∀ c ∈ ws, c = ' ' ∨ c = '\t') :
    extractString ⟨(indent ws l).toList, false⟩ = extractString ⟨l.toList, false⟩ := by
  have hs : ∀ c ∈ ws, isspace c = true := by
    intro c hc
    rcases h c hc with rfl | rfl <;> decide
  have hsentry : sentry ⟨(indent ws l).toList, false⟩ = sentry ⟨l.toList, false⟩ := by
    simp only [sentry, indent, String.toList, Bool.false_eq_true, if_false,
      skipws_append_of_space _ hs]
  simp only [extractString, hsentry]

theorem statement_indent [FloatModel] (g : Globals) {ws : List Char} (l : String)
    (h : ∀ c ∈ ws, c = ' ' ∨ c = '\t') : statement g (indent ws l) = statement g l := by
  simp only [statement, extractString_indent l h]

/-- C16: statements may start in any column. A file is given as its lines, each with
the spaces and tabs put in front of it; from any globals objReader gives the same
result (return code, vertex table, index buffer, or undefined behaviour) with and
without the leading whitespace, because a statement is classified by its first
whitespace-delimited token. -/
theorem objReader_leading_whitespace [FloatModel] (g : Globals) (file : List (List Char × String))
    (h : ∀ p ∈ file, ∀ c ∈ p.1, c = ' ' ∨ c = '\t') :
    objReader g (some (file.map (fun p => indent p.1 p.2)))
      = objReader g (some (file.map (fun p => p.2))) := by
  have key : ∀ g : Globals, parseLines g (file.map (fun p => indent p.1 p.2))
      = parseLines g (file.map (fun p => p.2)) := by
    induction file with
    | nil => intro g; rfl
    | cons p ps ih =>
      intro g
      simp only [List.map_cons, parseLines,
        statement_indent g p.2 (h p (List.mem_cons_self _ _))]
      cases statement g p.2 with
      | next g1 => exact ih (fun q hq => h q (List.mem_cons_of_mem _ hq)) g1
      | ret rc g1 => rfl
      | undefined => rfl
  simp only [objReader, key]

theorem objReader_leading_whitespace_witness :
    objReader fresh (some ["  v 1 2 3", "\tvt 0 0.3", " \t vn 0 0 1", "    f 1/1/1 1/1/1 1/1/1"])
      = objReader fresh (some ["v 1 2 3", "vt 0 0.3", "vn 0 0 1", "f 1/1/1 1/1/1 1/1/1"]) :=
  objReader_leading_whitespace fresh
    [([' ', ' '], "v 1 2 3"), (['\t'], "vt 0 0.3"), ([' ', '\t', ' '], "vn 0 0 1"),
      ([' ', ' ', ' ', ' '], "f 1/1/1 1/1/1 1/1/1")] (by decide)

/-! ## One scan-and-insert step -/

theorem getElem?_ne_of_lt_indexOf {T : List VERTEX} {c : VERTEX} :
    ∀ {i : Nat}, i < T.indexOf c → T[i]? ≠ some c := by
  induction T with
  | nil => intro i h; simp at h
  | cons x xs ih =>
    intro i h
    by_cases hx : x = c
    · subst hx
      simp at h
    · rw [List.indexOf_cons_ne _ hx] at h
      cases i with
      | zero => simpa using hx
      | succ i =>
        simp only [List.getElem?_cons_succ]
        exact ih (by omega)

theorem getAt_set_self {xs : List Int} {i : Int} (x : Int) (h0 : 0 ≤ i)
    (h1 : i.toNat < xs.length) : getAt (xs.set i.toNat x) i = some x := by
  simp only [getAt, if_pos h0]
  rw [List.getElem?_set_self]
  simpa using h1

/-- The loop body for one triplet with candidate `c`: the resolved index it leaves in
the scratch array is the index of `c` in the table before the step. -/
theorem faceTriplet_resolved [FloatModel] (g : Globals) (ls : IStream) (c : VERTEX)
    (hv : g.OurVerticesi + 1 = g.OurVertices.length)
    (h0 : 0 ≤ g.OurIndicesFaceTripleti + 1)
    (h1 : (g.OurIndicesFaceTripleti + 1).toNat < g.OurIndicesFaceTriplet.length)
    (hc : corner g.v g.vt g.vn (readTriplet ls).1 = some c) :
    faceTriplet g ls = some (place g c, (readTriplet ls).2)
      ∧ getAt (place g c).OurIndicesFaceTriplet (place g c).OurIndicesFaceTripleti
          = some (g.OurVertices.indexOf c : Int)
      ∧ (place g c).OurVertices = insertVertex g.OurVertices c := by
  refine ⟨by rw [faceTriplet_eq g ls hv h0 h1, hc]; rfl, ?_, rfl⟩
  simp only [place]
  exact getAt_set_self _ h0 h1

/-- C17: postcondition of one scan-and-insert step (the loop body for one triplet,
lines 154-224), for every vertex table `g.OurVertices` and candidate `c`: if some entry
of the table equals `c`, the table is left unchanged and the resolved index `j` is the
smallest with that entry equal to `c`; otherwise the table becomes the old table
followed by `c` and `j` is the old length. In both cases the entry at `j` equals `c`. -/
theorem faceTriplet_postcondition [FloatModel] (g : Globals) (ls : IStream) (c : VERTEX)
    (hv : g.OurVerticesi + 1 = g.OurVertices.length)
    (h0 : 0 ≤ g.OurIndicesFaceTripleti + 1)
    (h1 : (g.OurIndicesFaceTripleti + 1).toNat < g.OurIndicesFaceTriplet.length)
    (hc : corner g.v g.vt g.vn (readTriplet ls).1 = some c) :
    ∃ (g1 : Globals) (rest : IStream) (j : Nat),
      faceTriplet g ls = some (g1, rest)
        ∧ getAt g1.OurIndicesFaceTriplet g1.OurIndicesFaceTripleti = some (j : Int)
        ∧ (c ∈ g.OurVertices → g1.OurVertices = g.OurVertices ∧ g.OurVertices[j]? = some c
            ∧ ∀ i, i < j → g.OurVertices[i]? ≠ some c)
        ∧ (c ∉ g.OurVertices → g1.OurVertices = g.OurVertices ++ [c]
            ∧ j = g.OurVertices.length)
        ∧ g1.OurVertices[j]? = some c := by
  obtain ⟨e1, e2, e3⟩ := faceTriplet_resolved g ls c hv h0 h1 hc
  refine ⟨_, _, _, e1, e2, ?_, ?_, ?_⟩
  · intro hm
    refine ⟨by rw [e3, insertVertex_of_mem hm], ?_, fun i hi => getElem?_ne_of_lt_indexOf hi⟩
    have := getElem?_insertVertex g.OurVertices c
    rwa [insertVertex_of_mem hm] at this
  · intro hm
    exact ⟨by rw [e3]; simp [insertVertex, hm], List.indexOf_eq_length.2 hm⟩
  · rw [e3]
    exact getElem?_insertVertex _ _

theorem oneOfEach_corner :
    corner oneOfEach.v oneOfEach.vt oneOfEach.vn (readTriplet ⟨"1/1/1 1/1/1".toList, false⟩).1
      = some ⟨⟨1, 2, -3⟩, ⟨0, 0, -1⟩, ⟨0, 11744051 / 16777216⟩⟩ := by
  decide!

theorem faceTriplet_postcondition_witness :
    ∃ (g1 : Globals) (rest : IStream) (j : Nat),
      faceTriplet oneOfEach ⟨"1/1/1 1/1/1".toList, false⟩ = some (g1, rest)
        ∧ getAt g1.OurIndicesFaceTriplet g1.OurIndicesFaceTripleti = some (j : Int)
        ∧ ((⟨⟨1, 2, -3⟩, ⟨0, 0, -1⟩, ⟨0, 11744051 / 16777216⟩⟩ : VERTEX) ∈ oneOfEach.OurVertices →
            g1.OurVertices = oneOfEach.OurVertices
            ∧ oneOfEach.OurVertices[j]? = some ⟨⟨1, 2, -3⟩, ⟨0, 0, -1⟩, ⟨0, 11744051 / 16777216⟩⟩
            ∧ ∀ i, i < j →
              oneOfEach.OurVertices[i]? ≠ some ⟨⟨1, 2, -3⟩, ⟨0, 0, -1⟩, ⟨0, 11744051 / 16777216⟩⟩)
        ∧ ((⟨⟨1, 2, -3⟩, ⟨0, 0, -1⟩, ⟨0, 11744051 / 16777216⟩⟩ : VERTEX) ∉ oneOfEach.OurVertices →
            g1.OurVertices = oneOfEach.OurVertices ++ [⟨⟨1, 2, -3⟩, ⟨0, 0, -1⟩, ⟨0, 11744051 / 16777216⟩⟩]
            ∧ j = oneOfEach.OurVertices.length)
        ∧ g1.OurVertices[j]? = some ⟨⟨1, 2, -3⟩, ⟨0, 0, -1⟩, ⟨0, 11744051 / 16777216⟩⟩ :=
  faceTriplet_postcondition oneOfEach ⟨"1/1/1 1/1/1".toList, false⟩ _ (by decide) (by decide)
    (by decide) oneOfEach_corner

/-- C12: deduplication is idempotent. Running the scan-and-insert step (the loop body
for one triplet) on a candidate `c`, and then running it again on a triplet with an
equal candidate, leaves the table after the second run identical to the table after
the first (same length, same entries) and resolves to the same index both times. -/
theorem faceTriplet_idempotent [FloatModel] (g : Globals) (ls ls2 : IStream) (c : VERTEX)
    (hv : g.OurVerticesi + 1 = g.OurVertices.length)
    (h0 : 0 ≤ g.OurIndicesFaceTripleti + 1)
    (h1 : (g.OurIndicesFaceTripleti + 2).toNat < g.OurIndicesFaceTriplet.length)
    (hc : corner g.v g.vt g.vn (readTriplet ls).1 = some c)
    (hc2 : corner g.v g.vt g.vn (readTriplet ls2).1 = some c) :
    ∃ (g1 g2 : Globals) (r1 r2 : IStream) (j : Nat),
      faceTriplet g ls = some (g1, r1) ∧ faceTriplet g1 ls2 = some (g2, r2)
        ∧ g2.OurVertices = g1.OurVertices
        ∧ g2.OurVertices.length = g1.OurVertices.length
        ∧ getAt g1.OurIndicesFaceTriplet g1.OurIndicesFaceTripleti = some (j : Int)
        ∧ getAt g2.OurIndicesFaceTriplet g2.OurIndicesFaceTripleti = some (j : Int) := by
  obtain ⟨e1, e2, e3⟩ := faceTriplet_resolved g ls c hv h0 (by omega) hc
  obtain ⟨f1, f2, f3⟩ := faceTriplet_resolved (place g c) ls2 c (place_vertices g c hv)
    (by simp only [place_scratch_index]; omega)
    (by simp only [place_scratch_index, place_scratch_length]
        rw [show g.OurIndicesFaceTripleti + 1 + 1 = g.OurIndicesFaceTripleti + 2 by ring]
        exact h1)
    (by simpa using hc2)
  have hsame : (place (place g c) c).OurVertices = (place g c).OurVertices := by
    rw [f3, e3, insertVertex_of_mem (mem_insertVertex _ _)]
  refine ⟨_, _, _, _, _, e1, f1, hsame, by rw [hsame], e2, ?_⟩
  rw [f2, e3, indexOf_insertVertex]

theorem faceTriplet_idempotent_witness :
    ∃ (g1 g2 : Globals) (r1 r2 : IStream) (j : Nat),
      faceTriplet oneOfEach ⟨"1/1/1 1/1/1".toList, false⟩ = some (g1, r1)
        ∧ faceTriplet g1 ⟨" 1/1/1".toList, false⟩ = some (g2, r2)
        ∧ g2.OurVertices = g1.OurVertices
        ∧ g2.OurVertices.length = g1.OurVertices.length
        ∧ getAt g1.OurIndicesFaceTriplet g1.OurIndicesFaceTripleti = some (j : Int)
        ∧ getAt g2.OurIndicesFaceTriplet g2.OurIndicesFaceTripleti = some (j : Int) :=
  faceTriplet_idempotent oneOfEach ⟨"1/1/1 1/1/1".toList, false⟩ ⟨" 1/1/1".toList, false⟩ _
    (by decide) (by decide) (by decide) oneOfEach_corner (by decide!)

/-! ## The mesh as a function of the face corners -/

theorem cornersWith_cons [FloatModel] (V : List XMFLOAT3) (VT : List XMFLOAT2) (VN : List XMFLOAT3)
    (l : String) (ls : List String) :
    cornersWith V VT VN (l :: ls) =
      (if firstToken l = "f" then (triplets 3 (operands l)).filterMap (corner V VT VN) else [])
        ++ cornersWith V VT VN ls := by
  unfold cornersWith
  by_cases h : firstToken l = "f" <;> simp [List.filter_cons, h]

theorem filterMap_corner_of_corners [FloatModel] {v V : List XMFLOAT3} {vt VT : List XMFLOAT2}
    {vn VN : List XMFLOAT3} {ls : IStream} {c0 c1 c2 : VERTEX}
    (h : corners v vt vn ls = some (c0, c1, c2)) (pv : v <+: V) (pvt : vt <+: VT)
    (pvn : vn <+: VN) : (triplets 3 ls).filterMap (corner V VT VN) = [c0, c1, c2] := by
  obtain ⟨t0, t1, t2, ht, h0, h1, h2⟩ := corners_eq_some h
  rw [ht]
  simp [List.filterMap_cons, corner_of_prefix h0 pv pvt pvn, corner_of_prefix h1 pv pvt pvn,
    corner_of_prefix h2 pv pvt pvn]

/-- A statement that lets the loop go on is either no face statement and leaves the
vertex table and the index buffer alone, or a face statement with three candidates. -/
theorem statement_next_mesh [FloatModel] {g g2 : Globals} {l : String} (tg : Tracks g)
    (hs : statement g l = .next g2) :
    (firstToken l ≠ "f" ∧ g2.OurVertices = g.OurVertices ∧ g2.OurIndices = g.OurIndices)
      ∨ (firstToken l = "f" ∧ ∃ c0 c1 c2,
          corners g.v g.vt g.vn (operands l) = some (c0, c1, c2)
            ∧ g2 = faceResult g c0 c1 c2) := by
  by_cases tf : firstToken l = "f"
  · right
    refine ⟨tf, ?_⟩
    have nfv : ¬ firstToken l = "v" := by rw [tf]; decide
    have nfvn : ¬ firstToken l = "vn" := by rw [tf]; decide
    have nfvt : ¬ firstToken l = "vt" := by rw [tf]; decide
    rw [statement_eq g l tg, if_neg nfv, if_neg nfvn, if_neg nfvt, if_pos tf] at hs
    split_ifs at hs with hmiss
    split at hs
    · simp at hs
    · rename_i c hc
      simp only [Flow.next.injEq] at hs
      exact ⟨c.1, c.2.1, c.2.2, hc, hs.symm⟩
  · left
    obtain ⟨_, _, _, _, _, hsame⟩ := statement_next_raw tg hs
    exact ⟨tf, (hsame tf).vertices, (hsame tf).indices⟩

theorem indicesOf_three (T : List VERTEX) (c0 c1 c2 : VERTEX) (cs : List VERTEX) :
    indicesOf T ([c0, c1, c2] ++ cs)
      = [T.indexOf c0, T.indexOf c2, T.indexOf c1] ++ indicesOf T cs := by
  simp [indicesOf]

/-- The mesh the loop builds from the globals `g` over the lines `ls`: the vertex table
is the table of `g` with the scan-and-insert step run on the face corners of `ls` in
order, the index buffer is that of `g` followed by the places of the corners in the
final table, in clockwise order, and every face statement has its three corners. -/
theorem parseLines_mesh [FloatModel] {ls : List String} : ∀ {g g1 : Globals}, Tracks g → MeshOk g →
    parseLines g ls = .next g1 →
    g1.OurVertices = (cornersWith g1.v g1.vt g1.vn ls).foldl insertVertex g.OurVertices
      ∧ g1.OurIndices
          = g.OurIndices ++ indicesOf g1.OurVertices (cornersWith g1.v g1.vt g1.vn ls)
      ∧ (cornersWith g1.v g1.vt g1.vn ls).length = 3 * countType "f" ls := by
  induction ls with
  | nil =>
    intro g g1 _ _ h
    simp only [parseLines, Flow.next.injEq] at h
    subst h
    simp [cornersWith, indicesOf, countType]
  | cons l ls ih =>
    intro g g1 tg mg h
    rw [parseLines] at h
    split at h
    · rename_i g2 hs
      obtain ⟨t2, m2, w2⟩ := statement_next tg mg hs
      obtain ⟨_, _, w1⟩ := parseLines_next t2 m2 h
      obtain ⟨eT, eI, eL⟩ := ih t2 m2 h
      rw [cornersWith_cons, countType_cons]
      rcases statement_next_mesh tg hs with ⟨nf, sT, sI⟩ | ⟨tf, c0, c1, c2, hc, rfl⟩
      · rw [if_neg nf, if_neg nf, List.nil_append, ← sT, ← sI]
        exact ⟨eT, eI, by omega⟩
      · have hfm := filterMap_corner_of_corners hc (w2.v.trans w1.v) (w2.vt.trans w1.vt)
          (w2.vn.trans w1.vn)
        rw [if_pos tf, if_pos tf, hfm]
        have pT : (faceResult g c0 c1 c2).OurVertices <+: g1.OurVertices := w1.vertices
        simp only [faceResult] at pT
        have X2 := insertVertex_extends (insertVertex g.OurVertices c0) c1
        have X3 := insertVertex_extends (insertVertex (insertVertex g.OurVertices c0) c1) c2
        obtain ⟨_, i0⟩ := indexOf_of_insertVertex_prefix ((X2.trans X3).trans pT)
        obtain ⟨_, i1⟩ := indexOf_of_insertVertex_prefix (X3.trans pT)
        obtain ⟨_, i2⟩ := indexOf_of_insertVertex_prefix pT
        refine ⟨?_, ?_, ?_⟩
        · rw [List.foldl_append]
          exact eT
        · rw [indicesOf_three, eI, i0, i1, i2]
          simp [faceResult]
        · simp only [List.length_append, List.length_cons, List.length_nil, eL]
          omega
    · simp at h
    · simp at h

theorem foldl_insertVertex (cs : List VERTEX) : ∀ T : List VERTEX,
    cs.foldl insertVertex T = T ++ (keepFirst cs).filter (fun x => decide (x ∉ T)) := by
  induction cs with
  | nil => intro T; simp [keepFirst]
  | cons c cs ih =>
    intro T
    rw [List.foldl_cons, ih, keepFirst]
    by_cases hm : c ∈ T
    · rw [insertVertex_of_mem hm, List.filter_cons_of_neg (by simpa using hm),
        List.filter_filter]
      congr 1
      apply List.filter_congr
      intro x _
      by_cases hx : x ∈ T
      · simp [hx]
      · have : x ≠ c := fun e => hx (e ▸ hm)
        simp [hx, this]
    · rw [List.filter_cons_of_pos (by simpa using hm), List.filter_filter]
      simp only [insertVertex, if_neg hm, List.append_assoc, List.singleton_append]
      congr 2
      apply List.filter_congr
      intro x _
      by_cases hx : x ∈ T <;> by_cases hc : x = c <;> simp [hx, hc]

theorem foldl_insertVertex_nil (cs : List VERTEX) :
    cs.foldl insertVertex [] = keepFirst cs := by
  rw [foldl_insertVertex]
  simp

/-- A valid file loaded from the fresh globals: the globals at the end of the loop,
with the raw tables and the mesh as functions of the lines. -/
theorem mesh_of_valid [FloatModel] {lines : List String} (hvalid : validFile lines = true) :
    ∃ gf, parseLines fresh lines = .next gf ∧ Tracks gf ∧ MeshOk gf
      ∧ gf.OurVertices = keepFirst (faceCorners lines)
      ∧ gf.OurIndices = indicesOf gf.OurVertices (faceCorners lines)
      ∧ (faceCorners lines).length = 3 * countType "f" lines
      ∧ objReader fresh (some lines) = some (0, { gf with
          VertexAttributeSetsTotal := gf.OurVerticesi + 1
          PrimitivesTotal := (gf.OurIndicesi + 1).tdiv 3 }) := by
  obtain ⟨gf, hp, tf, mf, ho⟩ := objReader_of_valid hvalid
  obtain ⟨ev, evt, evn⟩ := parseLines_next_raw fresh_tracks hp
  obtain ⟨eT, eI, eL⟩ := parseLines_mesh fresh_tracks fresh_meshOk hp
  simp only [fresh, List.nil_append] at ev evt evn eT eI
  rw [ev, evt, evn] at eT eI eL
  rw [foldl_insertVertex_nil] at eT
  exact ⟨gf, hp, tf, mf, eT, eI, eL, ho⟩

/-- C11: for every valid input loaded from a fresh state, the vertex table is the
sequence of converted face corners taken in file order (face statements in order,
within a face the triplets in their written order, three corners to a face statement)
with every corner that equals an earlier one removed: insertion order is first-seen
order. -/
theorem objReader_vertices_first_seen [FloatModel] (lines : List String)
    (hvalid : validFile lines = true) :
    ∃ g, objReader fresh (some lines) = some (0, g)
      ∧ g.OurVertices = keepFirst (faceCorners lines)
      ∧ (faceCorners lines).length = 3 * countType "f" lines := by
  obtain ⟨gf, _, _, _, eT, _, eL, ho⟩ := mesh_of_valid hvalid
  exact ⟨_, ho, eT, eL⟩

theorem objReader_vertices_first_seen_witness :
    ∃ g, objReader fresh (some twoTriangles) = some (0, g)
      ∧ g.OurVertices = keepFirst (faceCorners twoTriangles)
      ∧ (faceCorners twoTriangles).length = 3 * countType "f" twoTriangles :=
  objReader_vertices_first_seen twoTriangles (by decide)

theorem indicesOf_length (T : List VERTEX) : ∀ (m : Nat) (cs : List VERTEX),
    cs.length = 3 * m → (indicesOf T cs).length = 3 * m := by
  intro m
  induction m with
  | zero =>
    intro cs h
    have : cs = [] := List.length_eq_zero.1 (by omega)
    subst this
    rfl
  | succ m ih =>
    intro cs h
    match cs, h with
    | c0 :: c1 :: c2 :: rest, h =>
      simp only [List.length_cons] at h
      simp only [indicesOf, List.length_cons, ih rest (by omega)]
      omega

/-- The length of the index buffer after a load that started fresh and reached the end
of the lines: three entries for each face statement. -/
theorem indices_length_of_next [FloatModel] {ls : List String} {g : Globals}
    (h : parseLines fresh ls = .next g) : g.OurIndices.length = 3 * countType "f" ls := by
  obtain ⟨_, eI, eL⟩ := parseLines_mesh fresh_tracks fresh_meshOk h
  rw [eI]
  simp only [fresh, List.nil_append]
  exact indicesOf_length _ _ _ eL

/-- C18: each face statement contributes exactly one triangle. For every valid input
loaded from a fresh state the index buffer length is 3 times the number of lines whose
first token is `f`, PrimitivesTotal is that number of lines, and the face statement `l`
that follows the lines `pre` (the k-th, 0-based, with k the number of face statements
in `pre`) owns the positions 3k, 3k+1, 3k+2: the loop reaches it with 3k indices stored,
the statement adds three, and the finished buffer starts with these 3k + 3 indices. -/
theorem face_statement_owns_triple [FloatModel] (lines : List String) (hvalid : validFile lines = true) :
    ∃ g, objReader fresh (some lines) = some (0, g)
      ∧ g.OurIndices.length = 3 * countType "f" lines
      ∧ g.PrimitivesTotal = countType "f" lines
      ∧ ∀ pre l post, lines = pre ++ l :: post → firstToken l = "f" →
          ∃ (g0 g1 : Globals) (i0 i1 i2 : Nat),
            parseLines fresh pre = .next g0 ∧ statement g0 l = .next g1
              ∧ g0.OurIndices.length = 3 * countType "f" pre
              ∧ g1.OurIndices = g0.OurIndices ++ [i0, i1, i2]
              ∧ g.OurIndices.take (3 * countType "f" pre) = g0.OurIndices
              ∧ g.OurIndices.take (3 * countType "f" pre + 3) = g1.OurIndices := by
  obtain ⟨gf, hp, tf, mf, ho⟩ := objReader_of_valid hvalid
  have hlen := indices_length_of_next hp
  refine ⟨_, ho, hlen, ?_, ?_⟩
  · have := tf.indices
    simp only
    rw [this, hlen, Int.tdiv_eq_ediv (by omega) (by omega)]
    omega
  · intro pre l post he hf
    subst he
    obtain ⟨g0, gf2, c0, c1, c2, hg, tg, mg, _, _, _, _, _, hst, hgf, w, _⟩ :=
      face_in_valid_file hvalid hf
    have hp2 : parseLines fresh (pre ++ l :: post) = .next gf2 := by
      rw [parseLines_append, hg]
      simp only [parseLines, hst]
      exact hgf
    rw [hp] at hp2
    simp only [Flow.next.injEq] at hp2
    subst hp2
    have hl0 := indices_length_of_next hg
    have p1 : (faceResult g0 c0 c1 c2).OurIndices <+: gf.OurIndices := w.indices
    have p0 : g0.OurIndices <+: gf.OurIndices :=
      (faceResult_grows g0 c0 c1 c2).indices.trans p1
    refine ⟨g0, _, _, _, _, hg, hst, hl0, rfl, ?_, ?_⟩
    · rw [← hl0]
      exact (List.prefix_iff_eq_take.1 p0).symm
    · have : (faceResult g0 c0 c1 c2).OurIndices.length = 3 * countType "f" pre + 3 := by
        simp [faceResult, hl0]
      rw [← this]
      exact (List.prefix_iff_eq_take.1 p1).symm

theorem face_statement_owns_triple_witness :
    ∃ g, objReader fresh (some twoTriangles) = some (0, g)
      ∧ g.OurIndices.length = 3 * countType "f" twoTriangles
      ∧ g.PrimitivesTotal = countType "f" twoTriangles
      ∧ ∀ pre l post, twoTriangles = pre ++ l :: post → firstToken l = "f" →
          ∃ (g0 g1 : Globals) (i0 i1 i2 : Nat),
            parseLines fresh pre = .next g0 ∧ statement g0 l = .next g1
              ∧ g0.OurIndices.length = 3 * countType "f" pre
              ∧ g1.OurIndices = g0.OurIndices ++ [i0, i1, i2]
              ∧ g.OurIndices.take (3 * countType "f" pre) = g0.OurIndices
              ∧ g.OurIndices.take (3 * countType "f" pre + 3) = g1.OurIndices :=
  face_statement_owns_triple twoTriangles (by decide)

theorem keepFirst_of_nodup : ∀ {cs : List VERTEX}, cs.Nodup → keepFirst cs = cs := by
  intro cs
  induction cs with
  | nil => intro _; rfl
  | cons c cs ih =>
    intro h
    rw [List.nodup_cons] at h
    rw [keepFirst, ih h.2]
    congr 1
    apply List.filter_eq_self.2
    intro x hx
    have : x ≠ c := fun e => h.1 (e ▸ hx)
    simpa using this

theorem indexOf_of_getElem? {T : List VERTEX} {c : VERTEX} {i : Nat} (hn : T.Nodup)
    (h : T[i]? = some c) : T.indexOf c = i := by
  obtain ⟨hi, rfl⟩ := List.getElem?_eq_some.1 h
  exact List.indexOf_getElem hn i hi

theorem getElem?_drop_three (xs : List Nat) (a b c : Nat) (n : Nat) :
    (a :: b :: c :: xs)[n + 3]? = xs[n]? := by
  simp

/-- The index buffer of corners that are pairwise different and are the end of the
table: each triangle holds its three consecutive places, the last two swapped. -/
theorem indicesOf_of_nodup : ∀ (m : Nat) (pre cs : List VERTEX), (pre ++ cs).Nodup →
    cs.length = 3 * m → ∀ k, k < m →
    (indicesOf (pre ++ cs) cs)[3 * k]? = some (pre.length + 3 * k)
      ∧ (indicesOf (pre ++ cs) cs)[3 * k + 1]? = some (pre.length + 3 * k + 2)
      ∧ (indicesOf (pre ++ cs) cs)[3 * k + 2]? = some (pre.length + 3 * k + 1) := by
  intro m
  induction m with
  | zero => intro _ _ _ _ k hk; omega
  | succ m ih =>
    intro pre cs hn hl k hk
    match cs, hl with
    | c0 :: c1 :: c2 :: rest, hl =>
      simp only [List.length_cons] at hl
      have e0 : (pre ++ c0 :: c1 :: c2 :: rest).indexOf c0 = pre.length :=
        indexOf_of_getElem? hn (by rw [List.getElem?_append_right (le_refl _)]; simp)
      have e1 : (pre ++ c0 :: c1 :: c2 :: rest).indexOf c1 = pre.length + 1 :=
        indexOf_of_getElem? hn (by rw [List.getElem?_append_right (by omega)]; simp)
      have e2 : (pre ++ c0 :: c1 :: c2 :: rest).indexOf c2 = pre.length + 2 :=
        indexOf_of_getElem? hn (by rw [List.getElem?_append_right (by omega)]; simp)
      simp only [indicesOf, e0, e1, e2]
      cases k with
      | zero => simp
      | succ k =>
        have hre : pre ++ c0 :: c1 :: c2 :: rest = (pre ++ [c0, c1, c2]) ++ rest := by simp
        have := ih (pre ++ [c0, c1, c2]) rest (by rw [← hre]; exact hn) (by omega) k
          (by omega)
        rw [← hre] at this
        simp only [List.length_append, List.length_cons, List.length_nil] at this
        obtain ⟨a, b, c⟩ := this
        have x0 : 3 * (k + 1) = 3 * k + 3 := by ring
        have x1 : 3 * k + 3 + 1 = (3 * k + 1) + 3 := by ring
        have x2 : 3 * k + 3 + 2 = (3 * k + 2) + 3 := by ring
        rw [x0, x1, x2, getElem?_drop_three, getElem?_drop_three, getElem?_drop_three, a, b, c]
        refine ⟨?_, ?_, ?_⟩ <;> · congr 1; omega

/-- C19: for every valid input with F face statements whose 3F face corners have
pairwise different converted attribute sets, loaded from a fresh state, the vertex
table has 3F entries and the index buffer is 0, 2, 1, 3, 5, 4, 6, 8, 7, ...: the
positions 3k, 3k+1, 3k+2 hold 3k, 3k+2, 3k+1. -/
theorem objReader_without_duplicates [FloatModel] (lines : List String)
    (hvalid : validFile lines = true) (hdiff : (faceCorners lines).Nodup) :
    ∃ g, objReader fresh (some lines) = some (0, g)
      ∧ g.OurVertices.length = 3 * countType "f" lines
      ∧ g.OurIndices.length = 3 * countType "f" lines
      ∧ ∀ k, k < countType "f" lines →
          g.OurIndices[3 * k]? = some (3 * k)
            ∧ g.OurIndices[3 * k + 1]? = some (3 * k + 2)
            ∧ g.OurIndices[3 * k + 2]? = some (3 * k + 1) := by
  obtain ⟨gf, hp, _, _, eT, eI, eL, ho⟩ := mesh_of_valid hvalid
  rw [keepFirst_of_nodup hdiff] at eT
  rw [eT] at eI
  refine ⟨_, ho, by simp only [eT, eL],
    (indices_length_of_next hp : gf.OurIndices.length = _), ?_⟩
  intro k hk
  have := indicesOf_of_nodup (countType "f" lines) [] (faceCorners lines)
    (by simpa using hdiff) eL k hk
  simp only [List.nil_append, List.length_nil, Nat.zero_add] at this
  simp only [eI]
  exact this

theorem twoSeparateTriangles_nodup : (faceCorners twoSeparateTriangles).Nodup := by
  decide!

theorem objReader_without_duplicates_witness :
    ∃ g, objReader fresh (some twoSeparateTriangles) = some (0, g)
      ∧ g.OurVertices.length = 3 * countType "f" twoSeparateTriangles
      ∧ g.OurIndices.length = 3 * countType "f" twoSeparateTriangles
      ∧ ∀ k, k < countType "f" twoSeparateTriangles →
          g.OurIndices[3 * k]? = some (3 * k)
            ∧ g.OurIndices[3 * k + 1]? = some (3 * k + 2)
            ∧ g.OurIndices[3 * k + 2]? = some (3 * k + 1) :=
  objReader_without_duplicates twoSeparateTriangles (by decide) twoSeparateTriangles_nodup

/-! ## Which triplets share a vertex -/

/-- The k-th triplet of a face statement of a valid file resolves to the place, in the
vertex table of the finished load, of its converted attribute set. -/
theorem face_triplet_final [FloatModel] {pre post : List String} {l : String}
    (hvalid : validFile (pre ++ l :: post) = true) (hf : firstToken l = "f") {k : Nat}
    (hk : k < 3) :
    ∃ (g g1 gf : Globals) (a b c : Int) (p : XMFLOAT3) (tc : XMFLOAT2) (n : XMFLOAT3),
      parseLines fresh pre = .next g ∧ statement g l = .next g1
        ∧ parseLines fresh (pre ++ l :: post) = .next gf
        ∧ (triplets 3 (operands l))[k]? = some (some a, some b, some c)
        ∧ 1 ≤ a ∧ 1 ≤ b ∧ 1 ≤ c
        ∧ (vStatements (pre ++ l :: post))[(a - 1).toNat]? = some p
        ∧ (vtStatements (pre ++ l :: post))[(b - 1).toNat]? = some tc
        ∧ (vnStatements (pre ++ l :: post))[(c - 1).toNat]? = some n
        ∧ g1.OurIndicesFaceTriplet[k]? = some
            ((gf.OurVertices.indexOf
              (⟨⟨p.x, p.y, -p.z⟩, ⟨n.x, n.y, -n.z⟩, ⟨tc.x, FloatModel.round (1 - tc.y)⟩⟩ : VERTEX) : Nat) : Int)
        ∧ (⟨⟨p.x, p.y, -p.z⟩, ⟨n.x, n.y, -n.z⟩, ⟨tc.x, FloatModel.round (1 - tc.y)⟩⟩ : VERTEX) ∈ gf.OurVertices := by
  obtain ⟨g, gf, d0, d1, d2, hg, tg, mg, ev, evt, evn, hin, hc, hst, hgf, w, hob⟩ :=
    face_in_valid_file hvalid hf
  have hp : parseLines fresh (pre ++ l :: post) = .next gf := by
    rw [parseLines_append, hg]
    simp only [parseLines, hst]
    exact hgf
  obtain ⟨t0, t1, t2, ht, h0, h1, h2⟩ := corners_eq_some hc
  rw [ev, evt, evn] at h0 h1 h2
  have hw : (faceResult g d0 d1 d2).OurVertices <+: gf.OurVertices := w.vertices
  simp only [faceResult] at hw
  have X2 := insertVertex_extends (insertVertex g.OurVertices d0) d1
  have X3 := insertVertex_extends (insertVertex (insertVertex g.OurVertices d0) d1) d2
  obtain ⟨m0, i0⟩ := indexOf_of_insertVertex_prefix ((X2.trans X3).trans hw)
  obtain ⟨m1, i1⟩ := indexOf_of_insertVertex_prefix (X3.trans hw)
  obtain ⟨m2, i2⟩ := indexOf_of_insertVertex_prefix hw
  rw [ht]
  have k3 : k = 0 ∨ k = 1 ∨ k = 2 := by omega
  rcases k3 with rfl | rfl | rfl
  · obtain ⟨a, b, c, p, tc, n, rfl, a1, b1, c1, hp1, htc, hn, hd⟩ :=
      corner_in_file (l :: post) h0
    refine ⟨g, _, gf, a, b, c, p, tc, n, hg, hst, hp, rfl, a1, b1, c1, hp1, htc, hn, ?_, ?_⟩
    · rw [← hd, i0]
      simp only [faceResult, List.getElem?_cons_zero]
    · rw [← hd]; exact m0
  · obtain ⟨a, b, c, p, tc, n, rfl, a1, b1, c1, hp1, htc, hn, hd⟩ :=
      corner_in_file (l :: post) h1
    refine ⟨g, _, gf, a, b, c, p, tc, n, hg, hst, hp, rfl, a1, b1, c1, hp1, htc, hn, ?_, ?_⟩
    · rw [← hd, i1]
      simp only [faceResult, List.getElem?_cons_succ, List.getElem?_cons_zero]
    · rw [← hd]; exact m1
  · obtain ⟨a, b, c, p, tc, n, rfl, a1, b1, c1, hp1, htc, hn, hd⟩ :=
      corner_in_file (l :: post) h2
    refine ⟨g, _, gf, a, b, c, p, tc, n, hg, hst, hp, rfl, a1, b1, c1, hp1, htc, hn, ?_, ?_⟩
    · rw [← hd, i2]
      simp only [faceResult, List.getElem?_cons_succ, List.getElem?_cons_zero]
    · rw [← hd]; exact m2

/-- The conversion keeps different attribute sets apart: over exact arithmetic the
negation of Z and the flip 1 - V are one-to-one. -/
theorem converted_eq_iff [FloatModel] (hexact : ∀ q : ℚ, FloatModel.round q = q)
    (p p2 : XMFLOAT3) (tc tc2 : XMFLOAT2) (n n2 : XMFLOAT3) :
    (⟨⟨p.x, p.y, -p.z⟩, ⟨n.x, n.y, -n.z⟩, ⟨tc.x, FloatModel.round (1 - tc.y)⟩⟩ : VERTEX)
        = ⟨⟨p2.x, p2.y, -p2.z⟩, ⟨n2.x, n2.y, -n2.z⟩, ⟨tc2.x, FloatModel.round (1 - tc2.y)⟩⟩
      ↔ (p.x = p2.x ∧ p.y = p2.y ∧ p.z = p2.z ∧ tc.x = tc2.x ∧ tc.y = tc2.y
          ∧ n.x = n2.x ∧ n.y = n2.y ∧ n.z = n2.z) := by
  simp only [hexact, VERTEX.mk.injEq, XMFLOAT3.mk.injEq, XMFLOAT2.mk.injEq, neg_inj,
    sub_right_inj]
  tauto

/-- C20: uniqueness is decided by attribute values, not by triplet numbers. Over exact
arithmetic (`hexact`: every real number is a `float`), two face triplets anywhere in a
valid input (the k-th triplet of the face statement `l` and the k2-th of the face
statement `l2`) resolve to the same vertex-table index if and only if the position,
texture coordinate and normal they reference are field-wise equal, whatever their index
numbers: the Z negation and the 1 - V flip never merge two different raw attribute
sets. -/
theorem triplets_same_index_iff [FloatModel] (hexact : ∀ q : ℚ, FloatModel.round q = q)
    (pre post pre2 post2 : List String) (l l2 : String)
    (k k2 : Nat) (hvalid : validFile (pre ++ l :: post) = true)
    (hsame : pre ++ l :: post = pre2 ++ l2 :: post2)
    (hf : firstToken l = "f") (hf2 : firstToken l2 = "f") (hk : k < 3) (hk2 : k2 < 3) :
    ∃ (g g1 h h1 : Globals) (a b c a2 b2 c2 : Int) (p p2 : XMFLOAT3) (tc tc2 : XMFLOAT2)
        (n n2 : XMFLOAT3) (j j2 : Nat),
      parseLines fresh pre = .next g ∧ statement g l = .next g1
        ∧ parseLines fresh pre2 = .next h ∧ statement h l2 = .next h1
        ∧ (triplets 3 (operands l))[k]? = some (some a, some b, some c)
        ∧ (triplets 3 (operands l2))[k2]? = some (some a2, some b2, some c2)
        ∧ 1 ≤ a ∧ 1 ≤ b ∧ 1 ≤ c ∧ 1 ≤ a2 ∧ 1 ≤ b2 ∧ 1 ≤ c2
        ∧ (vStatements (pre ++ l :: post))[(a - 1).toNat]? = some p
        ∧ (vtStatements (pre ++ l :: post))[(b - 1).toNat]? = some tc
        ∧ (vnStatements (pre ++ l :: post))[(c - 1).toNat]? = some n
        ∧ (vStatements (pre ++ l :: post))[(a2 - 1).toNat]? = some p2
        ∧ (vtStatements (pre ++ l :: post))[(b2 - 1).toNat]? = some tc2
        ∧ (vnStatements (pre ++ l :: post))[(c2 - 1).toNat]? = some n2
        ∧ g1.OurIndicesFaceTriplet[k]? = some (j : Int)
        ∧ h1.OurIndicesFaceTriplet[k2]? = some (j2 : Int)
        ∧ (j = j2 ↔ (p.x = p2.x ∧ p.y = p2.y ∧ p.z = p2.z ∧ tc.x = tc2.x ∧ tc.y = tc2.y
            ∧ n.x = n2.x ∧ n.y = n2.y ∧ n.z = n2.z)) := by
  obtain ⟨g, g1, gf, a, b, c, p, tc, n, hg, hst, hp, ht, a1, b1, c1, hpv, hpt, hpn, hj, hm⟩ :=
    face_triplet_final hvalid hf hk
  obtain ⟨h, h1, gf2, a2, b2, c2, p2, tc2, n2, hg2, hst2, hp2, ht2, a21, b21, c21, hpv2, hpt2,
    hpn2, hj2, hm2⟩ := face_triplet_final (hsame ▸ hvalid) hf2 hk2
  rw [← hsame] at hp2 hpv2 hpt2 hpn2
  rw [hp] at hp2
  simp only [Flow.next.injEq] at hp2
  subst hp2
  exact ⟨g, g1, h, h1, a, b, c, a2, b2, c2, p, p2, tc, tc2, n, n2, _, _, hg, hst, hg2, hst2, ht,
    ht2, a1, b1, c1, a21, b21, c21, hpv, hpt, hpn, hpv2, hpt2, hpn2, hj, hj2,
    (List.indexOf_inj hm hm2).trans (converted_eq_iff hexact p p2 tc tc2 n n2)⟩

theorem triplets_same_index_iff_witness :
    letI : FloatModel := exactArithmetic
    ∃ (g g1 h h1 : Globals) (a b c a2 b2 c2 : Int) (p p2 : XMFLOAT3) (tc tc2 : XMFLOAT2)
        (n n2 : XMFLOAT3) (j j2 : Nat),
      parseLines fresh repeatedPosition = .next g
        ∧ statement g "f 1/1/1 2/1/1 3/1/1" = .next g1
        ∧ parseLines fresh repeatedPosition = .next h
        ∧ statement h "f 1/1/1 2/1/1 3/1/1" = .next h1
        ∧ (triplets 3 (operands "f 1/1/1 2/1/1 3/1/1"))[0]? = some (some a, some b, some c)
        ∧ (triplets 3 (operands "f 1/1/1 2/1/1 3/1/1"))[1]? = some (some a2, some b2, some c2)
        ∧ 1 ≤ a ∧ 1 ≤ b ∧ 1 ≤ c ∧ 1 ≤ a2 ∧ 1 ≤ b2 ∧ 1 ≤ c2
        ∧ (vStatements (repeatedPosition ++ "f 1/1/1 2/1/1 3/1/1" :: []))[(a - 1).toNat]?
            = some p
        ∧ (vtStatements (repeatedPosition ++ "f 1/1/1 2/1/1 3/1/1" :: []))[(b - 1).toNat]?
            = some tc
        ∧ (vnStatements (repeatedPosition ++ "f 1/1/1 2/1/1 3/1/1" :: []))[(c - 1).toNat]?
            = some n
        ∧ (vStatements (repeatedPosition ++ "f 1/1/1 2/1/1 3/1/1" :: []))[(a2 - 1).toNat]?
            = some p2
        ∧ (vtStatements (repeatedPosition ++ "f 1/1/1 2/1/1 3/1/1" :: []))[(b2 - 1).toNat]?
            = some tc2
        ∧ (vnStatements (repeatedPosition ++ "f 1/1/1 2/1/1 3/1/1" :: []))[(c2 - 1).toNat]?
            = some n2
        ∧ g1.OurIndicesFaceTriplet[0]? = some (j : Int)
        ∧ h1.OurIndicesFaceTriplet[1]? = some (j2 : Int)
        ∧ (j = j2 ↔ (p.x = p2.x ∧ p.y = p2.y ∧ p.z = p2.z ∧ tc.x = tc2.x ∧ tc.y = tc2.y
            ∧ n.x = n2.x ∧ n.y = n2.y ∧ n.z = n2.z)) :=
  letI : FloatModel := exactArithmetic
  triplets_same_index_iff (fun _ => rfl) repeatedPosition [] repeatedPosition []
    "f 1/1/1 2/1/1 3/1/1"
    "f 1/1/1 2/1/1 3/1/1" 0 1 (by decide) rfl (by decide) (by decide) (by decide) (by decide)

/-! ## The order of the attribute kinds -/

theorem afterBlock_nil (g : Globals) : afterBlock g [] [] [] = g := by
  simp [afterBlock]

theorem afterBlock_tracks {g : Globals} (tg : Tracks g) (V : List XMFLOAT3)
    (VT : List XMFLOAT2) (VN : List XMFLOAT3) : Tracks (afterBlock g V VT VN) := by
  obtain ⟨h1, h2, h3, h4, h5, h6⟩ := tg
  refine ⟨?_, ?_, ?_, h4, h5, h6⟩ <;> simp [afterBlock] <;> omega

/-- A block of lines without a face statement only appends the operands of its
attribute statements to the raw tables. -/
theorem parseLines_block [FloatModel] {b : List String} : ∀ {g : Globals}, Tracks g → noFace b →
    parseLines g b = .next (afterBlock g (vStatements b) (vtStatements b) (vnStatements b)) := by
  induction b with
  | nil =>
    intro g _ _
    simp [parseLines, vStatements, vtStatements, vnStatements, afterBlock_nil]
  | cons l b ih =>
    intro g tg hn
    have nf : ¬ firstToken l = "f" := hn l (List.mem_cons_self _ _)
    have hn2 : noFace b := fun x hx => hn x (List.mem_cons_of_mem _ hx)
    have hs := statement_eq g l tg
    rw [parseLines, vStatements_cons, vtStatements_cons, vnStatements_cons]
    by_cases tv : firstToken l = "v"
    · have n1 : ¬ firstToken l = "vn" := by rw [tv]; decide
      have n2 : ¬ firstToken l = "vt" := by rw [tv]; decide
      rw [if_pos tv] at hs
      have t2 := (statement_next_raw tg hs).1
      rw [hs]
      simp only
      rw [ih t2 hn2]
      simp [afterBlock, vStatements, vtStatements, vnStatements, tv, n1, n2]
      omega
    · by_cases tvn : firstToken l = "vn"
      · have n2 : ¬ firstToken l = "vt" := by rw [tvn]; decide
        rw [if_neg tv, if_pos tvn] at hs
        have t2 := (statement_next_raw tg hs).1
        rw [hs]
        simp only
        rw [ih t2 hn2]
        simp [afterBlock, vStatements, vtStatements, vnStatements, tv, tvn, n2]
        omega
      · by_cases tvt : firstToken l = "vt"
        · rw [if_neg tv, if_neg tvn, if_pos tvt] at hs
          have t2 := (statement_next_raw tg hs).1
          rw [hs]
          simp only
          rw [ih t2 hn2]
          simp [afterBlock, vStatements, vtStatements, vnStatements, tv, tvn, tvt]
          omega
        · rw [if_neg tv, if_neg tvn, if_neg tvt, if_neg nf] at hs
          rw [hs]
          simp only
          rw [ih tg hn2]
          simp [afterBlock, vStatements, vtStatements, vnStatements, tv, tvn, tvt]

theorem statements_of_sameByKind [FloatModel] {b b1 : List String} (h : sameByKind b b1) :
    vStatements b = vStatements b1 ∧ vtStatements b = vtStatements b1
      ∧ vnStatements b = vnStatements b1 := by
  obtain ⟨h1, h2, h3⟩ := h
  simp only [vStatements, vtStatements, vnStatements, h1, h2, h3, and_self]

theorem parseLines_rearranged [FloatModel] {ls ls1 : List String} (h : Rearranged ls ls1) :
    ∀ g : Globals, Tracks g → parseLines g ls = parseLines g ls1 := by
  induction h with
  | last b b1 n n1 hk =>
    intro g tg
    obtain ⟨e1, e2, e3⟩ := statements_of_sameByKind hk
    rw [parseLines_block tg n, parseLines_block tg n1, e1, e2, e3]
  | face b b1 f rest rest1 n n1 hk hf _ ih =>
    intro g tg
    obtain ⟨e1, e2, e3⟩ := statements_of_sameByKind hk
    have hb := parseLines_block tg n
    have tb := afterBlock_tracks tg (vStatements b) (vtStatements b) (vnStatements b)
    rw [parseLines_append, parseLines_append, hb, parseLines_block tg n1, ← e1, ← e2, ← e3]
    simp only [parseLines]
    cases hs : statement (afterBlock g (vStatements b) (vtStatements b) (vnStatements b)) f with
    | next g2 => exact ih g2 (statement_next_raw tb hs).1
    | ret rc g2 => rfl
    | undefined => rfl

/-- C15: the order of the three attribute kinds relative to each other does not matter.
Rearranging the `v`, `vt` and `vn` statements among themselves, the order within each
kind kept and every attribute statement kept on its side of every face statement,
gives the same result of objReader from the fresh globals: the same return code, vertex
table and index buffer, or the same undefined behaviour. -/
theorem objReader_rearranged [FloatModel] (ls ls1 : List String) (h : Rearranged ls ls1) :
    objReader fresh (some ls) = objReader fresh (some ls1) := by
  simp only [objReader, parseLines_rearranged h fresh fresh_tracks]

theorem objReader_rearranged_witness :
    objReader fresh (some (["v 0 0 5", "v 1 0 0", "v 0 1 0", "vt 0 0.3", "vn 0 0 1"]
        ++ "f 1/1/1 2/1/1 3/1/1" :: ["vn 0 1 0", "v 2 0 0"]))
      = objReader fresh (some (["vn 0 0 1", "v 0 0 5", "vt 0 0.3", "v 1 0 0", "v 0 1 0"]
        ++ "f 1/1/1 2/1/1 3/1/1" :: ["v 2 0 0", "vn 0 1 0"])) :=
  objReader_rearranged _ _
    (Rearranged.face _ _ _ _ _ (by decide) (by decide) (by decide) (by decide)
      (Rearranged.last _ _ (by decide) (by decide) (by decide)))

/-! ## The unit cube -/

theorem unitCube_summary :
    (objReader fresh (some unitCube)).map (fun r =>
        (r.1, r.2.OurVertices.length, r.2.OurIndices.length, r.2.VertexAttributeSetsTotal,
          r.2.PrimitivesTotal))
      = some (0, 24, 36, 24, 12) := by
  decide!

/-- C14: for the unit-cube file (8 `v` statements, 4 `vt` statements, 6 `vn` statements
and 12 triangular face statements, two to a cube side, the corners of each side using
that side's normal) objReader succeeds with 24 entries in the vertex table, 36 entries
in the index buffer, VertexAttributeSetsTotal = 24 and PrimitivesTotal = 12. -/
theorem unitCube_loaded :
    countType "v" unitCube = 8 ∧ countType "vt" unitCube = 4 ∧ countType "vn" unitCube = 6
      ∧ countType "f" unitCube = 12
      ∧ ∃ g, objReader fresh (some unitCube) = some (0, g) ∧ g.OurVertices.length = 24
        ∧ g.OurIndices.length = 36 ∧ g.VertexAttributeSetsTotal = 24
        ∧ g.PrimitivesTotal = 12 := by
  refine ⟨by decide, by decide, by decide, by decide, ?_⟩
  have h := unitCube_summary
  cases hr : objReader fresh (some unitCube) with
  | none => rw [hr] at h; simp at h
  | some r =>
    obtain ⟨rc, g⟩ := r
    rw [hr] at h
    simp only [Option.map_some', Option.some.injEq, Prod.mk.injEq] at h
    obtain ⟨rfl, h1, h2, h3, h4⟩ := h
    exact ⟨g, rfl, h1, h2, h3, h4⟩

/-! ## The index variables and the raw tables along the loop -/

/-- C28: the running index variables always track the table sizes. The load starts
with the five index variables at -1 and the five tables empty; at every line boundary
of the loop (the lines `pre` of the file read, the lines `post` still to come) and on
every return of objReader (code 0 at the end of the file, code 2 from inside the loop),
vi + 1, vti + 1, vni + 1, OurVerticesi + 1 and OurIndicesi + 1 are the lengths of v,
vt, vn, OurVertices and OurIndices. -/
theorem objReader_index_variables [FloatModel] (lines : List String) :
    (fresh.vi = -1 ∧ fresh.vti = -1 ∧ fresh.vni = -1 ∧ fresh.OurVerticesi = -1
      ∧ fresh.OurIndicesi = -1 ∧ fresh.v = [] ∧ fresh.vt = [] ∧ fresh.vn = []
      ∧ fresh.OurVertices = [] ∧ fresh.OurIndices = [])
    ∧ (∀ pre post g, lines = pre ++ post → parseLines fresh pre = .next g →
        g.vi + 1 = g.v.length ∧ g.vti + 1 = g.vt.length ∧ g.vni + 1 = g.vn.length
          ∧ g.OurVerticesi + 1 = g.OurVertices.length
          ∧ g.OurIndicesi + 1 = g.OurIndices.length)
    ∧ (∀ rc g, objReader fresh (some lines) = some (rc, g) →
        g.vi + 1 = g.v.length ∧ g.vti + 1 = g.vt.length ∧ g.vni + 1 = g.vn.length
          ∧ g.OurVerticesi + 1 = g.OurVertices.length
          ∧ g.OurIndicesi + 1 = g.OurIndices.length) := by
  refine ⟨⟨rfl, rfl, rfl, rfl, rfl, rfl, rfl, rfl, rfl, rfl⟩, ?_, ?_⟩
  · intro pre post g _ hp
    obtain ⟨t, _, _⟩ := parseLines_next fresh_tracks fresh_meshOk hp
    exact ⟨t.v, t.vt, t.vn, t.vertices, t.indices⟩
  · intro rc g h
    unfold objReader at h
    simp only at h
    split at h
    · rename_i g1 h1
      obtain ⟨t, _, _⟩ := parseLines_next fresh_tracks fresh_meshOk h1
      simp only [Option.some.injEq, Prod.mk.injEq] at h
      obtain ⟨_, rfl⟩ := h
      exact ⟨t.v, t.vt, t.vn, t.vertices, t.indices⟩
    · rename_i rc1 g1 h1
      simp only [Option.some.injEq, Prod.mk.injEq] at h
      obtain ⟨_, rfl⟩ := h
      obtain ⟨pre, l, post, g0, _, hp, hs⟩ := parseLines_ret_split h1
      obtain ⟨t, _, _⟩ := parseLines_next fresh_tracks fresh_meshOk hp
      obtain ⟨_, rfl, _, _⟩ := statement_ret hs
      exact ⟨t.v, t.vt, t.vn, t.vertices, t.indices⟩
    · simp at h

theorem twoTrianglesHead_read :
    parseLines fresh twoTrianglesHead = .next twoTrianglesHeadRead := by
  decide!

/-! ## Valid input: accesses, used entries, growth -/

/-- C22: on a valid input (every face statement carries three triplets a/b/c with a, b
and c between 1 and the numbers of `v`, `vt` and `vn` statements before its line) every
access to v, vt, vn, OurVertices, OurIndices and OurIndicesFaceTriplet is within bounds:
no statement of the file takes the out-of-range branch of the model. Every line `l` is
reached at a line boundary and its statement completes, and the load returns 0. -/
theorem objReader_accesses_in_bounds [FloatModel] (lines : List String)
    (hvalid : validFile lines = true) :
    (∃ g, objReader fresh (some lines) = some (0, g))
      ∧ parseLines fresh lines ≠ .undefined
      ∧ ∀ pre l post, lines = pre ++ l :: post →
          ∃ g g1, parseLines fresh pre = .next g ∧ statement g l = .next g1
            ∧ statement g l ≠ .undefined := by
  obtain ⟨gf, hp, _, _, ho⟩ := objReader_of_valid hvalid
  refine ⟨⟨_, ho⟩, by rw [hp]; simp, ?_⟩
  intro pre l post he
  subst he
  rw [parseLines_append] at hp
  cases hpre : parseLines fresh pre with
  | next g =>
    rw [hpre] at hp
    simp only [parseLines] at hp
    cases hs : statement g l with
    | next g1 => exact ⟨g, g1, rfl, hs, by rw [hs]; simp⟩
    | ret rc g1 => rw [hs] at hp; simp at hp
    | undefined => rw [hs] at hp; simp at hp
  | ret rc g => rw [hpre] at hp; simp at hp
  | undefined => rw [hpre] at hp; simp at hp

theorem objReader_accesses_in_bounds_witness :
    (∃ g, objReader fresh (some twoTriangles) = some (0, g))
      ∧ parseLines fresh twoTriangles ≠ .undefined
      ∧ ∀ pre l post, twoTriangles = pre ++ l :: post →
          ∃ g g1, parseLines fresh pre = .next g ∧ statement g l = .next g1
            ∧ statement g l ≠ .undefined :=
  objReader_accesses_in_bounds twoTriangles (by decide)

/-- C24: output is only ever appended. For a valid input `A` and further lines `B`
such that `A` followed by `B` is valid too, both loaded from the fresh globals, the
vertex table of `A` is a prefix of the vertex table of `A ++ B`, and the index buffer
of `A` is a prefix of the index buffer of `A ++ B`. -/
theorem objReader_append_only [FloatModel] (A B : List String) (hA : validFile A = true)
    (hAB : validFile (A ++ B) = true) :
    ∃ gA gAB, objReader fresh (some A) = some (0, gA)
      ∧ objReader fresh (some (A ++ B)) = some (0, gAB)
      ∧ gA.OurVertices <+: gAB.OurVertices ∧ gA.OurIndices <+: gAB.OurIndices := by
  obtain ⟨g1, h1, t1, m1, o1⟩ := objReader_of_valid hA
  obtain ⟨g2, h2, _, _, o2⟩ := objReader_of_valid hAB
  rw [parseLines_append, h1] at h2
  obtain ⟨_, _, w⟩ := parseLines_next t1 m1 h2
  exact ⟨_, _, o1, o2, w.vertices, w.indices⟩

theorem objReader_append_only_witness :
    ∃ gA gAB, objReader fresh (some (twoTrianglesHead ++ ["f 1/1/1 2/1/1 3/1/1"]))
        = some (0, gA)
      ∧ objReader fresh (some ((twoTrianglesHead ++ ["f 1/1/1 2/1/1 3/1/1"])
          ++ ["v 2 2 2", "f 4/1/1 3/1/1 2/1/1"])) = some (0, gAB)
      ∧ gA.OurVertices <+: gAB.OurVertices ∧ gA.OurIndices <+: gAB.OurIndices :=
  objReader_append_only (twoTrianglesHead ++ ["f 1/1/1 2/1/1 3/1/1"])
    ["v 2 2 2", "f 4/1/1 3/1/1 2/1/1"] (by decide) (by decide)


theorem lt_insertVertex {T : List VERTEX} {c : VERTEX} {j : Nat}
    (h : j < (insertVertex T c).length) : j < T.length ∨ j = T.indexOf c := by
  unfold insertVertex at h
  split_ifs at h with hc
  · exact Or.inl h
  · simp only [List.length_append, List.length_singleton] at h
    rcases Nat.lt_or_ge j T.length with hj | hj
    · exact Or.inl hj
    · right
      rw [List.indexOf_eq_length.2 hc]
      omega

/-- Every position of the vertex table occurs in the index buffer: the property is kept
by a face statement, which stores the index of each of its three candidates. -/
theorem faceResult_used (g : Globals) (c0 c1 c2 : VERTEX)
    (h : ∀ j, j < g.OurVertices.length → j ∈ g.OurIndices) :
    ∀ j, j < (faceResult g c0 c1 c2).OurVertices.length →
      j ∈ (faceResult g c0 c1 c2).OurIndices := by
  intro j hj
  simp only [faceResult] at hj ⊢
  simp only [List.mem_append, List.mem_cons, List.mem_singleton, List.not_mem_nil, or_false]
  rcases lt_insertVertex hj with h2 | h2
  · rcases lt_insertVertex h2 with h1 | h1
    · rcases lt_insertVertex h1 with h0 | h0
      · exact Or.inl (h j h0)
      · exact Or.inr (Or.inl h0)
    · exact Or.inr (Or.inr (Or.inr h1))
  · exact Or.inr (Or.inr (Or.inl h2))

theorem parseLines_used [FloatModel] {ls : List String} : ∀ {g g1 : Globals}, Tracks g →
    (∀ j, j < g.OurVertices.length → j ∈ g.OurIndices) →
    parseLines g ls = .next g1 → ∀ j, j < g1.OurVertices.length → j ∈ g1.OurIndices := by
  induction ls with
  | nil =>
    intro g g1 _ hu h
    simp only [parseLines, Flow.next.injEq] at h
    subst h
    exact hu
  | cons l ls ih =>
    intro g g1 tg hu h
    rw [parseLines] at h
    split at h
    · rename_i g2 hs
      obtain ⟨t2, _⟩ := statement_next_raw tg hs
      refine ih t2 ?_ h
      rcases statement_next_mesh tg hs with ⟨_, eT, eI⟩ | ⟨_, c0, c1, c2, _, e⟩
      · rw [eT, eI]
        exact hu
      · rw [e]
        exact faceResult_used g c0 c1 c2 hu
    · simp at h
    · simp at h

/-- C23: every entry of the vertex table is used. After the load of a valid input from
the fresh globals, every position j below the length of OurVertices occurs as a value
in the index buffer OurIndices, and the vertex table is not longer than the index
buffer. -/
theorem objReader_vertices_used [FloatModel] (lines : List String) (hvalid : validFile lines = true) :
    ∃ g, objReader fresh (some lines) = some (0, g)
      ∧ (∀ j, j < g.OurVertices.length → j ∈ g.OurIndices)
      ∧ g.OurVertices.length ≤ g.OurIndices.length := by
  obtain ⟨gf, hp, _, _, ho⟩ := objReader_of_valid hvalid
  have hu : ∀ j, j < gf.OurVertices.length → j ∈ gf.OurIndices :=
    parseLines_used fresh_tracks (fun j hj => by simp [fresh] at hj) hp
  refine ⟨_, ho, hu, ?_⟩
  have hsub : List.range gf.OurVertices.length ⊆ gf.OurIndices :=
    fun j hj => hu j (List.mem_range.1 hj)
  have := ((List.nodup_range _).subperm hsub).length_le
  simpa using this

theorem objReader_vertices_used_witness :
    ∃ g, objReader fresh (some twoSeparateTriangles) = some (0, g)
      ∧ (∀ j, j < g.OurVertices.length → j ∈ g.OurIndices)
      ∧ g.OurVertices.length ≤ g.OurIndices.length :=
  objReader_vertices_used twoSeparateTriangles (by decide)

/-! ## The start of the renderer -/

theorem objReader_failure_code [FloatModel] {g g1 : Globals} {file : Option (List String)} {rc : Int}
    (h : objReader g file = some (rc, g1)) (hrc : rc ≠ 0) : rc = 1 ∨ rc = 2 := by
  cases file with
  | none =>
    simp only [objReader, Option.some.injEq, Prod.mk.injEq] at h
    exact Or.inl h.1.symm
  | some lines =>
    rcases objReader_code h with h0 | h2
    · exact absurd h0 hrc
    · exact Or.inr h2

/-- C27: a loader failure is reported unchanged up the call chain. When objReader
returns a non-zero code rc (which is 1 or 2), InitGraphics returns rc having made no
call at all, so no vertex or index buffer is created or filled; InitD3D, having got as
far as InitGraphics, returns that code; and WinMain returns the code of InitD3D without
a pass of the message loop: its calls end with InitPipeline, before any PeekMessage,
RenderFrame or CleanD3D. -/
theorem loader_failure_reported [FloatModel] (g g1 : Globals) (file : Option (List String)) (rc : Int)
    (passes : List (Option MSG)) (h : objReader g file = some (rc, g1)) (hrc : rc ≠ 0) :
    (rc = 1 ∨ rc = 2)
      ∧ InitGraphics g file = some (rc, g1, [])
      ∧ InitD3D true g file = some (.returned rc, g1,
          [.D3D11CreateDeviceAndSwapChain, .CreateTexture2D, .InitPipeline])
      ∧ WinMain true passes g file = some (.returned rc, g1,
          [.CreateWindowEx, .ShowWindow, .D3D11CreateDeviceAndSwapChain, .CreateTexture2D,
            .InitPipeline]) := by
  have hG : InitGraphics g file = some (rc, g1, []) := by
    simp only [InitGraphics, h, if_pos hrc]
  have hD : InitD3D true g file = some (.returned rc, g1,
      [.D3D11CreateDeviceAndSwapChain, .CreateTexture2D, .InitPipeline]) := by
    simp [InitD3D, hG, hrc]
  refine ⟨objReader_failure_code h hrc, hG, hD, ?_⟩
  simp [WinMain, hD, hrc]

theorem loader_failure_reported_witness :
    ((2 : Int) = 1 ∨ (2 : Int) = 2)
      ∧ InitGraphics fresh (some faceWithoutAttributes) = some (2, faceWithoutAttributesLeft, [])
      ∧ InitD3D true fresh (some faceWithoutAttributes)
          = some (.returned 2, faceWithoutAttributesLeft,
              [.D3D11CreateDeviceAndSwapChain, .CreateTexture2D, .InitPipeline])
      ∧ WinMain true [none, some ⟨WM_QUIT, 0⟩] fresh (some faceWithoutAttributes)
          = some (.returned 2, faceWithoutAttributesLeft,
              [.CreateWindowEx, .ShowWindow, .D3D11CreateDeviceAndSwapChain,
                .CreateTexture2D, .InitPipeline]) :=
  loader_failure_reported fresh faceWithoutAttributesLeft (some faceWithoutAttributes) 2
    [none, some ⟨WM_QUIT, 0⟩] faceWithoutAttributes_left (by decide)

/-! ## The input layout and the VERTEX structure -/

/-- C26, evaluated on the code: the input layout of InitPipeline does not describe the
VERTEX structure. Its elements are declared in the order POSITION, TEXCOORD, NORMAL and
appended, so TEXCOORD lies at byte offset 12 and NORMAL at byte offset 20, while VERTEX
holds the normal at offset 12 and the texture coordinate at offset 24. From a vertex in
the vertex buffer the input assembler therefore reads the first two floats of the normal
as TEXCOORD, and the third float of the normal with the two texture coordinates as
NORMAL. -/
theorem inputLayout_offsets :
    elementOffsets 0 ied = [("POSITION", 0, 12), ("TEXCOORD", 12, 8), ("NORMAL", 20, 12)]
      ∧ memberOffsets 0 vertexMembers
          = [("POSITION", 0, 12), ("NORMAL", 12, 12), ("TEXCOORD", 24, 8)]
      ∧ layoutDescribesVertex = false
      ∧ (∀ x : VERTEX, assembled x =
          [("POSITION", [x.GeometricVertex.x, x.GeometricVertex.y, x.GeometricVertex.z]),
            ("TEXCOORD", [x.VertexNormalVector.x, x.VertexNormalVector.y]),
            ("NORMAL", [x.VertexNormalVector.z, x.VertexTextureCoordinate.x,
              x.VertexTextureCoordinate.y])])
      ∧ assembled ⟨⟨0, 0, -5⟩, ⟨0, 0, -1⟩, ⟨0, 7 / 10⟩⟩
          = [("POSITION", [0, 0, -5]), ("TEXCOORD", [0, 0]), ("NORMAL", [-1, 0, 7 / 10])] := by
  refine ⟨by decide, by decide, by decide, fun x => rfl, rfl⟩

/-! ## Tokens after the operands of a statement -/

theorem takeWhile_append_stop (p : Char → Bool) (xs : List Char) {w : Char} (e : List Char)
    (hw : p w = false) : (xs ++ w :: e).takeWhile p = xs.takeWhile p := by
  induction xs with
  | nil => simp [List.takeWhile, hw]
  | cons x xs ih =>
    rw [List.cons_append, List.takeWhile_cons, List.takeWhile_cons, ih]

theorem dropWhile_append_stop (p : Char → Bool) (xs : List Char) {w : Char} (e : List Char)
    (hw : p w = false) : (xs ++ w :: e).dropWhile p = xs.dropWhile p ++ w :: e := by
  induction xs with
  | nil => simp [List.dropWhile, hw]
  | cons x xs ih =>
    rw [List.cons_append, List.dropWhile_cons, List.dropWhile_cons]
    split_ifs
    · exact ih
    · rfl

theorem skipws_append_stop (xs extra : List Char) (h : skipws xs ≠ []) :
    skipws (xs ++ extra) = skipws xs ++ extra := by
  induction xs with
  | nil => simp [skipws] at h
  | cons x xs ih =>
    simp only [List.cons_append, skipws] at h ⊢
    split_ifs at h ⊢ with hx
    · exact ih h
    · rfl

theorem isdigit_of_isspace {w : Char} (h : isspace w = true) : isdigit w = false := by
  simp only [isspace, isdigit, Bool.or_eq_true, Bool.and_eq_true, decide_eq_true_eq,
    Bool.and_eq_false_imp] at h ⊢
  intro h1
  simp only [decide_eq_false_iff_not]
  omega

theorem ne_of_isspace {w : Char} (h : isspace w = true) :
    w ≠ '-' ∧ w ≠ '+' ∧ w ≠ '.' ∧ w ≠ 'e' ∧ w ≠ 'E' := by
  refine ⟨?_, ?_, ?_, ?_, ?_⟩ <;> (intro e; subst e; revert h; decide)

theorem sentry_fail {s : IStream} (h : (sentry s).2 = false) : (sentry s).1.fail = true := by
  by_cases hf : s.fail = true
  · simp [sentry, hf]
  · cases hk : skipws s.buf with
    | nil => simp [sentry, hf, hk]
    | cons c cs => simp [sentry, hf, hk] at h

theorem sentry_extend {s : IStream} (extra : List Char) (h : (sentry s).2 = true) :
    sentry (extend extra s) = (extend extra (sentry s).1, true) := by
  by_cases hf : s.fail = true
  · simp [sentry, hf] at h
  · cases hk : skipws s.buf with
    | nil => simp [sentry, hf, hk] at h
    | cons c cs =>
      have : skipws (s.buf ++ extra) = c :: (cs ++ extra) := by
        rw [skipws_append_stop _ _ (by rw [hk]; simp), hk]
        rfl
      simp [sentry, extend, hf, hk, this]

theorem sentry_of_fail {s : IStream} (h : s.fail = true) : sentry s = (s, false) := by
  simp [sentry, h]

theorem readSign_extend (xs : List Char) {w : Char} (e : List Char)
    (hw : isspace w = true) :
    readSign (xs ++ w :: e) = ((readSign xs).1, (readSign xs).2 ++ w :: e) := by
  obtain ⟨h1, h2, _, _, _⟩ := ne_of_isspace hw
  cases xs with
  | nil => simp [readSign, h1, h2]
  | cons c cs =>
    simp only [List.cons_append, readSign]
    split_ifs <;> rfl

theorem readFraction_extend (xs : List Char) {w : Char} (e : List Char)
    (hw : isspace w = true) :
    readFraction (xs ++ w :: e) = ((readFraction xs).1, (readFraction xs).2 ++ w :: e) := by
  obtain ⟨_, _, h3, _, _⟩ := ne_of_isspace hw
  cases xs with
  | nil => simp [readFraction, h3]
  | cons c cs =>
    simp only [List.cons_append, readFraction]
    split_ifs
    · simp only [takeWhile_append_stop _ _ _ (isdigit_of_isspace hw),
        dropWhile_append_stop _ _ _ (isdigit_of_isspace hw)]
    · rfl

theorem readExponent_extend (m : ℚ) (xs : List Char) {w : Char} (e : List Char)
    (hw : isspace w = true) :
    readExponent m (xs ++ w :: e)
      = ((readExponent m xs).1, (readExponent m xs).2.1 ++ w :: e, (readExponent m xs).2.2) := by
  obtain ⟨_, _, _, h4, h5⟩ := ne_of_isspace hw
  cases xs with
  | nil => simp [readExponent, h4, h5]
  | cons c cs =>
    simp only [List.cons_append, readExponent, readSign_extend _ _ hw,
      takeWhile_append_stop _ _ _ (isdigit_of_isspace hw),
      dropWhile_append_stop _ _ _ (isdigit_of_isspace hw)]
    split_ifs <;> rfl


theorem sentry_false {s st1 : IStream} (h : sentry s = (st1, false)) : st1.fail = true := by
  have := sentry_fail (s := s) (by rw [h])
  rwa [h] at this

theorem sentry_true {s st1 : IStream} (extra : List Char) (h : sentry s = (st1, true)) :
    st1.fail = false ∧ st1.buf ≠ [] ∧ sentry (extend extra s) = (extend extra st1, true) := by
  have h2 := sentry_extend (s := s) extra (by rw [h])
  rw [h] at h2
  refine ⟨?_, ?_, h2⟩
  · by_cases hf : s.fail = true
    · simp [sentry, hf] at h
    · cases hk : skipws s.buf with
      | nil => simp [sentry, hf, hk] at h
      | cons c cs =>
        simp only [sentry, hf, hk, Bool.false_eq_true, if_false, Prod.mk.injEq, and_true] at h
        rw [← h]
  · by_cases hf : s.fail = true
    · simp [sentry, hf] at h
    · cases hk : skipws s.buf with
      | nil => simp [sentry, hf, hk] at h
      | cons c cs =>
        simp only [sentry, hf, hk, Bool.false_eq_true, if_false, Prod.mk.injEq, and_true] at h
        rw [← h]
        simp

theorem extractString_extend {s : IStream} {w : Char} (e : List Char)
    (hw : isspace w = true) (h : (extractString s).2.fail = false) :
    extractString (extend (w :: e) s)
      = ((extractString s).1, extend (w :: e) (extractString s).2) := by
  have hp : (fun c => !isspace c) w = false := by simp [hw]
  rcases hS : sentry s with ⟨st1, ok⟩
  cases ok with
  | false =>
    have hf := sentry_false hS
    simp only [extractString, hS] at h
    rw [hf] at h
    contradiction
  | true =>
    obtain ⟨_, _, hE⟩ := sentry_true (w :: e) hS
    simp only [extractString, hS, hE]
    simp only [extend, takeWhile_append_stop (fun c => !isspace c) _ _ hp,
      dropWhile_append_stop (fun c => !isspace c) _ _ hp]

theorem extractChar_extend {s : IStream} (extra : List Char)
    (h : (extractChar s).fail = false) :
    extractChar (extend extra s) = extend extra (extractChar s) := by
  rcases hS : sentry s with ⟨st1, ok⟩
  cases ok with
  | false =>
    have hf := sentry_false hS
    simp only [extractChar, hS] at h
    rw [hf] at h
    contradiction
  | true =>
    obtain ⟨_, hne, hE⟩ := sentry_true extra hS
    simp only [extractChar, hS, hE]
    simp only [extend, List.tail_append_of_ne_nil hne]

theorem extractInt_extend {s : IStream} {w : Char} (e : List Char) (old : Option Int)
    (hw : isspace w = true) (h : (extractInt s old).2.fail = false) :
    extractInt (extend (w :: e) s) old
      = ((extractInt s old).1, extend (w :: e) (extractInt s old).2) := by
  rcases hS : sentry s with ⟨st1, ok⟩
  cases ok with
  | false =>
    have hf := sentry_false hS
    simp only [extractInt, hS] at h
    rw [hf] at h
    contradiction
  | true =>
    obtain ⟨_, _, hE⟩ := sentry_true (w :: e) hS
    simp only [extractInt, hS, hE]
    simp only [extend, readSign_extend _ _ hw,
      takeWhile_append_stop _ _ _ (isdigit_of_isspace hw),
      dropWhile_append_stop _ _ _ (isdigit_of_isspace hw)]
    split_ifs <;> rfl

theorem extractFloat_extend [FloatModel] {s : IStream} {w : Char} (e : List Char) (old : ℚ)
    (hw : isspace w = true) (h : (extractFloat s old).2.fail = false) :
    extractFloat (extend (w :: e) s) old
      = ((extractFloat s old).1, extend (w :: e) (extractFloat s old).2) := by
  rcases hS : sentry s with ⟨st1, ok⟩
  cases ok with
  | false =>
    have hf := sentry_false hS
    simp only [extractFloat, hS] at h
    rw [hf] at h
    contradiction
  | true =>
    obtain ⟨_, _, hE⟩ := sentry_true (w :: e) hS
    simp only [extractFloat, hS, hE]
    simp only [extend, readSign_extend _ _ hw,
      takeWhile_append_stop _ _ _ (isdigit_of_isspace hw),
      dropWhile_append_stop _ _ _ (isdigit_of_isspace hw), readFraction_extend _ _ hw,
      readExponent_extend _ _ _ hw]
    split_ifs <;> rfl

theorem extractString_sticky {s : IStream} (h : s.fail = true) :
    (extractString s).2.fail = true := by
  simp [extractString, sentry_of_fail h, h]

theorem extractChar_sticky {s : IStream} (h : s.fail = true) :
    (extractChar s).fail = true := by
  simp [extractChar, sentry_of_fail h, h]

theorem extractInt_sticky {s : IStream} (old : Option Int) (h : s.fail = true) :
    (extractInt s old).2.fail = true := by
  simp [extractInt, sentry_of_fail h, h]

theorem extractFloat_sticky [FloatModel] {s : IStream} (old : ℚ) (h : s.fail = true) :
    (extractFloat s old).2.fail = true := by
  simp [extractFloat, sentry_of_fail h, h]

theorem extractFloat_stream [FloatModel] (s : IStream) (a b : ℚ) :
    (extractFloat s a).2 = (extractFloat s b).2 := by
  rcases hS : sentry s with ⟨st1, ok⟩
  cases ok with
  | false => simp only [extractFloat, hS]
  | true => simp only [extractFloat, hS]


theorem fail_false_of_sticky {b c : Bool} (hs : b = true → c = true) (hc : c = false) :
    b = false := by
  cases b with
  | false => rfl
  | true => rw [hs rfl] at hc; contradiction

theorem afterFloats_sticky [FloatModel] : ∀ (n : Nat) (s : IStream), (afterFloats n s).fail = false →
    s.fail = false
  | 0, _, h => h
  | n + 1, _, h =>
    fail_false_of_sticky (extractFloat_sticky 0) (afterFloats_sticky n _ h)

theorem extract3_extend [FloatModel] {ls : IStream} {w : Char} (e : List Char) (x : XMFLOAT3)
    (hw : isspace w = true) (h : (afterFloats 3 ls).fail = false) :
    extract3 (extend (w :: e) ls) x = extract3 ls x := by
  simp only [afterFloats] at h
  rw [extractFloat_stream ls 0 x.x, extractFloat_stream (extractFloat ls x.x).2 0 x.y,
    extractFloat_stream (extractFloat (extractFloat ls x.x).2 x.y).2 0 x.z] at h
  have h2 := fail_false_of_sticky (extractFloat_sticky x.z) h
  have h1 := fail_false_of_sticky (extractFloat_sticky x.y) h2
  simp only [extract3, extractFloat_extend e x.x hw h1, extractFloat_extend e x.y hw h2,
    extractFloat_extend e x.z hw h]

theorem extract2_extend [FloatModel] {ls : IStream} {w : Char} (e : List Char) (x : XMFLOAT2)
    (hw : isspace w = true) (h : (afterFloats 2 ls).fail = false) :
    extract2 (extend (w :: e) ls) x = extract2 ls x := by
  simp only [afterFloats] at h
  rw [extractFloat_stream ls 0 x.x, extractFloat_stream (extractFloat ls x.x).2 0 x.y] at h
  have h1 := fail_false_of_sticky (extractFloat_sticky x.y) h
  simp only [extract2, extractFloat_extend e x.x hw h1, extractFloat_extend e x.y hw h]

theorem readTriplet_sticky {s : IStream} (h : s.fail = true) :
    (readTriplet s).2.fail = true := by
  simp only [readTriplet]
  exact extractInt_sticky _ (extractChar_sticky (extractInt_sticky _
    (extractChar_sticky (extractInt_sticky _ h))))

theorem readTriplet_extend {s : IStream} {w : Char} (e : List Char)
    (hw : isspace w = true) (h : (readTriplet s).2.fail = false) :
    readTriplet (extend (w :: e) s) = ((readTriplet s).1, extend (w :: e) (readTriplet s).2) := by
  simp only [readTriplet] at h
  have h4 := fail_false_of_sticky (extractInt_sticky none) h
  have h3 := fail_false_of_sticky extractChar_sticky h4
  have h2 := fail_false_of_sticky (extractInt_sticky none) h3
  have h1 := fail_false_of_sticky extractChar_sticky h2
  simp only [readTriplet, extractInt_extend e none hw h1, extractChar_extend (w :: e) h2,
    extractInt_extend e none hw h3, extractChar_extend (w :: e) h4,
    extractInt_extend e none hw h]

theorem afterTriplets_sticky : ∀ (n : Nat) (s : IStream), (afterTriplets n s).fail = false →
    s.fail = false
  | 0, _, h => h
  | n + 1, _, h =>
    fail_false_of_sticky readTriplet_sticky (afterTriplets_sticky n _ h)

theorem corners_extend [FloatModel] (v : List XMFLOAT3) (vt : List XMFLOAT2) (vn : List XMFLOAT3)
    {ls : IStream} {w : Char} (e : List Char) (hw : isspace w = true)
    (h : (afterTriplets 3 ls).fail = false) :
    corners v vt vn (extend (w :: e) ls) = corners v vt vn ls := by
  simp only [afterTriplets] at h
  have h2 := fail_false_of_sticky readTriplet_sticky h
  have h1 := fail_false_of_sticky readTriplet_sticky h2
  simp only [corners, readTriplet_extend e hw h1, readTriplet_extend e hw h2,
    readTriplet_extend e hw h]

theorem operands_of_complete [FloatModel] {l : String} (h : complete l = true) :
    (operands l).fail = false := by
  simp only [complete, afterOperands, Bool.not_eq_true'] at h
  split_ifs at h
  · exact afterFloats_sticky 3 _ h
  · exact afterFloats_sticky 2 _ h
  · exact afterTriplets_sticky 3 _ h
  · exact h

theorem firstToken_withTrailing {l : String} {w : Char} (e : List Char)
    (hw : isspace w = true) (h : (operands l).fail = false) :
    firstToken (withTrailing l (w :: e)) = firstToken l
      ∧ operands (withTrailing l (w :: e)) = extend (w :: e) (operands l) := by
  have hx := extractString_extend (s := ⟨l.toList, false⟩) e hw h
  have he : (⟨(withTrailing l (w :: e)).toList, false⟩ : IStream)
      = extend (w :: e) ⟨l.toList, false⟩ := rfl
  simp only [firstToken, operands, he, hx, and_self]

theorem statement_withTrailing [FloatModel] (g : Globals) (hT : Tracks g) {l : String} {w : Char}
    (e : List Char) (hw : isspace w = true) (hc : complete l = true) :
    statement g (withTrailing l (w :: e)) = statement g l := by
  obtain ⟨hf, ho⟩ := firstToken_withTrailing e hw (operands_of_complete hc)
  rw [statement_eq _ _ hT, statement_eq _ _ hT, hf, ho]
  simp only [complete, afterOperands, Bool.not_eq_true'] at hc
  by_cases tv : firstToken l = "v"
  · rw [if_pos (Or.inl tv)] at hc
    rw [if_pos tv, if_pos tv, extract3_extend e _ hw hc]
  · by_cases tvn : firstToken l = "vn"
    · rw [if_pos (Or.inr tvn)] at hc
      rw [if_neg tv, if_neg tv, if_pos tvn, if_pos tvn, extract3_extend e _ hw hc]
    · have nv : ¬ (firstToken l = "v" ∨ firstToken l = "vn") := by
        rintro (h | h)
        · exact tv h
        · exact tvn h
      rw [if_neg nv] at hc
      by_cases tvt : firstToken l = "vt"
      · rw [if_pos tvt] at hc
        rw [if_neg tv, if_neg tv, if_neg tvn, if_neg tvn, if_pos tvt, if_pos tvt,
          extract2_extend e _ hw hc]
      · rw [if_neg tvt] at hc
        by_cases tf : firstToken l = "f"
        · rw [if_pos tf] at hc
          rw [if_neg tv, if_neg tv, if_neg tvn, if_neg tvn, if_neg tvt, if_neg tvt,
            if_pos tf, if_pos tf, corners_extend _ _ _ e hw hc]
        · rw [if_neg tv, if_neg tv, if_neg tvn, if_neg tvn, if_neg tvt, if_neg tvt,
            if_neg tf, if_neg tf]


theorem withTrailing_nil (l : String) : withTrailing l [] = l := by
  simp [withTrailing]

theorem statement_trailing [FloatModel] (g : Globals) (hT : Tracks g) (p : String × List Char)
    (h : p.2 = [] ∨ (complete p.1 = true ∧ separated p.2 = true)) :
    statement g (withTrailing p.1 p.2) = statement g p.1 := by
  rcases h with h | ⟨hc, hs⟩
  · rw [h, withTrailing_nil]
  · cases hx : p.2 with
    | nil => rw [hx] at hs; simp [separated] at hs
    | cons w e =>
      rw [hx] at hs
      exact statement_withTrailing g hT e hs hc

theorem parseLines_trailing [FloatModel] (file : List (String × List Char))
    (h : ∀ p ∈ file, p.2 = [] ∨ (complete p.1 = true ∧ separated p.2 = true)) :
    ∀ g : Globals, Tracks g →
      parseLines g (file.map (fun p => withTrailing p.1 p.2))
        = parseLines g (file.map (fun p => p.1)) := by
  induction file with
  | nil => intro g _; rfl
  | cons p ps ih =>
    intro g hT
    simp only [List.map_cons, parseLines,
      statement_trailing g hT p (h p (List.mem_cons_self _ _))]
    cases hs : statement g p.1 with
    | next g1 =>
      exact ih (fun q hq => h q (List.mem_cons_of_mem _ hq)) g1 (statement_next_raw hT hs).1
    | ret rc g1 => rfl
    | undefined => rfl

/-- C25: tokens after the expected operands of a statement are ignored. A file is given
as its lines, each with the characters that trail it; a line has trailing characters
only if it has its statement type and all the operands the type expects (three numbers
of a `v` or `vn` statement, two of a `vt` statement, three triplets of a face
statement), and the trailing characters start with a whitespace character. The load
from the fresh globals gives the same result (return code, raw tables, vertex table,
index buffer, or undefined behaviour) with the trailing tokens and with them removed;
on success the raw tables hold the operands of the lines without their trailing tokens
(the first three numbers, or two), and every face statement, a quad too, gives exactly
one triangle: three indices, and PrimitivesTotal is the number of face statements. -/
theorem objReader_trailing_tokens [FloatModel] (file : List (String × List Char))
    (h : ∀ p ∈ file, p.2 = [] ∨ (complete p.1 = true ∧ separated p.2 = true)) :
    objReader fresh (some (file.map (fun p => withTrailing p.1 p.2)))
        = objReader fresh (some (file.map (fun p => p.1)))
      ∧ ∀ g, objReader fresh (some (file.map (fun p => withTrailing p.1 p.2))) = some (0, g) →
          g.v = vStatements (file.map (fun p => p.1))
            ∧ g.vt = vtStatements (file.map (fun p => p.1))
            ∧ g.vn = vnStatements (file.map (fun p => p.1))
            ∧ g.OurIndices.length
                = 3 * countType "f" (file.map (fun p => withTrailing p.1 p.2))
            ∧ g.PrimitivesTotal = countType "f" (file.map (fun p => withTrailing p.1 p.2)) := by
  have key := parseLines_trailing file h fresh fresh_tracks
  refine ⟨by simp only [objReader, key], ?_⟩
  intro g hg
  obtain ⟨g1, hp, rfl⟩ := objReader_eq_zero hg
  have hlen := indices_length_of_next hp
  obtain ⟨t1, _, _⟩ := parseLines_next fresh_tracks fresh_meshOk hp
  rw [key] at hp
  obtain ⟨ev, evt, evn⟩ := parseLines_next_raw fresh_tracks hp
  simp only [fresh, List.nil_append] at ev evt evn
  refine ⟨ev, evt, evn, hlen, ?_⟩
  have := t1.indices
  simp only
  rw [this, hlen, Int.tdiv_eq_ediv (by omega) (by omega)]
  omega

theorem quadFile_complete :
    ∀ p ∈ quadFile, p.2 = [] ∨ (complete p.1 = true ∧ separated p.2 = true) := by
  decide!

theorem objReader_trailing_tokens_witness :
    objReader fresh (some (quadFile.map (fun p => withTrailing p.1 p.2)))
        = objReader fresh (some (quadFile.map (fun p => p.1)))
      ∧ ∀ g, objReader fresh (some (quadFile.map (fun p => withTrailing p.1 p.2)))
          = some (0, g) →
          g.v = vStatements (quadFile.map (fun p => p.1))
            ∧ g.vt = vtStatements (quadFile.map (fun p => p.1))
            ∧ g.vn = vnStatements (quadFile.map (fun p => p.1))
            ∧ g.OurIndices.length
                = 3 * countType "f" (quadFile.map (fun p => withTrailing p.1 p.2))
            ∧ g.PrimitivesTotal
                = countType "f" (quadFile.map (fun p => withTrailing p.1 p.2)) :=
  objReader_trailing_tokens quadFile quadFile_complete

/-! ## Numbers as written and as read -/

theorem digitChar_facts (d : Fin 10) :
    isdigit (digitChar d) = true ∧ (digitChar d).toNat - 48 = d.val
      ∧ isspace (digitChar d) = false ∧ digitChar d ≠ '-' ∧ digitChar d ≠ '+'
      ∧ digitChar d ≠ '.' ∧ digitChar d ≠ 'e' ∧ digitChar d ≠ 'E' := by
  revert d
  decide

theorem digitsValue_map (ds : List (Fin 10)) :
    digitsValue (ds.map digitChar) = digitsNumber ds := by
  simp only [digitsValue, digitsNumber, List.foldl_map, (digitChar_facts _).2.1]

/-- A prefix of characters that all satisfy `p`, followed by characters that do not
start with one: `takeWhile` and `dropWhile` split there. -/
theorem takeWhile_dropWhile_append (p : Char → Bool) (W u : List Char)
    (hW : ∀ c ∈ W, p c = true) (hu : ∀ c ∈ u.head?, p c = false) :
    (W ++ u).takeWhile p = W ∧ (W ++ u).dropWhile p = u := by
  induction W with
  | nil =>
    cases u with
    | nil => simp
    | cons c cs =>
      have := hu c (by simp)
      simp [List.takeWhile, List.dropWhile, this]
  | cons w W ih =>
    have hw := hW w (List.mem_cons_self _ _)
    obtain ⟨i1, i2⟩ := ih (fun c hc => hW c (List.mem_cons_of_mem _ hc))
    simp only [List.cons_append, List.takeWhile_cons, List.dropWhile_cons, hw, if_true, i1, i2,
      and_self]

theorem digits_split (ds : List (Fin 10)) (u : List Char)
    (hu : ∀ c ∈ u.head?, isdigit c = false) :
    (ds.map digitChar ++ u).takeWhile isdigit = ds.map digitChar
      ∧ (ds.map digitChar ++ u).dropWhile isdigit = u := by
  apply takeWhile_dropWhile_append _ _ _ _ hu
  intro c hc
  obtain ⟨d, _, rfl⟩ := List.mem_map.1 hc
  exact (digitChar_facts d).1

theorem readSign_signText (sign : Option Bool) (t : List Char)
    (ht : ∀ c ∈ t.head?, c ≠ '-' ∧ c ≠ '+') :
    readSign (signText sign ++ t) = (decide (sign = some true), t) := by
  cases sign with
  | some b =>
    cases b with
    | true => simp [signText, readSign]
    | false => simp [signText, readSign]
  | none =>
    cases t with
    | nil => simp [signText, readSign]
    | cons c cs =>
      obtain ⟨h1, h2⟩ := ht c (by simp)
      simp [signText, readSign, h1, h2]

theorem readFraction_fractionText (fr : Option (List (Fin 10))) (u : List Char)
    (hu : ∀ c ∈ u.head?, isdigit c = false ∧ c ≠ '.') :
    readFraction (fractionText fr ++ u) = ((fr.getD []).map digitChar, u) := by
  cases fr with
  | none =>
    cases u with
    | nil => simp [fractionText, readFraction]
    | cons c cs =>
      obtain ⟨_, h2⟩ := hu c (by simp)
      simp [fractionText, readFraction, h2]
  | some ds =>
    obtain ⟨i1, i2⟩ := digits_split ds u (fun c hc => (hu c hc).1)
    simp only [fractionText, List.cons_append, readFraction, if_true, i1, i2, Option.getD_some]

theorem readExponent_exponentText (m : ℚ) (ex : Option Exponent)
    (rest : List Char) (hex : ∀ e ∈ ex, e.digits ≠ []) (hrest : stops rest = true) :
    readExponent m (exponentText ex ++ rest) = (m * exponentFactor ex, rest, false) := by
  have hr : ∀ c ∈ rest.head?, isdigit c = false ∧ c ≠ 'e' ∧ c ≠ 'E' := by
    intro c hc
    cases rest with
    | nil => simp at hc
    | cons r rs =>
      simp only [List.head?_cons, Option.mem_def, Option.some.injEq] at hc
      subst hc
      simp only [stops] at hrest
      obtain ⟨_, _, _, h4, h5⟩ := ne_of_isspace hrest
      exact ⟨isdigit_of_isspace hrest, h4, h5⟩
  cases ex with
  | none =>
    cases rest with
    | nil => simp [exponentText, exponentFactor, readExponent]
    | cons r rs =>
      obtain ⟨_, h4, h5⟩ := hr r (by simp)
      simp [exponentText, exponentFactor, readExponent, h4, h5]
  | some e =>
    obtain ⟨up, esign, eds⟩ := e
    have hne : eds ≠ [] := hex ⟨up, esign, eds⟩ rfl
    have hsign : readSign (signText esign ++ (eds.map digitChar ++ rest))
        = (decide (esign = some true), eds.map digitChar ++ rest) := by
      apply readSign_signText
      intro c hc
      cases eds with
      | nil => exact absurd rfl hne
      | cons d ds =>
        simp only [List.map_cons, List.cons_append, List.head?_cons, Option.mem_def,
          Option.some.injEq] at hc
        subst hc
        exact ⟨(digitChar_facts d).2.2.2.1, (digitChar_facts d).2.2.2.2.1⟩
    obtain ⟨i1, i2⟩ := digits_split eds rest (fun c hc => (hr c hc).1)
    have hmap : eds.map digitChar ≠ [] := by simpa using hne
    have hmark : (if up = true then 'E' else 'e') = 'e' ∨ (if up = true then 'E' else 'e') = 'E' := by
      cases up with
      | true => exact Or.inr rfl
      | false => exact Or.inl rfl
    simp only [exponentText, List.cons_append, List.append_assoc, readExponent, hmark,
      if_true, hsign, i1, i2, hmap, if_false, digitsValue_map, exponentFactor,
      decide_eq_true_eq]
    by_cases hs : esign = some true
    · simp [hs, div_eq_mul_inv]
    · simp [hs]

theorem skipws_of_head (c : Char) (cs : List Char) (h : isspace c = false) :
    skipws (c :: cs) = c :: cs := by
  simp [skipws, h]

theorem head_of_stops {rest : List Char} (h : stops rest = true) :
    ∀ c ∈ rest.head?, isspace c = true := by
  intro c hc
  cases rest with
  | nil => simp at hc
  | cons r rs =>
    simp only [List.head?_cons, Option.mem_def, Option.some.injEq] at hc
    subst hc
    exact h

/-- A written number is read as written: the extraction skips the whitespace before it,
stores the `float` for its value and leaves the stream at what follows the number, the
fail state set when the value lies beyond the range of `float`. -/
theorem extractFloat_numeral [FloatModel] (x : Numeral) (ws rest : List Char) (old : ℚ)
    (hws : ∀ c ∈ ws, isspace c = true) (hx : x.wellFormed = true)
    (hrest : stops rest = true) :
    extractFloat ⟨ws ++ x.text ++ rest, false⟩ old
      = (FloatModel.round x.value, ⟨rest, FloatModel.overflow x.value⟩) := by
  obtain ⟨n, W, f, e⟩ := x
  simp only [Numeral.wellFormed, Numeral.fractionDigits, Bool.and_eq_true, Bool.or_eq_true,
    Bool.not_eq_true', List.isEmpty_eq_false] at hx
  obtain ⟨hWf, he⟩ := hx
  have hex : ∀ e1 ∈ e, e1.digits ≠ [] := by
    intro e1 h1
    cases e with
    | none => simp at h1
    | some e0 =>
      simp only [Option.mem_def, Option.some.injEq] at h1
      subst h1
      simpa using he
  have hrs := head_of_stops hrest
  -- what the three tails start with
  have hE : ∀ c ∈ (exponentText e ++ rest).head?,
      isdigit c = false ∧ c ≠ '.' ∧ c ≠ '-' ∧ c ≠ '+' := by
    intro c hc
    cases e with
    | none =>
      have hsp := hrs c (by simpa [exponentText] using hc)
      obtain ⟨h1, h2, h3, _, _⟩ := ne_of_isspace hsp
      exact ⟨isdigit_of_isspace hsp, h3, h1, h2⟩
    | some e0 =>
      simp only [exponentText, List.cons_append, List.head?_cons, Option.mem_def,
        Option.some.injEq] at hc
      subst hc
      cases e0.upper <;> decide
  have hF : ∀ c ∈ (fractionText f ++ (exponentText e ++ rest)).head?,
      isdigit c = false ∧ c ≠ '-' ∧ c ≠ '+' := by
    intro c hc
    cases f with
    | none =>
      obtain ⟨h1, _, h3, h4⟩ := hE c (by simpa [fractionText] using hc)
      exact ⟨h1, h3, h4⟩
    | some ds =>
      simp only [fractionText, List.cons_append, List.head?_cons, Option.mem_def,
        Option.some.injEq] at hc
      subst hc
      decide
  have hne : W.map digitChar = [] → f.getD [] ≠ [] := by
    intro hW
    rcases hWf with h | h
    · exact absurd (by simpa using hW) h
    · exact h
  have ht : ∀ c ∈ (W.map digitChar ++ (fractionText f ++ (exponentText e ++ rest))).head?,
      c ≠ '-' ∧ c ≠ '+' := by
    intro c hc
    cases W with
    | nil => exact (hF c (by simpa using hc)).2
    | cons d ds =>
      simp only [List.map_cons, List.cons_append, List.head?_cons, Option.mem_def,
        Option.some.injEq] at hc
      subst hc
      exact ⟨(digitChar_facts d).2.2.2.1, (digitChar_facts d).2.2.2.2.1⟩
  -- the buffer after the whitespace
  have hall : ∃ c cs, signText n ++ (W.map digitChar ++ (fractionText f
      ++ (exponentText e ++ rest))) = c :: cs ∧ isspace c = false := by
    cases n with
    | some b =>
      cases b with
      | true => exact ⟨'-', _, rfl, by decide⟩
      | false => exact ⟨'+', _, rfl, by decide⟩
    | none =>
      cases W with
      | nil =>
        have hf := hne rfl
        cases f with
        | none => exact absurd rfl hf
        | some ds => exact ⟨'.', ds.map digitChar ++ (exponentText e ++ rest), rfl, by decide⟩
      | cons d ds => exact ⟨digitChar d, _, rfl, (digitChar_facts d).2.2.1⟩
  obtain ⟨c, cs, hcs, hc⟩ := hall
  have hsentry : sentry ⟨ws ++ (Numeral.mk n W f e).text ++ rest, false⟩
      = (⟨signText n ++ (W.map digitChar ++ (fractionText f ++ (exponentText e ++ rest))),
          false⟩, true) := by
    have hskip : skipws (ws ++ (signText n ++ (W.map digitChar ++ (fractionText f
        ++ (exponentText e ++ rest))))) = c :: cs := by
      rw [skipws_append_of_space _ hws, hcs, skipws_of_head c cs hc]
    simp only [sentry, Numeral.text, List.append_assoc, Bool.false_eq_true, if_false, hskip]
    rw [hcs]
  obtain ⟨i1, i2⟩ := digits_split W (fractionText f ++ (exponentText e ++ rest))
    (fun c hc => (hF c hc).1)
  have hfr := readFraction_fractionText f (exponentText e ++ rest)
    (fun c hc => ⟨(hE c hc).1, (hE c hc).2.1⟩)
  have hcond : ¬ (W.map digitChar = [] ∧ (f.getD []).map digitChar = []) := by
    rintro ⟨h1, h2⟩
    exact hne h1 (by simpa using h2)
  simp only [extractFloat, hsentry, readSign_signText n _ ht, i1, i2, hfr, hcond, if_false,
    readExponent_exponentText _ e rest hex hrest, Bool.false_eq_true, digitsValue_map,
    List.length_map, Numeral.value, Numeral.fractionDigits, decide_eq_true_eq]
  by_cases hs : n = some true
  · simp [hs]
  · simp [hs]

theorem extractString_token (lead tok more : List Char)
    (hlead : ∀ c ∈ lead, isspace c = true)
    (htok : tok ≠ [] ∧ ∀ c ∈ tok, isspace c = false) (hmore : stops more = true) :
    extractString ⟨lead ++ tok ++ more, false⟩ = (String.mk tok, ⟨more, false⟩) := by
  obtain ⟨hne, hns⟩ := htok
  obtain ⟨c, cs, rfl⟩ := List.exists_cons_of_ne_nil hne
  have hc : isspace c = false := hns c (List.mem_cons_self _ _)
  have hskip : skipws (lead ++ (c :: cs ++ more)) = c :: (cs ++ more) := by
    rw [skipws_append_of_space _ hlead]
    exact skipws_of_head c _ hc
  obtain ⟨i1, i2⟩ := takeWhile_dropWhile_append (fun c => !isspace c) (c :: cs) more
    (fun d hd => by simp [hns d hd])
    (fun d hd => by simp [head_of_stops hmore d hd])
  simp only [List.cons_append] at i1 i2
  simp only [extractString, sentry, List.append_assoc, Bool.false_eq_true, if_false, hskip, i1,
    i2]

theorem stops_blank_append {b : List Char} (u : List Char) (hb : blank b = true) :
    stops (b ++ u) = true := by
  cases b with
  | nil => simp [blank] at hb
  | cons c cs =>
    simp only [blank, List.isEmpty_cons, Bool.not_false, List.all_cons, Bool.true_and,
      Bool.and_eq_true] at hb
    exact hb.1

theorem mem_blank {b : List Char} (hb : blank b = true) : ∀ c ∈ b, isspace c = true := by
  simp only [blank, Bool.and_eq_true, List.all_eq_true] at hb
  exact hb.2

/-- An operand in range is read as written: the extraction stores the `float` for its
number and leaves the stream, not failed, at what follows the operand. -/
theorem extractFloat_operand [FloatModel] (o : List Char × Numeral) (rest : List Char)
    (old : ℚ) (ho : inRangeOperand o = true) (hrest : stops rest = true) :
    extractFloat ⟨o.1 ++ o.2.text ++ rest, false⟩ old
      = (FloatModel.round o.2.value, ⟨rest, false⟩) := by
  simp only [inRangeOperand, Bool.and_eq_true, Bool.not_eq_true'] at ho
  obtain ⟨⟨hb, hw⟩, hov⟩ := ho
  rw [extractFloat_numeral o.2 o.1 rest old (mem_blank hb) hw hrest, hov]

theorem written_operands (lead : List Char) (ty : String)
    (ops : List (List Char × Numeral)) (rest : List Char)
    (hlead : ∀ c ∈ lead, isspace c = true)
    (hty : ty.toList ≠ [] ∧ ∀ c ∈ ty.toList, isspace c = false)
    (hmore : stops (ops.flatMap (fun o => o.1 ++ o.2.text) ++ rest) = true) :
    firstToken (written lead ty ops rest) = ty
      ∧ operands (written lead ty ops rest)
          = ⟨ops.flatMap (fun o => o.1 ++ o.2.text) ++ rest, false⟩ := by
  have h := extractString_token lead ty.toList
    (ops.flatMap (fun o => o.1 ++ o.2.text) ++ rest) hlead hty hmore
  have e : (⟨(written lead ty ops rest).toList, false⟩ : IStream)
      = ⟨lead ++ ty.toList ++ (ops.flatMap (fun o => o.1 ++ o.2.text) ++ rest), false⟩ := by
    simp [written, String.toList]
  simp only [firstToken, operands, e, h, and_true]
  rfl

/-- A statement of three operands in range: its type is the first token, and the three
extractions store the `float` of each number. -/
theorem extract3_written [FloatModel] (lead : List Char) (ty : String)
    (o1 o2 o3 : List Char × Numeral) (rest : List Char) (e : XMFLOAT3)
    (hty : ty.toList ≠ [] ∧ ∀ c ∈ ty.toList, isspace c = false)
    (hok : writtenOk lead [o1, o2, o3] rest = true) :
    firstToken (written lead ty [o1, o2, o3] rest) = ty
      ∧ extract3 (operands (written lead ty [o1, o2, o3] rest)) e
          = ⟨FloatModel.round o1.2.value, FloatModel.round o2.2.value,
              FloatModel.round o3.2.value⟩ := by
  simp only [writtenOk, List.all_cons, List.all_nil, Bool.and_true, Bool.and_eq_true,
    List.all_eq_true] at hok
  obtain ⟨⟨hlead, h1, h2, h3⟩, hrest⟩ := hok
  have b1 : blank o1.1 = true := by
    simp only [inRangeOperand, Bool.and_eq_true] at h1
    exact h1.1.1
  have b2 : blank o2.1 = true := by
    simp only [inRangeOperand, Bool.and_eq_true] at h2
    exact h2.1.1
  have b3 : blank o3.1 = true := by
    simp only [inRangeOperand, Bool.and_eq_true] at h3
    exact h3.1.1
  have hflat : [o1, o2, o3].flatMap (fun o => o.1 ++ o.2.text) ++ rest
      = o1.1 ++ o1.2.text ++ (o2.1 ++ o2.2.text ++ (o3.1 ++ o3.2.text ++ rest)) := by
    simp [List.flatMap]
  obtain ⟨hf, hop⟩ := written_operands lead ty [o1, o2, o3] rest hlead hty
    (by rw [hflat, List.append_assoc]; exact stops_blank_append _ b1)
  have s3 : stops (o3.1 ++ o3.2.text ++ rest) = true := by
    rw [List.append_assoc]
    exact stops_blank_append _ b3
  have s2 : stops (o2.1 ++ o2.2.text ++ (o3.1 ++ o3.2.text ++ rest)) = true := by
    rw [List.append_assoc]
    exact stops_blank_append _ b2
  refine ⟨hf, ?_⟩
  rw [hop, hflat]
  simp only [extract3, extractFloat_operand o1 _ e.x h1 s2,
    extractFloat_operand o2 _ e.y h2 s3, extractFloat_operand o3 _ e.z h3 hrest]

/-- A statement of two operands in range: its type is the first token, and the two
extractions store the `float` of each number. -/
theorem extract2_written [FloatModel] (lead : List Char) (ty : String)
    (o1 o2 : List Char × Numeral) (rest : List Char) (e : XMFLOAT2)
    (hty : ty.toList ≠ [] ∧ ∀ c ∈ ty.toList, isspace c = false)
    (hok : writtenOk lead [o1, o2] rest = true) :
    firstToken (written lead ty [o1, o2] rest) = ty
      ∧ extract2 (operands (written lead ty [o1, o2] rest)) e
          = ⟨FloatModel.round o1.2.value, FloatModel.round o2.2.value⟩ := by
  simp only [writtenOk, List.all_cons, List.all_nil, Bool.and_true, Bool.and_eq_true,
    List.all_eq_true] at hok
  obtain ⟨⟨hlead, h1, h2⟩, hrest⟩ := hok
  have b1 : blank o1.1 = true := by
    simp only [inRangeOperand, Bool.and_eq_true] at h1
    exact h1.1.1
  have b2 : blank o2.1 = true := by
    simp only [inRangeOperand, Bool.and_eq_true] at h2
    exact h2.1.1
  have hflat : [o1, o2].flatMap (fun o => o.1 ++ o.2.text) ++ rest
      = o1.1 ++ o1.2.text ++ (o2.1 ++ o2.2.text ++ rest) := by
    simp [List.flatMap]
  obtain ⟨hf, hop⟩ := written_operands lead ty [o1, o2] rest hlead hty
    (by rw [hflat, List.append_assoc]; exact stops_blank_append _ b1)
  have s2 : stops (o2.1 ++ o2.2.text ++ rest) = true := by
    rw [List.append_assoc]
    exact stops_blank_append _ b2
  refine ⟨hf, ?_⟩
  rw [hop, hflat]
  simp only [extract2, extractFloat_operand o1 _ e.x h1 s2,
    extractFloat_operand o2 _ e.y h2 hrest]

/-! ## The raw tables and the output vertex in terms of the numbers written -/

theorem vStatements_getElem? [FloatModel] {lines : List String} {i : Nat} {p : XMFLOAT3}
    (h : (vStatements lines)[i]? = some p) :
    ∃ l, (lines.filter (fun l => firstToken l = "v"))[i]? = some l
      ∧ p = extract3 (operands l) ⟨0, 0, 0⟩ := by
  rw [vStatements, List.getElem?_map] at h
  obtain ⟨l, hl, rfl⟩ := Option.map_eq_some'.1 h
  exact ⟨l, hl, rfl⟩

theorem vtStatements_getElem? [FloatModel] {lines : List String} {i : Nat} {p : XMFLOAT2}
    (h : (vtStatements lines)[i]? = some p) :
    ∃ l, (lines.filter (fun l => firstToken l = "vt"))[i]? = some l
      ∧ p = extract2 (operands l) ⟨0, 0⟩ := by
  rw [vtStatements, List.getElem?_map] at h
  obtain ⟨l, hl, rfl⟩ := Option.map_eq_some'.1 h
  exact ⟨l, hl, rfl⟩

theorem vnStatements_getElem? [FloatModel] {lines : List String} {i : Nat} {p : XMFLOAT3}
    (h : (vnStatements lines)[i]? = some p) :
    ∃ l, (lines.filter (fun l => firstToken l = "vn"))[i]? = some l
      ∧ p = extract3 (operands l) ⟨0, 0, 0⟩ := by
  rw [vnStatements, List.getElem?_map] at h
  obtain ⟨l, hl, rfl⟩ := Option.map_eq_some'.1 h
  exact ⟨l, hl, rfl⟩

theorem token_v : ("v" : String).toList ≠ [] ∧ ∀ c ∈ ("v" : String).toList, isspace c = false := by
  decide

theorem token_vt :
    ("vt" : String).toList ≠ [] ∧ ∀ c ∈ ("vt" : String).toList, isspace c = false := by
  decide

theorem token_vn :
    ("vn" : String).toList ≠ [] ∧ ∀ c ∈ ("vn" : String).toList, isspace c = false := by
  decide

/-- The example of the coordinate flip in binary32: the texture coordinate written 0.3 is
flipped to the `float` nearest 0.7. -/
theorem flip_three_tenths :
    FloatModel.round threeTenths.value = 5033165 / 16777216
      ∧ FloatModel.round (1 - FloatModel.round threeTenths.value) = 11744051 / 16777216
      ∧ FloatModel.round (7 / 10) = 11744051 / 16777216 := by
  decide!


/-- An example of a written statement: leading whitespace, a tab among the separators, a
sign, a fraction, an exponent with `E` and `+`, and a comment after the operands. The
loader reads the values of the numbers written. -/
theorem written_example :
    written [' '] "vn" [([' ', '\t'], minusOneFiftyE2), ([' '], threeTenths), ([' '], oneDigit 7)]
        " # x".toList = " vn \t-1.50E+2 0.3 7 # x"
      ∧ minusOneFiftyE2.value = -150 ∧ threeTenths.value = 3 / 10 ∧ (oneDigit 7).value = 7
      ∧ writtenOk [' '] [([' ', '\t'], minusOneFiftyE2), ([' '], threeTenths), ([' '], oneDigit 7)]
          " # x".toList = true
      ∧ parseLines fresh [" vn \t-1.50E+2 0.3 7 # x"]
          = .next { fresh with vn := [⟨-150, 5033165 / 16777216, 7⟩], vni := 0 } := by
  decide!

/-- C21, as the code has it: the raw tables preserve source order. After the loop has
read the lines `pre` of a file from the fresh globals, v, vt and vn have one entry for
each `v`, `vt` and `vn` statement among `pre`, the k-th entry (0-based) filled by the
k-th statement of its kind in file order. When that statement is written as its type
followed by its decimal numbers (three, or two for `vt`), each after whitespace and
within the range of `float`, the entry holds these numbers as `float` values: each
operand rounded to the `float` that `>>` stores for it. -/
theorem objReader_raw_tables [FloatModel] (pre : List String) (g : Globals)
    (h : parseLines fresh pre = .next g) :
    g.v.length = countType "v" pre ∧ g.vt.length = countType "vt" pre
      ∧ g.vn.length = countType "vn" pre
      ∧ (∀ (k : Nat) (l : String), (pre.filter (fun l => firstToken l = "v"))[k]? = some l →
          g.v[k]? = some (extract3 (operands l) ⟨0, 0, 0⟩))
      ∧ (∀ (k : Nat) (l : String), (pre.filter (fun l => firstToken l = "vt"))[k]? = some l →
          g.vt[k]? = some (extract2 (operands l) ⟨0, 0⟩))
      ∧ (∀ (k : Nat) (l : String), (pre.filter (fun l => firstToken l = "vn"))[k]? = some l →
          g.vn[k]? = some (extract3 (operands l) ⟨0, 0, 0⟩))
      ∧ (∀ (k : Nat) (lead : List Char) (x y z : List Char × Numeral) (rest : List Char),
          writtenOk lead [x, y, z] rest = true →
          (pre.filter (fun l => firstToken l = "v"))[k]? = some (written lead "v" [x, y, z] rest) →
          g.v[k]? = some ⟨FloatModel.round x.2.value, FloatModel.round y.2.value,
            FloatModel.round z.2.value⟩)
      ∧ (∀ (k : Nat) (lead : List Char) (x y : List Char × Numeral) (rest : List Char),
          writtenOk lead [x, y] rest = true →
          (pre.filter (fun l => firstToken l = "vt"))[k]? = some (written lead "vt" [x, y] rest) →
          g.vt[k]? = some ⟨FloatModel.round x.2.value, FloatModel.round y.2.value⟩)
      ∧ (∀ (k : Nat) (lead : List Char) (x y z : List Char × Numeral) (rest : List Char),
          writtenOk lead [x, y, z] rest = true →
          (pre.filter (fun l => firstToken l = "vn"))[k]? = some (written lead "vn" [x, y, z] rest) →
          g.vn[k]? = some ⟨FloatModel.round x.2.value, FloatModel.round y.2.value,
            FloatModel.round z.2.value⟩) := by
  obtain ⟨ev, evt, evn⟩ := parseLines_next_raw fresh_tracks h
  simp only [fresh, List.nil_append] at ev evt evn
  have hv : ∀ (k : Nat) (l : String),
      (pre.filter (fun l => firstToken l = "v"))[k]? = some l →
      g.v[k]? = some (extract3 (operands l) ⟨0, 0, 0⟩) := by
    intro k l hk
    rw [ev, vStatements, List.getElem?_map, hk]
    rfl
  have hvt : ∀ (k : Nat) (l : String),
      (pre.filter (fun l => firstToken l = "vt"))[k]? = some l →
      g.vt[k]? = some (extract2 (operands l) ⟨0, 0⟩) := by
    intro k l hk
    rw [evt, vtStatements, List.getElem?_map, hk]
    rfl
  have hvn : ∀ (k : Nat) (l : String),
      (pre.filter (fun l => firstToken l = "vn"))[k]? = some l →
      g.vn[k]? = some (extract3 (operands l) ⟨0, 0, 0⟩) := by
    intro k l hk
    rw [evn, vnStatements, List.getElem?_map, hk]
    rfl
  refine ⟨?_, ?_, ?_, hv, hvt, hvn, ?_, ?_, ?_⟩
  · rw [ev, vStatements_length]
  · rw [evt, vtStatements_length]
  · rw [evn, vnStatements_length]
  · intro k lead x y z rest hok hk
    rw [hv k _ hk, (extract3_written lead "v" x y z rest _ token_v hok).2]
  · intro k lead x y rest hok hk
    rw [hvt k _ hk, (extract2_written lead "vt" x y rest _ token_vt hok).2]
  · intro k lead x y z rest hok hk
    rw [hvn k _ hk, (extract3_written lead "vn" x y z rest _ token_vn hok).2]

/-- C21, counterexample: the statement `v 1e40 2 3` has the three operands 10^40, 2 and
3, and the entry it fills holds the largest finite `float` and two zeros: the first
operand lies beyond the range of `float`, the extraction stores the largest value and
sets the fail state, and the second and third operand are not read. -/
theorem objReader_raw_tables_counterexample :
    "v 1e40 2 3" = written [] "v" [([' '], tenToForty), ([' '], oneDigit 2), ([' '], oneDigit 3)] []
      ∧ tenToForty.value = 10 ^ 40 ∧ (oneDigit 2).value = 2 ∧ (oneDigit 3).value = 3
      ∧ parseLines fresh ["v 1e40 2 3"] = .next { fresh with v := [⟨FLT_MAX, 0, 0⟩], vi := 0 } := by
  decide!

theorem objReader_raw_tables_witness :
    twoTrianglesHeadRead.v.length = countType "v" twoTrianglesHead
      ∧ twoTrianglesHeadRead.v[0]? = some ⟨FloatModel.round (oneDigit 0).value,
          FloatModel.round (oneDigit 0).value, FloatModel.round (oneDigit 5).value⟩
      ∧ twoTrianglesHeadRead.vt[0]? = some ⟨FloatModel.round (oneDigit 0).value,
          FloatModel.round threeTenths.value⟩
      ∧ twoTrianglesHeadRead.vn[0]? = some ⟨FloatModel.round (oneDigit 0).value,
          FloatModel.round (oneDigit 0).value, FloatModel.round (oneDigit 1).value⟩ :=
  ⟨(objReader_raw_tables twoTrianglesHead twoTrianglesHeadRead twoTrianglesHead_read).1,
    (objReader_raw_tables twoTrianglesHead twoTrianglesHeadRead twoTrianglesHead_read).2.2.2.2.2.2.1
      0 [] ([' '], oneDigit 0) ([' '], oneDigit 0) ([' '], oneDigit 5) [] (by decide!) (by decide),
    (objReader_raw_tables twoTrianglesHead twoTrianglesHeadRead twoTrianglesHead_read).2.2.2.2.2.2.2.1
      0 [] ([' '], oneDigit 0) ([' '], threeTenths) [] (by decide!) (by decide),
    (objReader_raw_tables twoTrianglesHead twoTrianglesHeadRead twoTrianglesHead_read).2.2.2.2.2.2.2.2
      0 [] ([' '], oneDigit 0) ([' '], oneDigit 0) ([' '], oneDigit 1) [] (by decide!) (by decide)⟩


/-- C2, as the code has it: for every face triplet a/b/c of a valid input, the triplet
resolves to a vertex of the vertex table (the k-th triplet of the face statement `l` to
the index left in OurIndicesFaceTriplet[k], read in the table of the finished load)
that is made of the a-th `v` statement, the b-th `vt` statement and the c-th `vn`
statement of the file. When these three statements are written as their type followed
by decimal numbers within the range of `float`, the vertex has the position
(x, y, -z), the texture coordinate (u, 1 - v) and the normal (x, y, -z) of the numbers
written, as `float` values: every operand is rounded to the `float` that `>>` stores
for it, and `1 - v` is the `float` that `1.0f - v` gives; x, y and u are copied
unchanged, and the negation is exact. -/
theorem face_triplet_vertex [FloatModel] (pre post : List String) (l : String)
    (hvalid : validFile (pre ++ l :: post) = true) (hf : firstToken l = "f") :
    ∃ g g1 gf, parseLines fresh pre = .next g ∧ statement g l = .next g1
      ∧ objReader fresh (some (pre ++ l :: post)) = some (0, gf)
      ∧ ∀ k, k < 3 →
        ∃ (a b c : Int) (lv lvt lvn : String) (j : Nat),
          (triplets 3 (operands l))[k]? = some (some a, some b, some c)
            ∧ 1 ≤ a ∧ 1 ≤ b ∧ 1 ≤ c
            ∧ ((pre ++ l :: post).filter (fun s => firstToken s = "v"))[(a - 1).toNat]?
                = some lv
            ∧ ((pre ++ l :: post).filter (fun s => firstToken s = "vt"))[(b - 1).toNat]?
                = some lvt
            ∧ ((pre ++ l :: post).filter (fun s => firstToken s = "vn"))[(c - 1).toNat]?
                = some lvn
            ∧ g1.OurIndicesFaceTriplet[k]? = some (j : Int)
            ∧ ∀ (lead lead1 lead2 rest rest1 rest2 : List Char)
                (x y z u w nx ny nz : List Char × Numeral),
                writtenOk lead [x, y, z] rest = true →
                writtenOk lead1 [u, w] rest1 = true →
                writtenOk lead2 [nx, ny, nz] rest2 = true →
                lv = written lead "v" [x, y, z] rest →
                lvt = written lead1 "vt" [u, w] rest1 →
                lvn = written lead2 "vn" [nx, ny, nz] rest2 →
                gf.OurVertices[j]? = some
                  ⟨⟨FloatModel.round x.2.value, FloatModel.round y.2.value,
                      -FloatModel.round z.2.value⟩,
                    ⟨FloatModel.round nx.2.value, FloatModel.round ny.2.value,
                      -FloatModel.round nz.2.value⟩,
                    ⟨FloatModel.round u.2.value,
                      FloatModel.round (1 - FloatModel.round w.2.value)⟩⟩ := by
  obtain ⟨g, g1, gf, hg, hst, ho, H⟩ := face_triplet_read pre post l hvalid hf
  refine ⟨g, g1, gf, hg, hst, ho, fun k hk => ?_⟩
  obtain ⟨a, b, c, p, tc, n, j, ht, a1, b1, c1, hp, htc, hn, hj, hv⟩ := H k hk
  obtain ⟨lv, hlv, rfl⟩ := vStatements_getElem? hp
  obtain ⟨lvt, hlvt, rfl⟩ := vtStatements_getElem? htc
  obtain ⟨lvn, hlvn, rfl⟩ := vnStatements_getElem? hn
  refine ⟨a, b, c, lv, lvt, lvn, j, ht, a1, b1, c1, hlv, hlvt, hlvn, hj, ?_⟩
  intro lead lead1 lead2 rest rest1 rest2 x y z u w nx ny nz ok ok1 ok2 e e1 e2
  subst e e1 e2
  rw [hv, (extract3_written lead "v" x y z rest _ token_v ok).2,
    (extract2_written lead1 "vt" u w rest1 _ token_vt ok1).2,
    (extract3_written lead2 "vn" nx ny nz rest2 _ token_vn ok2).2]

/-- C2, counterexample: the file `hugePosition` is valid, its `v` statement has the
operands 10^40, 2 and 3, and the vertex that the triplets 1/1/1 resolve to has the
position (FLT_MAX, 0, 0), not (x, y, -z) of the operands: the first operand lies beyond
the range of `float`, and the other two are not read. -/
theorem face_triplet_vertex_counterexample :
    validFile hugePosition = true
      ∧ hugePosition.head? = some
          (written [] "v" [([' '], tenToForty), ([' '], oneDigit 2), ([' '], oneDigit 3)] [])
      ∧ tenToForty.value = 10 ^ 40 ∧ (oneDigit 2).value = 2 ∧ (oneDigit 3).value = 3
      ∧ (objReader fresh (some hugePosition)).map (fun r => (r.1, r.2.OurVertices))
          = some (0, [⟨⟨FLT_MAX, 0, 0⟩, ⟨0, 0, -1⟩, ⟨0, 1⟩⟩]) := by
  decide!

theorem face_triplet_vertex_witness :
    ∃ g g1 gf, parseLines fresh twoTrianglesHead = .next g
      ∧ statement g "f 1/1/1 2/1/1 3/1/1" = .next g1
      ∧ objReader fresh (some (twoTrianglesHead ++ "f 1/1/1 2/1/1 3/1/1" ::
          ["f 1/1/1 3/1/1 2/1/1"])) = some (0, gf)
      ∧ ∀ k, k < 3 →
        ∃ (a b c : Int) (lv lvt lvn : String) (j : Nat),
          (triplets 3 (operands "f 1/1/1 2/1/1 3/1/1"))[k]? = some (some a, some b, some c)
            ∧ 1 ≤ a ∧ 1 ≤ b ∧ 1 ≤ c
            ∧ ((twoTrianglesHead ++ "f 1/1/1 2/1/1 3/1/1" :: ["f 1/1/1 3/1/1 2/1/1"]).filter
                (fun s => firstToken s = "v"))[(a - 1).toNat]? = some lv
            ∧ ((twoTrianglesHead ++ "f 1/1/1 2/1/1 3/1/1" :: ["f 1/1/1 3/1/1 2/1/1"]).filter
                (fun s => firstToken s = "vt"))[(b - 1).toNat]? = some lvt
            ∧ ((twoTrianglesHead ++ "f 1/1/1 2/1/1 3/1/1" :: ["f 1/1/1 3/1/1 2/1/1"]).filter
                (fun s => firstToken s = "vn"))[(c - 1).toNat]? = some lvn
            ∧ g1.OurIndicesFaceTriplet[k]? = some (j : Int)
            ∧ ∀ (lead lead1 lead2 rest rest1 rest2 : List Char)
                (x y z u w nx ny nz : List Char × Numeral),
                writtenOk lead [x, y, z] rest = true →
                writtenOk lead1 [u, w] rest1 = true →
                writtenOk lead2 [nx, ny, nz] rest2 = true →
                lv = written lead "v" [x, y, z] rest →
                lvt = written lead1 "vt" [u, w] rest1 →
                lvn = written lead2 "vn" [nx, ny, nz] rest2 →
                gf.OurVertices[j]? = some
                  ⟨⟨FloatModel.round x.2.value, FloatModel.round y.2.value,
                      -FloatModel.round z.2.value⟩,
                    ⟨FloatModel.round nx.2.value, FloatModel.round ny.2.value,
                      -FloatModel.round nz.2.value⟩,
                    ⟨FloatModel.round u.2.value,
                      FloatModel.round (1 - FloatModel.round w.2.value)⟩⟩ :=
  face_triplet_vertex twoTrianglesHead ["f 1/1/1 3/1/1 2/1/1"] "f 1/1/1 2/1/1 3/1/1"
    (by decide) (by decide)

end ObjReader
